import Mathlib

/-!
# Flatpak backend of the software center: resource table, search and refresh

A shallow embedding of `libdiscover/backends/FlatpakBackend/FlatpakBackend.cpp`.

* `QString` values are Lean strings; the Qt string operations used by the
  backend are written out on the character lists.
* `m_resources` is an association list from keys to resource records, in
  iteration order.  Resources are heap objects in the source; an object that
  sits in the table is addressed by its key (`ResourceRef.slot`), the object
  that is being built and is not yet in the table is `ResourceRef.fresh`.
* libflatpak, AppStream and the file system are oracles, collected in
  `Native` and `FlatpakInstallation`; the native state is fixed while the
  backend runs, so an oracle answers the same question the same way.
* `QString::arg` replaces the place marker with the lowest number and reads, in
  a chain of calls, the text of the earlier replacements again; `arg` and
  `args` follow it.  One call on a format with one marker, as in
  `QString("%1.desktop").arg(id)`, is the concatenation it looks like and is
  written so; `g_strdup_printf("%s.desktop", name)` is a concatenation too.
* `updateAppSize` calls itself on the runtime of a resource and the depth of
  these calls has no bound in the source; the functions that reach it take a
  bound `fuel` and answer `none` when it is used up.
* A transaction is the record of what the backend passes to the constructor
  of `FlatpakTransaction` and of the handler it connects to `statusChanged`;
  the class itself, like `FlatpakResource`, is declared outside this file.
* `PackageKitBackend::isValid` is taken from
  `libmuon/backends/PackageKitBackend/PackageKitBackend.h`.
-/

namespace FlatpakBackend

/-! ## Qt string operations -/

/-- The Qt call `QString::endsWith(s)`. -/
def endsWith (s suffix : String) : Bool :=
  suffix.data.isSuffixOf s.data

/-- The worker of `QString::split(sep)` with the default `KeepEmptyParts`:
`cur` collects, reversed, the characters of the part being read. -/
def splitAux (sep : Char) : List Char → List Char → List String
  | [], cur => [String.mk cur.reverse]
  | c :: cs, cur =>
    if c = sep then String.mk cur.reverse :: splitAux sep cs []
    else splitAux sep cs (c :: cur)

/-- The Qt call `QString::split(sep)`; the empty string splits into one empty part. -/
def split (s : String) (sep : Char) : List String :=
  splitAux sep s.data []

/-- The Qt call `QChar::digitValue`: an ASCII digit has its value, any other
ASCII character has none; which characters beyond ASCII are decimal digits is
decided by the character tables of Qt, the parameter `digits`. -/
def digitValue (digits : Char → Option (Fin 10)) (c : Char) : Option Nat :=
  if '0' ≤ c ∧ c ≤ '9' then some (c.toNat - '0'.toNat)
  else if c.toNat < 128 then none
  else (digits c).map (fun d => d.val)

/-- The place marker that `QString::arg` reads right after a `%`: an optional
`L`, then one digit, or two when the next character is a digit too.  The
answer is the number of the marker and the count of characters read after the
`%`; `none` when no digit follows. -/
def argEscape (digits : Char → Option (Fin 10)) (cs : List Char) : Option (Nat × Nat) :=
  let skipped : Nat × List Char :=
    match cs with
    | [] => (0, [])
    | c :: r => if c = 'L' then (1, r) else (0, c :: r)
  match skipped.2 with
  | [] => none
  | d :: r =>
    match digitValue digits d with
    | none => none
    | some n =>
      match r with
      | [] => some (n, skipped.1 + 1)
      | d2 :: _ =>
        match digitValue digits d2 with
        | some n2 => some (10 * n + n2, skipped.1 + 2)
        | none => some (n, skipped.1 + 1)

/-- The first pass of `QString::arg` (`findArgEscapes`): the lowest number among
the place markers of the string, `none` when it has no marker. -/
def argMinEscape (digits : Char → Option (Fin 10)) : List Char → Option Nat
  | [] => none
  | c :: cs =>
    if c = '%' then
      match argEscape digits cs with
      | some (n, _) =>
        match argMinEscape digits cs with
        | some m => some (min n m)
        | none => some n
      | none => argMinEscape digits cs
    else argMinEscape digits cs

/-- The second pass of `QString::arg` (`replaceArgEscapes`, field width 0):
every marker with the number `minEscape` is replaced by `a`, all other text is
kept; `skip` counts the characters of a replaced marker still to pass over. -/
def replaceArgEscapes (digits : Char → Option (Fin 10)) (minEscape : Nat) (a : List Char) :
    Nat → List Char → List Char
  | _, [] => []
  | skip + 1, _ :: cs => replaceArgEscapes digits minEscape a skip cs
  | 0, c :: cs =>
    if c = '%' then
      match argEscape digits cs with
      | some (n, len) =>
        if n = minEscape then a ++ replaceArgEscapes digits minEscape a len cs
        else c :: replaceArgEscapes digits minEscape a 0 cs
      | none => c :: replaceArgEscapes digits minEscape a 0 cs
    else c :: replaceArgEscapes digits minEscape a 0 cs

/-- The Qt call `QString::arg(a)`: every occurrence of the place marker with the
lowest number is replaced by `a`; a string without a marker is returned as it
is.  The text of an earlier replacement is part of the string that the next
call of a chain reads. -/
def arg (digits : Char → Option (Fin 10)) (s a : String) : String :=
  match argMinEscape digits s.data with
  | none => s
  | some m => String.mk (replaceArgEscapes digits m a.data 0 s.data)

/-- A chain of calls `s.arg(a1).arg(a2)...`. -/
def args (digits : Char → Option (Fin 10)) (s : String) (values : List String) : String :=
  values.foldl (arg digits) s

/-- The Qt call `QString::replace(before, after)` on characters. -/
def replaceChar (s : String) (before after : Char) : String :=
  String.mk (s.data.map (fun c => if c = before then after else c))

/-- The Qt call `QString::contains(q, Qt::CaseInsensitive)`: `q` occurs in `s`
once both are case-folded.  The folding of characters belongs to Qt and is a
parameter. -/
def containsCaseInsensitive (fold : Char → Char) (s q : String) : Bool :=
  decide ((q.data.map fold) <:+: (s.data.map fold))

/-! ## Data model -/

/-- The enumeration `FlatpakResource::Scope`. -/
inductive Scope where
  | System
  | User
  deriving DecidableEq, Repr

/-- The enumeration `FlatpakResource::ResourceType`. -/
inductive ResourceType where
  | DesktopApp
  | Runtime
  deriving DecidableEq, Repr

/-- Modelled from the spec: the enumeration `AbstractResource::State`, declared
outside the sources at hand; the spec lists the install states
`None | Installing | Installed | Removing | UpgradeAvailable`. -/
inductive State where
  | None
  | Installing
  | Installed
  | Removing
  | UpgradeAvailable
  deriving DecidableEq, Repr

/-- The libflatpak enumeration `FlatpakRefKind`. -/
inductive FlatpakRefKind where
  | FLATPAK_REF_KIND_APP
  | FLATPAK_REF_KIND_RUNTIME
  deriving DecidableEq, Repr

/-- The kinds of `AppStream::Component::Kind` the backend can meet; only
`KindDesktopApp` is tested for. -/
inductive ComponentKind where
  | KindUnknown
  | KindGeneric
  | KindDesktopApp
  | KindRuntime
  deriving DecidableEq, Repr

/-- An `AppStream::Component` as far as the backend reads it: id, name,
summary, kind, and the id of its flatpak bundle (`none` when
`bundle(KindFlatpak).isEmpty()`). -/
structure Component where
  id : String
  name : String
  summary : String
  kind : ComponentKind
  bundleId : Option String
  deriving DecidableEq, Repr

/-- A libflatpak `FlatpakRef`. -/
structure FlatpakRef where
  kind : FlatpakRefKind
  name : String
  arch : String
  branch : String
  commit : String
  deriving DecidableEq, Repr

/-- A libflatpak `FlatpakInstalledRef`: a ref with origin and installed size
(a `guint64`). -/
structure FlatpakInstalledRef where
  ref : FlatpakRef
  origin : String
  installedSize : Nat
  deriving DecidableEq, Repr

/-- Modelled from the spec: the class `FlatpakResource` is declared outside the
sources at hand.  The record carries the attributes the spec lists for a
Resource (architecture, branch, commit, runtime reference, size, install
state, scope, origin) next to its AppStream component; `m_size = 0` is the
unresolved size. -/
structure FlatpakResource where
  m_appdata : Component
  m_arch : String
  m_branch : String
  m_commit : String
  m_origin : String
  m_flatpakName : String
  m_runtime : String
  m_iconPath : String
  m_scope : Scope
  m_type : ResourceType
  m_state : State
  m_size : Nat
  deriving DecidableEq, Repr

namespace FlatpakResource

/-- Modelled from the spec: the constructor `FlatpakResource(component, backend)`,
outside the sources at hand.  A resource is created with nothing but its
component known: no architecture, branch, commit, origin, flatpak name or
runtime, size unresolved, state `None`. -/
def new (component : Component) : FlatpakResource :=
  { m_appdata := component, m_arch := "", m_branch := "", m_commit := "",
    m_origin := "", m_flatpakName := "", m_runtime := "", m_iconPath := "",
    m_scope := Scope.System, m_type := ResourceType.DesktopApp,
    m_state := State.None, m_size := 0 }

/-- The getter `appstreamId()`: the id of the component. -/
def appstreamId (r : FlatpakResource) : String := r.m_appdata.id

/-- The getter `name()`: the display name of the component. -/
def name (r : FlatpakResource) : String := r.m_appdata.name

/-- The getter `comment()`: the summary of the component. -/
def comment (r : FlatpakResource) : String := r.m_appdata.summary

/-- Modelled from the spec: `FlatpakResource::scopeAsString`, outside the
sources at hand; the spec writes the scopes `system` and `user`. -/
def scopeAsString : Scope → String
  | Scope.System => "system"
  | Scope.User => "user"

/-- Modelled from the spec: `FlatpakResource::typeAsString`, outside the
sources at hand; the spec writes the resource kinds `app` and `runtime`. -/
def typeAsString : ResourceType → String
  | ResourceType.DesktopApp => "app"
  | ResourceType.Runtime => "runtime"

/-- Modelled from the spec: `FlatpakResource::uniqueId()`, outside the sources
at hand: the composite key scope/flatpak/origin/kind/name/branch, the name
being the AppStream id as in `compareAppFlatpakRef`. -/
def uniqueId (r : FlatpakResource) : String :=
  scopeAsString r.m_scope ++ "/" ++ "flatpak" ++ "/" ++ r.m_origin ++ "/" ++
    typeAsString r.m_type ++ "/" ++ r.appstreamId ++ "/" ++ r.m_branch

/-- Modelled from the spec: `AbstractResource::isInstalled()`, outside the
sources at hand: the resource is installed, with or without a pending
upgrade. -/
def isInstalled (r : FlatpakResource) : Bool :=
  r.m_state = State.Installed || r.m_state = State.UpgradeAvailable

end FlatpakResource

open FlatpakResource

/-! ## The resource table -/

/-- The member `m_resources`: keys with their resources, in iteration order.  The
container is declared in `FlatpakBackend.h`, outside the sources at hand; the
order of iteration is the order of the list, and a new key goes to its end. -/
abbrev Table := List (String × FlatpakResource)

namespace Table

/-- The Qt call `m_resources.keys()`. -/
def keys (t : Table) : List String := t.map Prod.fst

/-- The resources of the table in iteration order (`foreach (res, m_resources)`). -/
def values (t : Table) : List FlatpakResource := t.map Prod.snd

/-- The Qt call `m_resources.value(key)`; `none` is the null pointer. -/
def value : Table → String → Option FlatpakResource
  | [], _ => none
  | (k, r) :: t, key => if k = key then some r else value t key

/-- The Qt call `m_resources.insert(key, r)`: the resource under an existing
key is replaced, a new key is added. -/
def insert : Table → String → FlatpakResource → Table
  | [], key, r => [(key, r)]
  | (k, r0) :: t, key, r => if k = key then (k, r) :: t else (k, r0) :: insert t key r

/-- Writing through a pointer to the object stored under `key`: the object
changes, its key does not. -/
def modify : Table → String → (FlatpakResource → FlatpakResource) → Table
  | [], _, _ => []
  | (k, r0) :: t, key, f => if k = key then (k, f r0) :: t else (k, r0) :: modify t key f

end Table

/-! ## The native side: libflatpak, AppStream and the file system -/

/-- A libflatpak `FlatpakRemote`: its name, whether it is disabled, and the path
of its appstream directory (`none` when `flatpak_remote_get_appstream_dir`
gives null). -/
structure FlatpakRemote where
  name : String
  disabled : Bool
  appstreamDir : Option String

/-- A libflatpak `FlatpakInstallation` in a fixed native state: what the calls
on the installation answer.  `none` is the null or `FALSE` answer of a call. -/
structure FlatpakInstallation where
  /-- The call `flatpak_installation_get_is_user`. -/
  isUser : Bool
  /-- The call `flatpak_installation_get_path`. -/
  path : String
  /-- The call `flatpak_installation_get_installed_ref` on kind, name, arch, branch. -/
  getInstalledRef : FlatpakRefKind → String → String → String → Option FlatpakInstalledRef
  /-- The call `flatpak_installation_list_installed_refs_by_kind`. -/
  listInstalledRefsByKind : FlatpakRefKind → Option (List FlatpakInstalledRef)
  /-- The call `flatpak_installation_list_remotes`. -/
  listRemotes : Option (List FlatpakRemote)
  /-- The call `flatpak_installation_fetch_remote_metadata_sync` on origin and ref. -/
  fetchRemoteMetadata : String → FlatpakRef → Option String
  /-- The call `flatpak_installation_fetch_remote_size_sync` on origin and ref:
  download size and installed size. -/
  fetchRemoteSize : String → FlatpakRef → Option (Nat × Nat)

/-- The collaborators of the backend that are not calls on an installation:
libflatpak, AppStream, Qt files, settings and character tables, and the one
getter of `FlatpakResource` that is more than a field read. -/
structure Native where
  /-- The decimal digits beyond ASCII of `QChar::digitValue`, which
  `QString::arg` consults when it reads a place marker. -/
  digitValue : Char → Option (Fin 10)
  /-- The getter `FlatpakResource::flatpakName()`, outside the sources at hand.
  `compareAppFlatpakRef` compares it with an application id for resources that
  have no flatpak name set, so it is not taken to be the plain field. -/
  flatpakName : FlatpakResource → String
  /-- The call `flatpak_ref_parse`. -/
  flatpak_ref_parse : String → Option FlatpakRef
  /-- The call `QFile::exists`. -/
  fileExists : String → Bool
  /-- Opening and reading a text file; `none` when `QFile::open` fails. -/
  readFile : String → Option String
  /-- Whether `QTemporaryFile::open` succeeds. -/
  tempFileOpens : Bool
  /-- The value of `runtime` in group `Application` that `QSettings` reads from
  a file of the given content. -/
  settingsRuntime : String → String
  /-- The call `as_metadata_parse_file` on a collection XML file: the components,
  or `none` on a parse error. -/
  parseAppstreamFile : String → Option (List Component)
  /-- The files of a directory (`QDir::entryList`), `none` when the directory
  does not exist. -/
  dirEntries : String → Option (List String)
  /-- The call `as_metadata_parse_file` on a desktop entry: the component, or
  `none` on a parse error. -/
  parseDesktopEntry : String → Option Component

/-! ## Matching resources with installed refs -/

/-- The method `FlatpakBackend::createFakeRef`. -/
def createFakeRef (env : Native) (resource : FlatpakResource) : Option FlatpakRef :=
  env.flatpak_ref_parse (args env.digitValue "%1/%2/%3/%4"
    [typeAsString resource.m_type, env.flatpakName resource, resource.m_arch, resource.m_branch])

/-- The identity that `compareAppFlatpakRef` builds from an installed ref:
the application id is the ref name, with `.desktop` appended for an app. -/
def refAppId (ref : FlatpakInstalledRef) : String :=
  if ref.ref.kind = FlatpakRefKind.FLATPAK_REF_KIND_APP then ref.ref.name ++ ".desktop"
  else ref.ref.name

/-- The composite identity `uniqueId` local to `compareAppFlatpakRef`. -/
def refUniqueId (env : Native) (flatpakInstallation : FlatpakInstallation)
    (ref : FlatpakInstalledRef) : String :=
  args env.digitValue "%1/%2/%3/%4/%5/%6"
    [scopeAsString (if flatpakInstallation.isUser then Scope.User else Scope.System),
      "flatpak", ref.origin,
      typeAsString (if ref.ref.kind = FlatpakRefKind.FLATPAK_REF_KIND_APP
        then ResourceType.DesktopApp else ResourceType.Runtime),
      refAppId ref, ref.ref.branch]

/-- The method `FlatpakBackend::compareAppFlatpakRef`. -/
def compareAppFlatpakRef (env : Native) (flatpakInstallation : FlatpakInstallation)
    (resource : FlatpakResource) (ref : FlatpakInstalledRef) : Bool :=
  if uniqueId resource = refUniqueId env flatpakInstallation ref then true
  else if resource.m_arch ≠ "" ∧ resource.m_branch ≠ "" then
    decide (resource.m_arch = ref.ref.arch) && decide (resource.m_branch = ref.ref.branch) &&
      decide (env.flatpakName resource = refAppId ref)
  else
    decide (env.flatpakName resource = refAppId ref) ||
      decide (env.flatpakName resource = ref.ref.name)

/-- The method `FlatpakBackend::getInstalledRefForApp`; a null installation
gives no ref. -/
def getInstalledRefForApp (env : Native) (flatpakInstallation : Option FlatpakInstallation)
    (resource : FlatpakResource) : Option FlatpakInstalledRef :=
  match flatpakInstallation with
  | none => none
  | some fi =>
    match fi.getInstalledRef
        (if resource.m_type = ResourceType.DesktopApp then FlatpakRefKind.FLATPAK_REF_KIND_APP
          else FlatpakRefKind.FLATPAK_REF_KIND_RUNTIME)
        (env.flatpakName resource) resource.m_arch resource.m_branch with
    | some ref => some ref
    | none =>
      match fi.listInstalledRefsByKind
          (if resource.m_appdata.kind = ComponentKind.KindDesktopApp
            then FlatpakRefKind.FLATPAK_REF_KIND_APP
            else FlatpakRefKind.FLATPAK_REF_KIND_RUNTIME) with
      | none => none
      | some installedApps => installedApps.find? (compareAppFlatpakRef env fi resource)

/-- The string `runtimeId` of `FlatpakBackend::getRuntimeForApp`:
`QString("runtime/%1/%2").arg(name).arg(branch)`. -/
def runtimeId (env : Native) (name branch : String) : String :=
  args env.digitValue "runtime/%1/%2" [name, branch]

/-- The key of the resource that `FlatpakBackend::getRuntimeForApp` returns:
the first key of the table that ends with `runtimeId`. -/
def getRuntimeForApp (env : Native) (m_resources : Table) (resource : FlatpakResource) :
    Option String :=
  match split resource.m_runtime '/' with
  | [name, _, branch] =>
    m_resources.keys.find? (fun id => endsWith id (runtimeId env name branch))
  | _ => none

/-! ## Enriching a resource -/

/-- The method `FlatpakBackend::parseMetadataFromAppBundle`: the result flag and
the resource as it is left. -/
def parseMetadataFromAppBundle (env : Native) (resource : FlatpakResource) :
    Bool × FlatpakResource :=
  match resource.m_appdata.bundleId with
  | none => (true, resource)
  | some id =>
    match env.flatpak_ref_parse id with
    | none => (false, resource)
    | some ref =>
      (true, { resource with
        m_arch := ref.arch, m_branch := ref.branch, m_flatpakName := ref.name,
        m_type := if ref.kind = FlatpakRefKind.FLATPAK_REF_KIND_APP
          then ResourceType.DesktopApp else ResourceType.Runtime })

/-- The method `FlatpakBackend::updateAppInstalledMetadata`. -/
def updateAppInstalledMetadata (installedRef : FlatpakInstalledRef)
    (resource : FlatpakResource) : FlatpakResource :=
  { resource with
    m_arch := installedRef.ref.arch, m_branch := installedRef.ref.branch,
    m_commit := installedRef.ref.commit, m_origin := installedRef.origin,
    m_flatpakName := installedRef.ref.name, m_size := installedRef.installedSize,
    m_state := State.Installed }

/-- The method `FlatpakBackend::updateAppState`. -/
def updateAppState (env : Native) (flatpakInstallation : Option FlatpakInstallation)
    (resource : FlatpakResource) : FlatpakResource :=
  match getInstalledRefForApp env flatpakInstallation resource with
  | some ref => updateAppInstalledMetadata ref resource
  | none => { resource with m_state := State.None }

/-- The path of an installation; a null installation has the empty path and
every fetch through it fails. -/
def installationPath : Option FlatpakInstallation → String
  | none => ""
  | some fi => fi.path

/-- The content of the metadata file that `updateAppMetadata` reads: the
installed file when it exists, the remote metadata otherwise; `none` on the
paths that return false before the content is looked at. -/
def metadataContent (env : Native) (flatpakInstallation : Option FlatpakInstallation)
    (resource : FlatpakResource) : Option String :=
  let path := installationPath flatpakInstallation ++
    args env.digitValue "/app/%1/%2/%3/active/metadata"
      [env.flatpakName resource, resource.m_arch, resource.m_branch]
  if env.fileExists path then
    match env.readFile path with
    | some content => some content
    | none => some ""
  else if resource.m_origin = "" then none
  else
    match createFakeRef env resource with
    | none => none
    | some fakeRef =>
      match flatpakInstallation with
      | none => none
      | some fi => fi.fetchRemoteMetadata resource.m_origin fakeRef

/-- The method `FlatpakBackend::updateAppMetadata`: the result flag and the
resource as it is left. -/
def updateAppMetadata (env : Native) (flatpakInstallation : Option FlatpakInstallation)
    (resource : FlatpakResource) : Bool × FlatpakResource :=
  if resource.m_type ≠ ResourceType.DesktopApp then (true, resource)
  else
    match metadataContent env flatpakInstallation resource with
    | none => (false, resource)
    | some content =>
      if content = "" then (false, resource)
      else if !env.tempFileOpens then (false, resource)
      else (true, { resource with m_runtime := env.settingsRuntime content })

/-! ## Size computation -/

/-- A pointer to a resource object: the object under construction, which is
not in the table, or the object stored under a key of the table. -/
inductive ResourceRef where
  | fresh
  | slot (key : String)
  deriving DecidableEq, Repr

/-- The resource objects in reach: the table and the object under construction. -/
structure Heap where
  m_resources : Table
  fresh : FlatpakResource
  deriving DecidableEq

namespace Heap

/-- Reading through a pointer.  A `slot` pointer is only ever made from a key of
the table; for a key that is not there the read falls back to the fresh object. -/
def get (h : Heap) : ResourceRef → FlatpakResource
  | ResourceRef.fresh => h.fresh
  | ResourceRef.slot key => (h.m_resources.value key).getD h.fresh

/-- Writing through a pointer. -/
def modify (h : Heap) (ref : ResourceRef) (f : FlatpakResource → FlatpakResource) : Heap :=
  match ref with
  | ResourceRef.fresh => { h with fresh := f h.fresh }
  | ResourceRef.slot key => { h with m_resources := h.m_resources.modify key f }

end Heap

/-- The end of `FlatpakBackend::updateAppSize`, from `if (resource->isInstalled())`
on: the installed size of an installed resource, the remote size otherwise,
with the size of a runtime that is not installed added (in `guint64`). -/
def updateAppSizeTail (env : Native) (flatpakInstallation : Option FlatpakInstallation)
    (h : Heap) (resource : ResourceRef) (runtime : Option ResourceRef) : Bool × Heap :=
  if (h.get resource).isInstalled then
    match getInstalledRefForApp env flatpakInstallation (h.get resource) with
    | none => (false, h)
    | some ref => (true, h.modify resource (fun r => { r with m_size := ref.installedSize }))
  else
    match createFakeRef env (h.get resource) with
    | none => (false, h)
    | some ref =>
      match flatpakInstallation.bind (fun fi => fi.fetchRemoteSize (h.get resource).m_origin ref) with
      | none => (false, h)
      | some (_, installedSize) =>
        match runtime with
        | some rt =>
          if !(h.get rt).isInstalled then
            (true, h.modify resource (fun r =>
              { r with m_size := ((h.get rt).m_size + installedSize) % 2 ^ 64 }))
          else (true, h.modify resource (fun r => { r with m_size := installedSize }))
        | none => (true, h.modify resource (fun r => { r with m_size := installedSize }))

/-- The method `FlatpakBackend::updateAppSize` on the object `resource` points
to.  The method calls itself on the runtime of the resource; `fuel` bounds the
depth of these calls and `none` means the bound was reached.  When
`updateAppMetadata` fails it has left the resource as it was. -/
def updateAppSize (env : Native) :
    Nat → Option FlatpakInstallation → Heap → ResourceRef → Option (Bool × Heap)
  | 0, _, _, _ => none
  | fuel + 1, flatpakInstallation, h, resource =>
    if 0 < (h.get resource).m_size then some (true, h)
    else if (h.get resource).m_runtime = "" ∧
        (updateAppMetadata env flatpakInstallation (h.get resource)).1 = false then
      some (false, h)
    else
      let h1 := if (h.get resource).m_runtime = "" then
          h.modify resource (fun r => (updateAppMetadata env flatpakInstallation r).2)
        else h
      if (h1.get resource).m_state = State.None ∧
          (h1.get resource).m_type = ResourceType.DesktopApp then
        match getRuntimeForApp env h1.m_resources (h1.get resource) with
        | none => some (updateAppSizeTail env flatpakInstallation h1 resource none)
        | some key =>
          let h2 := h1.modify (ResourceRef.slot key) (updateAppState env flatpakInstallation)
          if !(h2.get (ResourceRef.slot key)).isInstalled then
            match updateAppSize env fuel flatpakInstallation h2 (ResourceRef.slot key) with
            | none => none
            | some (false, h3) => some (false, h3)
            | some (true, h3) =>
              some (updateAppSizeTail env flatpakInstallation h3 resource
                (some (ResourceRef.slot key)))
          else
            some (updateAppSizeTail env flatpakInstallation h2 resource
              (some (ResourceRef.slot key)))
      else some (updateAppSizeTail env flatpakInstallation h1 resource none)

/-! ## Filling the table -/

/-- The method `FlatpakBackend::flatpakInstallationForAppScope`, also written
out at each use as `scope() == System ? m_flatpakInstallationSystem :
m_flatpakInstallationUser`. -/
def flatpakInstallationForAppScope
    (m_flatpakInstallationSystem m_flatpakInstallationUser : Option FlatpakInstallation)
    (appScope : Scope) : Option FlatpakInstallation :=
  if appScope = Scope.System then m_flatpakInstallationSystem else m_flatpakInstallationUser

/-- The resource as `FlatpakBackend::addResource` has it when it calls
`updateAppSize`: after `parseMetadataFromAppBundle`, `updateAppState` and, for
a desktop app, `updateAppMetadata`; a failure of the first or the last is only
logged. -/
def addResourcePrepare (env : Native) (sys user : Option FlatpakInstallation)
    (resource : FlatpakResource) : FlatpakResource :=
  let r1 := (parseMetadataFromAppBundle env resource).2
  let r2 := updateAppState env (flatpakInstallationForAppScope sys user r1.m_scope) r1
  if r2.m_type = ResourceType.DesktopApp then
    (updateAppMetadata env (flatpakInstallationForAppScope sys user r2.m_scope) r2).2
  else r2

/-- The method `FlatpakBackend::addResource`: the table after the call, `none`
when `updateAppSize` does not return within `fuel` nested calls. -/
def addResource (env : Native) (fuel : Nat) (sys user : Option FlatpakInstallation)
    (m_resources : Table) (resource : FlatpakResource) : Option Table :=
  let r := addResourcePrepare env sys user resource
  match updateAppSize env fuel (flatpakInstallationForAppScope sys user r.m_scope)
      { m_resources := m_resources, fresh := r } ResourceRef.fresh with
  | none => none
  | some (_, h) => some (h.m_resources.insert (uniqueId h.fresh) h.fresh)

/-- The resource that `loadAppsFromAppstreamData` builds for a component of a
remote. -/
def appstreamResource (flatpakInstallation : FlatpakInstallation) (remote : FlatpakRemote)
    (appstreamDir : String) (component : Component) : FlatpakResource :=
  { FlatpakResource.new component with
    m_scope := if flatpakInstallation.isUser then Scope.User else Scope.System,
    m_iconPath := appstreamDir,
    m_origin := remote.name }

/-- The components that `loadAppsFromAppstreamData` reads from one remote: none
for a remote that is disabled, has no appstream directory or file, or fails to
parse; the second component is the appstream directory. -/
def remoteComponents (env : Native) (remote : FlatpakRemote) : Option (String × List Component) :=
  if remote.disabled then none
  else
    match remote.appstreamDir with
    | none => none
    | some appstreamDir =>
      if !env.fileExists (appstreamDir ++ "/appstream.xml.gz") then none
      else
        match env.parseAppstreamFile (appstreamDir ++ "/appstream.xml.gz") with
        | none => none
        | some components => some (appstreamDir, components)

/-- One turn of the loop over the remotes in `loadAppsFromAppstreamData`. -/
def loadRemote (env : Native) (fuel : Nat) (sys user : Option FlatpakInstallation)
    (flatpakInstallation : FlatpakInstallation) (m_resources : Table) (remote : FlatpakRemote) :
    Option Table :=
  match remoteComponents env remote with
  | none => some m_resources
  | some (appstreamDir, components) =>
    components.foldlM (fun t component =>
      addResource env fuel sys user t
        (appstreamResource flatpakInstallation remote appstreamDir component)) m_resources

/-- The method `FlatpakBackend::loadAppsFromAppstreamData`: the result flag and
the table after the call. -/
def loadAppsFromAppstreamData (env : Native) (fuel : Nat) (sys user : Option FlatpakInstallation)
    (flatpakInstallation : Option FlatpakInstallation) (m_resources : Table) :
    Option (Bool × Table) :=
  match flatpakInstallation with
  | none => some (false, m_resources)
  | some fi =>
    match fi.listRemotes with
    | none => some (false, m_resources)
    | some remotes =>
      (remotes.foldlM (loadRemote env fuel sys user fi) m_resources).map (fun t => (true, t))

/-- The resource that `loadInstalledApps` builds for the component of an
installed desktop file. -/
def installedResource (flatpakInstallation : FlatpakInstallation) (pathExports : String)
    (component : Component) : FlatpakResource :=
  { FlatpakResource.new component with
    m_scope := if flatpakInstallation.isUser then Scope.User else Scope.System,
    m_iconPath := pathExports,
    m_type := ResourceType.DesktopApp,
    m_state := State.Installed }

/-- The test of `loadInstalledApps` for "the table resource `res` is the
installed `resource`". -/
def matchesInstalled (resource res : FlatpakResource) : Bool :=
  decide (res.appstreamId = resource.appstreamId ++ ".desktop") && decide (res.name = resource.name)

/-- The loop of `loadInstalledApps` over the table: the first resource that
matches takes scope and state of the installed one; `none` when no resource
matches (`resourceExists` stays false). -/
def mergeInstalled (resource : FlatpakResource) : Table → Option Table
  | [] => none
  | (k, res) :: t =>
    if matchesInstalled resource res then
      some ((k, { res with m_scope := resource.m_scope, m_state := resource.m_state }) :: t)
    else (mergeInstalled resource t).map (fun t1 => (k, res) :: t1)

/-- One turn of the loop over the desktop files in `loadInstalledApps`.  The
source also skips a file for which `g_file_new_for_path` gives null, which
that call never does. -/
def loadInstalledFile (env : Native) (fuel : Nat) (sys user : Option FlatpakInstallation)
    (flatpakInstallation : FlatpakInstallation) (m_resources : Table) (file : String) :
    Option Table :=
  if file = "mimeinfo.cache" then some m_resources
  else
    match env.parseDesktopEntry (flatpakInstallation.path ++ "/exports/" ++ "share/applications/" ++ file) with
    | none => some m_resources
    | some component =>
      match mergeInstalled
          (installedResource flatpakInstallation (flatpakInstallation.path ++ "/exports/") component)
          m_resources with
      | some t => some t
      | none =>
        addResource env fuel sys user m_resources
          (installedResource flatpakInstallation (flatpakInstallation.path ++ "/exports/") component)

/-- The method `FlatpakBackend::loadInstalledApps`: the result flag and the
table after the call. -/
def loadInstalledApps (env : Native) (fuel : Nat) (sys user : Option FlatpakInstallation)
    (flatpakInstallation : Option FlatpakInstallation) (m_resources : Table) :
    Option (Bool × Table) :=
  match flatpakInstallation with
  | none => some (false, m_resources)
  | some fi =>
    match env.dirEntries (fi.path ++ "/exports/" ++ "share/applications/") with
    | none => some (true, m_resources)
    | some files =>
      (files.foldlM (loadInstalledFile env fuel sys user fi) m_resources).map (fun t => (true, t))

/-! ## Repeated scans of the installed desktop entries -/

/-- The components that `loadInstalledApps` reads from the desktop files `files`
of an installation: `mimeinfo.cache` and the files that fail to parse are
skipped. -/
def ScannedIn (env : Native) (fi : FlatpakInstallation) (files : List String)
    (c : Component) : Prop :=
  ∃ file ∈ files, file ≠ "mimeinfo.cache" ∧
    env.parseDesktopEntry (fi.path ++ "/exports/" ++ "share/applications/" ++ file) = some c

/-- The components of the installed desktop entries of an installation. -/
def Scanned (env : Native) (fi : FlatpakInstallation) (c : Component) : Prop :=
  ∃ files, env.dirEntries (fi.path ++ "/exports/" ++ "share/applications/") = some files ∧
    ScannedIn env fi files c

/-- The resource of an installed desktop entry as `addResource` has it when it
turns to the size computation. -/
def installedRecord (env : Native) (sys user : Option FlatpakInstallation)
    (fi : FlatpakInstallation) (c : Component) : FlatpakResource :=
  addResourcePrepare env sys user (installedResource fi (fi.path ++ "/exports/") c)

/-- One turn of the loop of `loadInstalledApps` for a desktop entry whose record
has its size once `updateAppState` is through: the merge into the first
matching resource, or the insertion of the record under its `uniqueId`. -/
def installedStep (env : Native) (sys user : Option FlatpakInstallation)
    (fi : FlatpakInstallation) (t : Table) (c : Component) : Table :=
  match mergeInstalled (installedResource fi (fi.path ++ "/exports/") c) t with
  | some t1 => t1
  | none =>
    t.insert (uniqueId (installedRecord env sys user fi c)) (installedRecord env sys user fi c)

/-- A desktop entry is settled in a table when the first resource that matches
it has scope and state of the installed entry already, or when no resource
matches it and its record sits under its `uniqueId`. -/
def Settled (env : Native) (sys user : Option FlatpakInstallation)
    (fi : FlatpakInstallation) (c : Component) (t : Table) : Prop :=
  (∃ e, t.find? (fun e =>
        matchesInstalled (installedResource fi (fi.path ++ "/exports/") c) e.2) = some e ∧
      e.2.m_scope = (installedResource fi (fi.path ++ "/exports/") c).m_scope ∧
      e.2.m_state = (installedResource fi (fi.path ++ "/exports/") c).m_state) ∨
    (t.find? (fun e =>
        matchesInstalled (installedResource fi (fi.path ++ "/exports/") c) e.2) = none ∧
      t.value (uniqueId (installedRecord env sys user fi c)) =
        some (installedRecord env sys user fi c))

/-- The condition on a table under which its merge targets are safe from being
overwritten by a scan: a resource that matches an installed desktop entry and
is stored under the `uniqueId` of the record of an installed desktop entry is
that record. -/
def KeyedByRecord (env : Native) (sys user : Option FlatpakInstallation)
    (fi : FlatpakInstallation) (t : Table) : Prop :=
  ∀ c d, Scanned env fi c → Scanned env fi d → ∀ e ∈ t,
    matchesInstalled (installedResource fi (fi.path ++ "/exports/") c) e.2 = true →
    e.1 = uniqueId (installedRecord env sys user fi d) → e.2 = installedRecord env sys user fi d

/-! ## Tables on which the size computation returns -/

/-- The key is one that `getRuntimeForApp` never answers: it ends with no
`runtimeId`. -/
def NotRuntimeKey (env : Native) (key : String) : Prop :=
  ∀ name branch, endsWith key (runtimeId env name branch) = false

/-- The desktop apps of the table sit under keys that `getRuntimeForApp` never
answers, so the runtime that `updateAppSize` finds for a resource is never a
desktop app. -/
def AppsApart (env : Native) (m_resources : Table) : Prop :=
  ∀ key r, m_resources.value key = some r → r.m_type = ResourceType.DesktopApp →
    NotRuntimeKey env key

/-- The members of `FlatpakBackend` that the refresh reads and writes, and the
number of times the signal `fetchingChanged` has been emitted. -/
structure Backend where
  m_resources : Table
  m_fetching : Bool
  m_flatpakInstallationSystem : Option FlatpakInstallation
  m_flatpakInstallationUser : Option FlatpakInstallation
  fetchingChanged : Nat

/-- The method `FlatpakBackend::setFetching`. -/
def setFetching (b : Backend) (fetching : Bool) : Backend :=
  if b.m_fetching ≠ fetching then
    { b with m_fetching := fetching, fetchingChanged := b.fetchingChanged + 1 }
  else b

/-- The four load steps of `FlatpakBackend::reloadPackageList`, between the two
calls of `setFetching`; the result flag of a step is only logged. -/
def reloadPackageListSteps (env : Native) (fuel : Nat) (b : Backend) : Option Backend :=
  match loadAppsFromAppstreamData env fuel b.m_flatpakInstallationSystem
      b.m_flatpakInstallationUser b.m_flatpakInstallationSystem b.m_resources with
  | none => none
  | some (_, t1) =>
    match loadAppsFromAppstreamData env fuel b.m_flatpakInstallationSystem
        b.m_flatpakInstallationUser b.m_flatpakInstallationUser t1 with
    | none => none
    | some (_, t2) =>
      match loadInstalledApps env fuel b.m_flatpakInstallationSystem
          b.m_flatpakInstallationUser b.m_flatpakInstallationSystem t2 with
      | none => none
      | some (_, t3) =>
        match loadInstalledApps env fuel b.m_flatpakInstallationSystem
            b.m_flatpakInstallationUser b.m_flatpakInstallationUser t3 with
        | none => none
        | some (_, t4) => some { b with m_resources := t4 }

/-- The method `FlatpakBackend::reloadPackageList`. -/
def reloadPackageList (env : Native) (fuel : Nat) (b : Backend) : Option Backend :=
  (reloadPackageListSteps env fuel (setFetching b true)).map (fun b1 => setFetching b1 false)

/-! ## Search and lookup -/

/-- A `ResultsStream`: its label and the resources it was constructed with. -/
structure ResultsStream where
  label : String
  resources : List FlatpakResource
  deriving DecidableEq, Repr

/-- The part of a `QUrl` the backend reads. -/
structure QUrl where
  scheme : String
  host : String
  deriving DecidableEq, Repr

/-- The method `FlatpakBackend::search`: resources that are not desktop apps are
skipped; the others are kept when name or comment contains the search string. -/
def search (fold : Char → Char) (m_resources : Table) (filterSearch : String) : ResultsStream :=
  { label := "FlatpakStream",
    resources := m_resources.values.filter (fun r =>
      decide (r.m_type = ResourceType.DesktopApp) &&
        (containsCaseInsensitive fold r.name filterSearch ||
          containsCaseInsensitive fold r.comment filterSearch)) }

/-- The method `FlatpakBackend::findResourceByPackageName`. -/
def findResourceByPackageName (m_resources : Table) (search : QUrl) : ResultsStream :=
  let res := if search.scheme = "flatpak" then
      m_resources.value (replaceChar search.host '.' ' ') else none
  match res with
  | none => { label := "FlatpakStream", resources := [] }
  | some r => { label := "FlatpakStream", resources := [r] }

/-! ## Transactions -/

/-- Modelled from the spec: the enumeration `Transaction::Status`, declared
outside the sources at hand; the spec lists the states None, Downloading,
Committing, Done, Cancelled and Failed, and the backend names `DoneStatus`. -/
inductive TransactionStatus where
  | NoneStatus
  | DownloadingStatus
  | CommittingStatus
  | DoneStatus
  | CancelledStatus
  | FailedStatus
  deriving DecidableEq, Repr

/-- What the handler that `installApplication` connects to `statusChanged` has
captured: the installation and the resource. -/
structure InstallHandler where
  installation : Option FlatpakInstallation
  resource : ResourceRef

/-- The method `FlatpakBackend::installApplication` as far as the backend acts:
it picks the installation by the scope of the resource and connects the
handler; the transaction itself is run by `FlatpakTransaction`. -/
def installApplication (b : Backend) (h : Heap) (app : ResourceRef) : InstallHandler :=
  { installation := flatpakInstallationForAppScope b.m_flatpakInstallationSystem
      b.m_flatpakInstallationUser (h.get app).m_scope,
    resource := app }

/-- The handler of `installApplication` for `statusChanged`: on `DoneStatus` it
calls `updateAppState`, on any other status it does nothing. -/
def installStatusChanged (env : Native) (handler : InstallHandler) (h : Heap)
    (status : TransactionStatus) : Heap :=
  if status = TransactionStatus.DoneStatus then
    h.modify handler.resource (updateAppState env handler.installation)
  else h

/-- The roles that the backend gives to the transactions it creates. -/
inductive TransactionRole where
  | InstallRole
  | RemoveRole
  deriving DecidableEq, Repr

/-- Modelled from the spec: a `FlatpakTransaction`, a class declared outside the
sources at hand, as far as the backend deals with it: the installation, the
resource and the role that the backend passes to the constructor, the status,
which the spec starts at None, and the handler that the backend has connected
to `statusChanged`, if it has connected one. -/
structure FlatpakTransaction where
  installation : Option FlatpakInstallation
  resource : ResourceRef
  role : TransactionRole
  status : TransactionStatus
  connected : Option InstallHandler

/-- Modelled from the spec: the terminal states of a transaction, which are
Done, Cancelled and Failed; `Transaction::Status` is declared outside the
sources at hand. -/
def TransactionStatus.isTerminal : TransactionStatus → Bool
  | TransactionStatus.DoneStatus => true
  | TransactionStatus.CancelledStatus => true
  | TransactionStatus.FailedStatus => true
  | _ => false

/-- The transaction that `FlatpakBackend::installApplication` creates, with the
handler connected to it. -/
def installTransaction (b : Backend) (h : Heap) (app : ResourceRef) : FlatpakTransaction :=
  { installation := (installApplication b h app).installation,
    resource := app,
    role := TransactionRole.InstallRole,
    status := TransactionStatus.NoneStatus,
    connected := some (installApplication b h app) }

/-- The method `FlatpakBackend::removeApplication`: it picks the installation by
the scope of the resource and creates the transaction; it connects nothing to
the transaction. -/
def removeApplication (b : Backend) (h : Heap) (app : ResourceRef) : FlatpakTransaction :=
  { installation := flatpakInstallationForAppScope b.m_flatpakInstallationSystem
      b.m_flatpakInstallationUser (h.get app).m_scope,
    resource := app,
    role := TransactionRole.RemoveRole,
    status := TransactionStatus.NoneStatus,
    connected := none }

/-- What the backend does when a transaction emits `statusChanged`: the handler
that the backend connected to this transaction runs, when there is one. -/
def statusChanged (env : Native) (transaction : FlatpakTransaction) (h : Heap)
    (status : TransactionStatus) : Heap :=
  match transaction.connected with
  | some handler => installStatusChanged env handler h status
  | none => h

/-- The transactions in existence after a call of `installApplication`, given
the ones in existence before: the method looks at none of them and creates its
transaction with `new`. -/
def installApplicationCall (b : Backend) (h : Heap) (transactions : List FlatpakTransaction)
    (app : ResourceRef) : List FlatpakTransaction :=
  transactions ++ [installTransaction b h app]

/-- The transactions in existence after a call of `removeApplication`, given
the ones in existence before. -/
def removeApplicationCall (b : Backend) (h : Heap) (transactions : List FlatpakTransaction)
    (app : ResourceRef) : List FlatpakTransaction :=
  transactions ++ [removeApplication b h app]

/-- The transactions among `transactions` that target `app` and have not reached
a terminal state. -/
def activeTransactions (transactions : List FlatpakTransaction) (app : ResourceRef) :
    List FlatpakTransaction :=
  transactions.filter (fun t => decide (t.resource = app) && !t.status.isTerminal)

/-! ## Updates -/

/-- The method `FlatpakBackend::checkForUpdates`: every line of its body is
commented out, so the call returns at once and touches nothing. -/
def checkForUpdates (b : Backend) : Backend := b

/-- The method `FlatpakBackend::updatesCount`: the count of the updater, an
object of a class outside the sources at hand that was constructed with the
backend; `m_updater` is what this object answers for a backend. -/
def updatesCount (m_updater : Backend → Nat) (b : Backend) : Nat :=
  m_updater b

/-! ## Construction -/

/-- The method `FlatpakBackend::setupFlatpakInstallations`; `newSystem` and
`newUser` are what `flatpak_installation_new_system` and
`flatpak_installation_new_user` return, null on error.  The user installation
is not asked for when the system installation is null. -/
def setupFlatpakInstallations (newSystem newUser : Option FlatpakInstallation) (b : Backend) :
    Bool × Backend :=
  match newSystem with
  | none => (false, { b with m_flatpakInstallationSystem := none })
  | some system =>
    match newUser with
    | none =>
      (false, { b with m_flatpakInstallationSystem := some system,
                       m_flatpakInstallationUser := none })
    | some user =>
      (true, { b with m_flatpakInstallationSystem := some system,
                      m_flatpakInstallationUser := some user })

/-- The constructor `FlatpakBackend::FlatpakBackend` as far as the table, the
flag and the installations go: when the setup fails the failure is logged and
`reloadPackageList` is not called.  The constructor does not initialise the
members for the installations; they are null here until the setup sets them. -/
def Backend.new (env : Native) (fuel : Nat) (newSystem newUser : Option FlatpakInstallation) :
    Option Backend :=
  match setupFlatpakInstallations newSystem newUser
      { m_resources := [], m_fetching := false, m_flatpakInstallationSystem := none,
        m_flatpakInstallationUser := none, fetchingChanged := 0 } with
  | (false, b) => some b
  | (true, b) => reloadPackageList env fuel b

/-- The members of `PackageKitBackend` that its header declares with types at
hand: the keys of the two package tables, the fetching counter and the ids of
the packages with updates. -/
structure PackageKitBackend where
  m_packages : List String
  m_updatingPackages : List String
  m_isFetching : Int
  m_updatesPackageId : List String
  deriving DecidableEq, Repr

/-- The method `PackageKitBackend::isValid`, defined in the header as
`return true`. -/
def PackageKitBackend.isValid (_ : PackageKitBackend) : Bool := true

/-! ## Concrete resources, tables and native states -/

namespace Examples

/-- The desktop app "Firefox" of the remote `myremote`, system scope, branch `stable`. -/
def firefox : FlatpakResource :=
  { FlatpakResource.new
      { id := "org.example.Foo.desktop", name := "Firefox", summary := "Web browser",
        kind := ComponentKind.KindDesktopApp, bundleId := some "app/org.example.Foo/x86_64/stable" } with
    m_origin := "myremote", m_arch := "x86_64", m_branch := "stable",
    m_flatpakName := "org.example.Foo" }

/-- A runtime whose name contains "fire". -/
def fireRuntime : FlatpakResource :=
  { FlatpakResource.new
      { id := "org.example.FireRuntime", name := "Fire Platform", summary := "Shared runtime",
        kind := ComponentKind.KindRuntime, bundleId := some "runtime/org.example.FireRuntime/x86_64/1.0" } with
    m_origin := "myremote", m_arch := "x86_64", m_branch := "1.0",
    m_flatpakName := "org.example.FireRuntime", m_type := ResourceType.Runtime }

/-- A table with `firefox` and `fireRuntime`, each under its own `uniqueId`. -/
def fireTable : Table :=
  (Table.insert [] (uniqueId firefox) firefox).insert (uniqueId fireRuntime) fireRuntime

/-- The table that holds `firefox` alone, under its `uniqueId`. -/
def firefoxTable : Table :=
  Table.insert [] (uniqueId firefox) firefox

/-- The getter `flatpakName()` for the concrete states: the flatpak name, and
the AppStream id while no flatpak name is set. -/
def flatpakNameOrId (r : FlatpakResource) : String :=
  if r.m_flatpakName = "" then r.appstreamId else r.m_flatpakName

/-- A `flatpak_ref_parse` for the concrete states: `app/name/arch/branch` and
`runtime/name/arch/branch` parse, everything else is an error. -/
def parseRef (s : String) : Option FlatpakRef :=
  match split s '/' with
  | [kind, name, arch, branch] =>
    if kind = "app" then
      some { kind := FlatpakRefKind.FLATPAK_REF_KIND_APP, name := name, arch := arch,
             branch := branch, commit := "" }
    else if kind = "runtime" then
      some { kind := FlatpakRefKind.FLATPAK_REF_KIND_RUNTIME, name := name, arch := arch,
             branch := branch, commit := "" }
    else none
  | _ => none

/-- A native state with an empty file system: no file exists, no directory
exists, nothing parses but refs. -/
def bareNative : Native :=
  { digitValue := fun _ => none,
    flatpakName := flatpakNameOrId, flatpak_ref_parse := parseRef,
    fileExists := fun _ => false, readFile := fun _ => none,
    tempFileOpens := true, settingsRuntime := fun content => content,
    parseAppstreamFile := fun _ => none, dirEntries := fun _ => none,
    parseDesktopEntry := fun _ => none }

/-- A system installation with no remotes and nothing installed. -/
def bareSystem : FlatpakInstallation :=
  { isUser := false, path := "/var/lib/flatpak", getInstalledRef := fun _ _ _ _ => none,
    listInstalledRefsByKind := fun _ => some [], listRemotes := some [],
    fetchRemoteMetadata := fun _ _ => none, fetchRemoteSize := fun _ _ => none }

/-- A user installation with no remotes and nothing installed. -/
def bareUser : FlatpakInstallation :=
  { isUser := true, path := "/home/user/.local/share/flatpak",
    getInstalledRef := fun _ _ _ _ => none,
    listInstalledRefsByKind := fun _ => some [], listRemotes := some [],
    fetchRemoteMetadata := fun _ _ => none, fetchRemoteSize := fun _ _ => none }

/-- A backend that knows `firefox` from an earlier refresh, over native state in
which nothing is left to discover. -/
def staleBackend : Backend :=
  { m_resources := firefoxTable, m_fetching := false,
    m_flatpakInstallationSystem := some bareSystem,
    m_flatpakInstallationUser := some bareUser, fetchingChanged := 0 }

/-- The backend `staleBackend` after `reloadPackageList`. -/
def staleBackendReloaded : Backend :=
  { m_resources := firefoxTable, m_fetching := false,
    m_flatpakInstallationSystem := some bareSystem,
    m_flatpakInstallationUser := some bareUser, fetchingChanged := 2 }

/-- The component that AppStream reads from the installed desktop file of Foo. -/
def fooDesktopComponent : Component :=
  { id := "org.example.Foo", name := "Firefox", summary := "Web browser",
    kind := ComponentKind.KindDesktopApp, bundleId := none }

/-- A native state in which the system installation exports one desktop file,
`org.example.Foo.desktop`, next to `mimeinfo.cache`. -/
def fooNative : Native :=
  { bareNative with
    dirEntries := fun path =>
      if path = "/var/lib/flatpak/exports/share/applications/" then
        some ["mimeinfo.cache", "org.example.Foo.desktop"]
      else none,
    parseDesktopEntry := fun path =>
      if path = "/var/lib/flatpak/exports/share/applications/org.example.Foo.desktop" then
        some fooDesktopComponent
      else none }

/-- The installed ref of Foo: installed from `myremote`, 42 bytes. -/
def fooInstalledRef : FlatpakInstalledRef :=
  { ref := { kind := FlatpakRefKind.FLATPAK_REF_KIND_APP, name := "org.example.Foo",
             arch := "x86_64", branch := "stable", commit := "c0ffee" },
    origin := "myremote", installedSize := 42 }

/-- A system installation with Foo installed. -/
def fooSystem : FlatpakInstallation :=
  { bareSystem with
    getInstalledRef := fun kind name arch branch =>
      if kind = FlatpakRefKind.FLATPAK_REF_KIND_APP ∧ name = "org.example.Foo" ∧
          arch = "x86_64" ∧ branch = "stable" then some fooInstalledRef
      else none,
    listInstalledRefsByKind := fun kind =>
      if kind = FlatpakRefKind.FLATPAK_REF_KIND_APP then some [fooInstalledRef] else some [] }

/-- The record of Foo after the installed desktop file has been merged into
`firefox`. -/
def firefoxMerged : FlatpakResource :=
  { firefox with m_scope := Scope.System, m_state := State.Installed }

/-- The runtime `org.example.Platform` as the remote `A` of the system
installation announces it. -/
def platformFromA : FlatpakResource :=
  { FlatpakResource.new
      { id := "org.example.Platform", name := "Platform", summary := "Shared runtime",
        kind := ComponentKind.KindRuntime,
        bundleId := some "runtime/org.example.Platform/x86_64/1.0" } with
    m_origin := "A" }

/-- The same runtime as the remote `B` of the system installation announces it. -/
def platformFromB : FlatpakResource :=
  { platformFromA with m_origin := "B" }

/-- An app of the remote `B` of the user installation. -/
def editorApp : FlatpakResource :=
  { FlatpakResource.new
      { id := "org.example.Editor.desktop", name := "Editor", summary := "Text editor",
        kind := ComponentKind.KindDesktopApp,
        bundleId := some "app/org.example.Editor/x86_64/stable" } with
    m_origin := "B", m_scope := Scope.User }

/-- The installed ref of the runtime in the user installation: from `B`, 5 bytes. -/
def platformInstalledRef : FlatpakInstalledRef :=
  { ref := { kind := FlatpakRefKind.FLATPAK_REF_KIND_RUNTIME, name := "org.example.Platform",
             arch := "x86_64", branch := "1.0", commit := "abc" },
    origin := "B", installedSize := 5 }

/-- A user installation that has the runtime installed from `B` and answers the
metadata of any app with the runtime `org.example.Platform/x86_64/1.0`. -/
def platformUser : FlatpakInstallation :=
  { bareUser with
    getInstalledRef := fun kind name arch branch =>
      if kind = FlatpakRefKind.FLATPAK_REF_KIND_RUNTIME ∧ name = "org.example.Platform" ∧
          arch = "x86_64" ∧ branch = "1.0" then some platformInstalledRef
      else none,
    listInstalledRefsByKind := fun kind =>
      if kind = FlatpakRefKind.FLATPAK_REF_KIND_RUNTIME then some [platformInstalledRef]
      else some [],
    fetchRemoteMetadata := fun _ _ => some "org.example.Platform/x86_64/1.0",
    fetchRemoteSize := fun _ _ => some (3, 7) }

/-- The table after `addResource` of `platformFromA`, `editorApp` and
`platformFromB`, in this order, from the empty table. -/
def threeAdds : Table :=
  (([platformFromA, editorApp, platformFromB].foldlM
    (addResource bareNative 2 (some bareSystem) (some platformUser)) []).getD [])

/-- A backend with an empty table over native state with nothing to discover. -/
def emptyBackend : Backend :=
  { staleBackend with m_resources := [] }

/-- A native state in which the system installation exports three desktop
files whose component ids are `org.example.Foo`, that id with `.desktop`
appended, and that id with `.desktop` appended once more. -/
def chainNative : Native :=
  { bareNative with
    dirEntries := fun path =>
      if path = "/var/lib/flatpak/exports/share/applications/" then some ["a", "b", "c"]
      else none,
    parseDesktopEntry := fun path =>
      if path = "/var/lib/flatpak/exports/share/applications/a" then
        some { fooDesktopComponent with id := "org.example.Foo" }
      else if path = "/var/lib/flatpak/exports/share/applications/b" then
        some { fooDesktopComponent with id := "org.example.Foo.desktop" }
      else if path = "/var/lib/flatpak/exports/share/applications/c" then
        some { fooDesktopComponent with id := "org.example.Foo.desktop.desktop" }
      else none }

/-- The table after `n` runs of `loadInstalledApps` over `chainNative` on the
system installation with nothing installed, from the empty table. -/
def chainScans : Nat → Option Table
  | 0 => some []
  | n + 1 =>
    (chainScans n).bind (fun t =>
      (loadInstalledApps chainNative 1 (some bareSystem) (some bareUser)
        (some bareSystem) t).map Prod.snd)

/-- The runtime `org.example.Platform`, branch `1.0`, built for `arm`, known
from the remote `A` and not installed. -/
def armPlatform : FlatpakResource :=
  { platformFromA with
    m_arch := "arm", m_branch := "1.0", m_flatpakName := "org.example.Platform",
    m_type := ResourceType.Runtime }

/-- The table that holds `armPlatform` alone, under its `uniqueId`. -/
def armTable : Table :=
  Table.insert [] (uniqueId armPlatform) armPlatform

/-- The runtime `org.example.Platform`, branch `1.0`, built for `x86_64`, known
from the remote `A` and not installed; its size is unresolved. -/
def platformParsed : FlatpakResource :=
  { armPlatform with m_arch := "x86_64" }

/-- The table that holds `platformParsed` alone, under its `uniqueId`. -/
def platformTable : Table :=
  Table.insert [] (uniqueId platformParsed) platformParsed

/-- The app Editor as `addResource` has it when it turns to the size: not
installed, its runtime `org.example.Platform/x86_64/1.0` read from the
metadata, its size unresolved. -/
def editorWithRuntime : FlatpakResource :=
  { editorApp with
    m_arch := "x86_64", m_branch := "stable", m_flatpakName := "org.example.Editor",
    m_runtime := "org.example.Platform/x86_64/1.0" }

/-- A user installation with nothing installed in which the remote sizes can be
fetched: download 2 and installed 5 for a runtime, download 3 and installed 7
for an app. -/
def sizeUser : FlatpakInstallation :=
  { bareUser with
    fetchRemoteMetadata := fun _ _ => some "org.example.Platform/x86_64/1.0",
    fetchRemoteSize := fun _ ref =>
      if ref.kind = FlatpakRefKind.FLATPAK_REF_KIND_RUNTIME then some (2, 5) else some (3, 7) }

/-- A user installation with nothing installed in which the remote size of a
runtime cannot be fetched. -/
def failUser : FlatpakInstallation :=
  { sizeUser with
    fetchRemoteSize := fun _ ref =>
      if ref.kind = FlatpakRefKind.FLATPAK_REF_KIND_RUNTIME then none else some (3, 7) }

/-- The runtime as installed from `B` at commit `abc`, with its size, 5, known. -/
def platformSized : FlatpakResource :=
  { platformParsed with
    m_origin := "B", m_commit := "abc", m_state := State.Installed, m_size := 5 }

/-- A user installation whose installed ref of the runtime, at the same commit
`abc`, reports the installed size 0. -/
def zeroSizeUser : FlatpakInstallation :=
  { bareUser with
    getInstalledRef := fun kind name arch branch =>
      if kind = FlatpakRefKind.FLATPAK_REF_KIND_RUNTIME ∧ name = "org.example.Platform" ∧
          arch = "x86_64" ∧ branch = "1.0" then
        some { platformInstalledRef with installedSize := 0 }
      else none }

/-- The heap in which `firefox` sits in the table, before it is installed. -/
def firefoxHeap : Heap :=
  { m_resources := firefoxTable, fresh := firefox }

/-- A backend over the system installation in which Foo is installed. -/
def fooBackend : Backend :=
  { staleBackend with m_flatpakInstallationSystem := some fooSystem }

/-- The heap in which Editor, not in the table yet, has its size computed next
to the runtime of `platformTable`. -/
def editorHeap : Heap :=
  { m_resources := platformTable, fresh := editorWithRuntime }

/-- The heap `editorHeap` after `updateAppSize` over `sizeUser`. -/
def editorSizedHeap : Heap :=
  ((updateAppSize bareNative 2 (some sizeUser) editorHeap ResourceRef.fresh).map
    Prod.snd).getD editorHeap

/-- The heap `editorHeap` after the runtime of Editor has been re-checked and
has had its size computed over `sizeUser`. -/
def editorRuntimeHeap : Heap :=
  ((updateAppSize bareNative 1 (some sizeUser)
    (editorHeap.modify (ResourceRef.slot (uniqueId platformParsed))
      (updateAppState bareNative (some sizeUser)))
    (ResourceRef.slot (uniqueId platformParsed))).map Prod.snd).getD editorHeap

/-- Editor as `addResource` has it over `failUser` when it turns to the size. -/
def editorPrepared : FlatpakResource :=
  addResourcePrepare bareNative (some bareSystem) (some failUser) editorApp

/-- The heap of `platformTable` and `editorPrepared` after the runtime of Editor
has been re-checked and its size computation over `failUser` has failed. -/
def editorFailedHeap : Heap :=
  ((updateAppSize bareNative 1 (some failUser)
    (Heap.modify { m_resources := platformTable, fresh := editorPrepared }
      (ResourceRef.slot (uniqueId platformParsed))
      (updateAppState bareNative (some failUser)))
    (ResourceRef.slot (uniqueId platformParsed))).map Prod.snd).getD
      { m_resources := [], fresh := editorApp }

/-- The heap in which Foo sits in the table as installed. -/
def installedHeap : Heap :=
  { m_resources := Table.insert [] (uniqueId firefoxMerged) firefoxMerged,
    fresh := firefoxMerged }

/-- An installation of Foo that is downloading. -/
def downloadingFoo : FlatpakTransaction :=
  { installTransaction fooBackend firefoxHeap (ResourceRef.slot (uniqueId firefox)) with
    status := TransactionStatus.DownloadingStatus }

/-- A backend whose table holds Foo as installed. -/
def installedBackend : Backend :=
  { fooBackend with m_resources := installedHeap.m_resources }

/-- A `PackageKitBackend` that has no package and fetches nothing, as the
adapter is when nothing could be set up. -/
def packageKitNothing : PackageKitBackend :=
  { m_packages := [], m_updatingPackages := [], m_isFetching := 0, m_updatesPackageId := [] }

/-- Foo as an installed desktop file alone makes it known: no architecture and
no branch. -/
def fooBare : FlatpakResource :=
  { firefox with m_arch := "", m_branch := "" }

/-- The table that holds `armPlatform` and then `platformSized`, each under its
own `uniqueId`. -/
def twoPlatforms : Table :=
  armTable.insert (uniqueId platformSized) platformSized

/-- The table `platformTable` after `addResource` of Editor over `sizeUser`. -/
def editorAdded : Table :=
  (addResource bareNative 2 (some bareSystem) (some sizeUser) platformTable editorApp).getD []

/-- A desktop app whose AppStream id makes its `uniqueId` end with
`runtime/org.example.Loop/1.0` and whose own runtime is
`org.example.Loop/x86_64/1.0`. -/
def loopApp : FlatpakResource :=
  { FlatpakResource.new
      { id := "runtime/org.example.Loop", name := "Loop", summary := "Loop",
        kind := ComponentKind.KindDesktopApp, bundleId := none } with
    m_origin := "A", m_scope := Scope.User, m_arch := "x86_64", m_branch := "1.0",
    m_flatpakName := "org.example.Loop", m_runtime := "org.example.Loop/x86_64/1.0" }

/-- The table that holds `loopApp` alone, under its `uniqueId`. -/
def loopTable : Table :=
  Table.insert [] (uniqueId loopApp) loopApp

/-- An app with the runtime `org.example.Loop/x86_64/1.0`. -/
def loopUser : FlatpakResource :=
  { editorWithRuntime with m_runtime := "org.example.Loop/x86_64/1.0" }

/-- The heap in which `loopUser`, prepared by `addResource` over `bareUser`, has
its size computed next to `loopTable`. -/
def loopHeap : Heap :=
  { m_resources := loopTable,
    fresh := addResourcePrepare bareNative (some bareSystem) (some bareUser) loopUser }

/-- Another app, whose flatpak name is `org.example.Foo.desktop`, as the remote
`myremote` announces it; it is not installed. -/
def fooDesktop : FlatpakResource :=
  { FlatpakResource.new
      { id := "org.example.Foo.desktop.desktop", name := "Foo Desktop",
        summary := "Another app", kind := ComponentKind.KindDesktopApp,
        bundleId := some "app/org.example.Foo.desktop/x86_64/stable" } with
    m_origin := "myremote" }

/-- The app `fooDesktop` after `parseMetadataFromAppBundle`. -/
def fooDesktopParsed : FlatpakResource :=
  (parseMetadataFromAppBundle bareNative fooDesktop).2

/-- A runtime whose name holds the place marker `%1`, known from the remote
`A` and not installed. -/
def percentRuntime : FlatpakResource :=
  { FlatpakResource.new
      { id := "x%1y", name := "Percent", summary := "Shared runtime",
        kind := ComponentKind.KindRuntime, bundleId := some "runtime/x%1y/x86_64/B" } with
    m_origin := "A", m_arch := "x86_64", m_branch := "B", m_flatpakName := "x%1y",
    m_type := ResourceType.Runtime }

/-- The table that holds `percentRuntime` alone, under its `uniqueId`. -/
def percentTable : Table :=
  Table.insert [] (uniqueId percentRuntime) percentRuntime

/-- A user installation in which the metadata of every app names the runtime
`x%1y/x86_64/B`. -/
def percentUser : FlatpakInstallation :=
  { bareUser with fetchRemoteMetadata := fun _ _ => some "x%1y/x86_64/B" }

/-- Editor as `updateAppMetadata` leaves it over `percentUser`: its runtime is
`x%1y/x86_64/B`. -/
def percentApp : FlatpakResource :=
  (updateAppMetadata bareNative (some percentUser)
    { editorWithRuntime with m_runtime := "" }).2

/-- A table with one entry under a key without dots. -/
def plainTable : Table :=
  Table.insert [] "Dummy 1" firefox

end Examples

/-! ## Search -/

theorem mem_search_iff (fold : Char → Char) (t : Table) (q : String) (r : FlatpakResource) :
    r ∈ (search fold t q).resources ↔
      r ∈ t.values ∧ r.m_type = ResourceType.DesktopApp ∧
        (containsCaseInsensitive fold r.name q = true ∨
          containsCaseInsensitive fold r.comment q = true) := by
  simp [search, List.mem_filter]

/-- C1, as the code has it: a resource of the table that is a desktop app and
whose name or comment contains the search string case-insensitively is in the
stream that `search` returns. -/
theorem search_complete_desktopApp (fold : Char → Char) (t : Table) (q : String)
    (r : FlatpakResource) (hr : r ∈ t.values) (ht : r.m_type = ResourceType.DesktopApp)
    (hq : containsCaseInsensitive fold r.name q = true ∨
      containsCaseInsensitive fold r.comment q = true) :
    r ∈ (search fold t q).resources :=
  (mem_search_iff fold t q r).2 ⟨hr, ht, hq⟩

/-- Witness of C1: "fire" finds the desktop app Firefox. -/
theorem search_complete_desktopApp_witness :
    Examples.firefox ∈ Table.values Examples.fireTable ∧
      Examples.firefox ∈ (search Char.toLower Examples.fireTable "fire").resources :=
  ⟨by decide, search_complete_desktopApp Char.toLower Examples.fireTable "fire" Examples.firefox
    (by decide) (by decide) (Or.inl (by decide))⟩

/-- C1 as stated fails: the runtime "Fire Platform" is in the table and its name
contains "fire", yet it is missing from the stream, because `search` skips
every resource that is not a desktop app. -/
theorem search_misses_runtime :
    Examples.fireRuntime ∈ Table.values Examples.fireTable ∧
      containsCaseInsensitive Char.toLower Examples.fireRuntime.name "fire" = true ∧
      Examples.fireRuntime ∉ (search Char.toLower Examples.fireTable "fire").resources := by
  decide

/-- C2: every resource of the stream that `search` returns is a resource of the
table whose name or comment contains the search string case-insensitively; the
stream carries the label `FlatpakStream`, and it is the empty stream when no
resource of the table matches. -/
theorem search_sound (fold : Char → Char) (t : Table) (q : String) :
    (search fold t q).label = "FlatpakStream" ∧
      (∀ r ∈ (search fold t q).resources, r ∈ t.values ∧
        (containsCaseInsensitive fold r.name q = true ∨
          containsCaseInsensitive fold r.comment q = true)) ∧
      ((∀ r ∈ t.values, ¬ (containsCaseInsensitive fold r.name q = true ∨
          containsCaseInsensitive fold r.comment q = true)) →
        search fold t q = { label := "FlatpakStream", resources := [] }) := by
  refine ⟨rfl, fun r hr => ?_, fun h => ?_⟩
  · have := (mem_search_iff fold t q r).1 hr
    exact ⟨this.1, this.2.2⟩
  · have hnil : (search fold t q).resources = [] := by
      apply List.eq_nil_iff_forall_not_mem.2
      intro r hr
      have := (mem_search_iff fold t q r).1 hr
      exact h r this.1 this.2.2
    cases hs : search fold t q with
    | mk l rs =>
      have hl : (search fold t q).label = "FlatpakStream" := rfl
      rw [hs] at hnil hl
      simp only at hnil hl
      rw [hnil, hl]

/-- Witness of C2: the stream for "fire" holds only matching table resources,
and the stream for "zebra", which nothing matches, is the empty `FlatpakStream`. -/
theorem search_sound_witness :
    (Examples.firefox ∈ Table.values Examples.fireTable ∧
      (containsCaseInsensitive Char.toLower Examples.firefox.name "fire" = true ∨
        containsCaseInsensitive Char.toLower Examples.firefox.comment "fire" = true)) ∧
      search Char.toLower Examples.fireTable "zebra" =
        { label := "FlatpakStream", resources := [] } :=
  ⟨(search_sound Char.toLower Examples.fireTable "fire").2.1 Examples.firefox (by decide),
    (search_sound Char.toLower Examples.fireTable "zebra").2.2 (by decide)⟩

/-! ## Lookup by locator -/

/-- C3: `findResourceByPackageName` returns a stream of at most one resource; the
stream is empty when the scheme is not `flatpak` or the table has no entry
under the key derived from the host, and otherwise it holds exactly the entry
stored under that key. -/
theorem findResourceByPackageName_zero_or_one (t : Table) (url : QUrl) :
    (findResourceByPackageName t url).resources.length ≤ 1 ∧
      ((url.scheme ≠ "flatpak" ∨ t.value (replaceChar url.host '.' ' ') = none) →
        (findResourceByPackageName t url).resources = []) ∧
      (∀ r, url.scheme = "flatpak" → t.value (replaceChar url.host '.' ' ') = some r →
        (findResourceByPackageName t url).resources = [r]) := by
  unfold findResourceByPackageName
  by_cases hs : url.scheme = "flatpak"
  · cases hv : t.value (replaceChar url.host '.' ' ') with
    | none => simp [hs, hv]
    | some r0 => simp [hs, hv]
  · simp [hs]

/-- Witness of C3: a `flatpak` URL whose host maps to a key of the table gives the
entry under that key, and an `http` URL gives the empty stream. -/
theorem findResourceByPackageName_zero_or_one_witness :
    (findResourceByPackageName Examples.plainTable ⟨"flatpak", "Dummy.1"⟩).resources =
        [Examples.firefox] ∧
      (findResourceByPackageName Examples.plainTable ⟨"http", "Dummy.1"⟩).resources = [] :=
  ⟨(findResourceByPackageName_zero_or_one Examples.plainTable ⟨"flatpak", "Dummy.1"⟩).2.2
      Examples.firefox (by decide) (by decide),
    (findResourceByPackageName_zero_or_one Examples.plainTable ⟨"http", "Dummy.1"⟩).2.1
      (Or.inl (by decide))⟩

theorem replaceChar_dot_not_mem (host : String) : '.' ∉ (replaceChar host '.' ' ').data := by
  simp only [replaceChar, List.mem_map, not_exists, not_and]
  intro c _ h
  by_cases hc : c = '.'
  · simp [hc] at h
  · simp [hc] at h

theorem Table.value_none_of_not_mem_keys (t : Table) (key : String) (h : key ∉ t.keys) :
    t.value key = none := by
  induction t with
  | nil => rfl
  | cons p t ih =>
    obtain ⟨k, r⟩ := p
    simp only [Table.keys, List.map_cons, List.mem_cons, not_or] at h
    simp only [Table.value]
    rw [if_neg (fun hk => h.1 hk.symm)]
    exact ih h.2

theorem findResourceByPackageName_of_value_none (t : Table) (url : QUrl)
    (h : t.value (replaceChar url.host '.' ' ') = none) :
    (findResourceByPackageName t url).resources = [] := by
  unfold findResourceByPackageName
  by_cases hs : url.scheme = "flatpak"
  · simp [hs, h]
  · simp [hs]

/-- C4 fails on the code: `firefox` is stored under its `uniqueId`
`system/flatpak/myremote/app/org.example.Foo.desktop/stable`, and no URL at all
makes `findResourceByPackageName` return it, because the lookup key is the host
with every dot replaced by a blank. -/
theorem findResourceByPackageName_never_finds_uniqueId :
    Examples.firefoxTable.value (uniqueId Examples.firefox) = some Examples.firefox ∧
      ∀ url : QUrl, (findResourceByPackageName Examples.firefoxTable url).resources = [] := by
  refine ⟨by decide, fun url => ?_⟩
  apply findResourceByPackageName_of_value_none
  apply Table.value_none_of_not_mem_keys
  intro hmem
  have hk : replaceChar url.host '.' ' ' = uniqueId Examples.firefox := by
    have : Examples.firefoxTable.keys = [uniqueId Examples.firefox] := by decide
    rw [this] at hmem
    simpa using hmem
  have hdot : '.' ∈ (uniqueId Examples.firefox).data := by decide
  rw [← hk] at hdot
  exact replaceChar_dot_not_mem url.host hdot

/-! ## The fetching flag -/

theorem reloadPackageListSteps_fetching (env : Native) (fuel : Nat) (b b1 : Backend)
    (h : reloadPackageListSteps env fuel b = some b1) :
    b1.m_fetching = b.m_fetching ∧ b1.fetchingChanged = b.fetchingChanged := by
  unfold reloadPackageListSteps at h
  split at h
  · exact absurd h (by simp)
  · split at h
    · exact absurd h (by simp)
    · split at h
      · exact absurd h (by simp)
      · split at h
        · exact absurd h (by simp)
        · simp only [Option.some.injEq] at h
          subst h
          exact ⟨rfl, rfl⟩

/-- C5: whatever the four load steps do, `reloadPackageList` runs them with
`fetching` true and returns with `fetching` false; started from `fetching`
false it emits `fetchingChanged` exactly twice; `setFetching` with the value
the flag already has changes nothing and emits nothing. -/
theorem reloadPackageList_fetching (env : Native) (fuel : Nat) (b b2 : Backend)
    (h : reloadPackageList env fuel b = some b2) :
    (∃ b1, reloadPackageListSteps env fuel (setFetching b true) = some b1 ∧
        (setFetching b true).m_fetching = true ∧ b1.m_fetching = true ∧
        b2 = setFetching b1 false) ∧
      b2.m_fetching = false ∧
      (b.m_fetching = false → b2.fetchingChanged = b.fetchingChanged + 2) ∧
      (∀ (s : Backend) (v : Bool), s.m_fetching = v →
        setFetching s v = s ∧ (setFetching s v).fetchingChanged = s.fetchingChanged) := by
  unfold reloadPackageList at h
  cases hs : reloadPackageListSteps env fuel (setFetching b true) with
  | none => rw [hs] at h; exact absurd h (by simp)
  | some b1 =>
    rw [hs] at h
    simp only [Option.map_some', Option.some.injEq] at h
    subst h
    obtain ⟨hf, hc⟩ := reloadPackageListSteps_fetching env fuel _ _ hs
    have htrue : (setFetching b true).m_fetching = true := by
      unfold setFetching
      split <;> simp_all
    have hb1 : b1.m_fetching = true := by rw [hf, htrue]
    refine ⟨⟨b1, rfl, htrue, hb1, rfl⟩, ?_, ?_, ?_⟩
    · unfold setFetching
      split <;> simp_all
    · intro hb
      have h1 : (setFetching b true).fetchingChanged = b.fetchingChanged + 1 := by
        simp [setFetching, hb]
      have h2 : (setFetching b1 false).fetchingChanged = b1.fetchingChanged + 1 := by
        simp [setFetching, hb1]
      rw [h2, hc, h1]
    · intro s v hv
      have : setFetching s v = s := by simp [setFetching, hv]
      exact ⟨this, by rw [this]⟩

/-- Witness of C5: a reload over native state with nothing to discover returns,
with `fetching` false and two emissions. -/
theorem reloadPackageList_fetching_witness :
    reloadPackageList Examples.bareNative 1 Examples.staleBackend =
        some Examples.staleBackendReloaded ∧
      Examples.staleBackendReloaded.m_fetching = false ∧
      Examples.staleBackendReloaded.fetchingChanged = Examples.staleBackend.fetchingChanged + 2 :=
  ⟨rfl,
    (reloadPackageList_fetching Examples.bareNative 1 Examples.staleBackend
      Examples.staleBackendReloaded rfl).2.1,
    (reloadPackageList_fetching Examples.bareNative 1 Examples.staleBackend
      Examples.staleBackendReloaded rfl).2.2.1 rfl⟩

/-! ## Folds that can fail -/

theorem foldlM_rel {α β : Type} (R : β → β → Prop) (hrefl : ∀ b, R b b)
    (htrans : ∀ a b c, R a b → R b c → R a c) (f : β → α → Option β)
    (hf : ∀ b a b1, f b a = some b1 → R b b1) :
    ∀ (l : List α) (b b1 : β), l.foldlM f b = some b1 → R b b1 := by
  intro l
  induction l with
  | nil =>
    intro b b1 h
    simp only [List.foldlM_nil, pure, Option.some.injEq] at h
    subst h
    exact hrefl b
  | cons a l ih =>
    intro b b1 h
    simp only [List.foldlM_cons, bind, Option.bind_eq_some] at h
    obtain ⟨b2, h1, h2⟩ := h
    exact htrans _ _ _ (hf b a b2 h1) (ih b2 b1 h2)

/-! ## Keys of the table -/

theorem Table.keys_modify (t : Table) (key : String) (f : FlatpakResource → FlatpakResource) :
    (t.modify key f).keys = t.keys := by
  induction t with
  | nil => rfl
  | cons p t ih =>
    obtain ⟨k, r⟩ := p
    simp only [Table.modify]
    split
    · rfl
    · simp only [Table.keys, List.map_cons, List.cons.injEq, true_and] at ih ⊢
      exact ih

theorem Table.mem_keys_insert (t : Table) (key : String) (r : FlatpakResource) (k : String)
    (h : k ∈ t.keys) : k ∈ (t.insert key r).keys := by
  induction t with
  | nil => simp [Table.keys] at h
  | cons p t ih =>
    obtain ⟨k0, r0⟩ := p
    simp only [Table.insert]
    split
    · simpa [Table.keys] using h
    · simp only [Table.keys, List.map_cons, List.mem_cons] at h ⊢
      rcases h with h | h
      · exact Or.inl h
      · exact Or.inr (ih h)

theorem Heap.modify_keeps_keys (h : Heap) (ref : ResourceRef) (f : FlatpakResource → FlatpakResource) :
    (h.modify ref f).m_resources.keys = h.m_resources.keys := by
  cases ref with
  | fresh => rfl
  | slot key => exact Table.keys_modify _ _ _

/-! ## What `updateAppSize` can change -/

theorem updateAppSizeTail_rel (env : Native) (inst : Option FlatpakInstallation)
    (R : Heap → Heap → Prop) (hrefl : ∀ h, R h h)
    (hsize : ∀ h v, R h (h.modify resource (fun x => { x with m_size := v })))
    (h : Heap) (runtime : Option ResourceRef) :
    R h (updateAppSizeTail env inst h resource runtime).2 := by
  unfold updateAppSizeTail
  split
  · split
    · exact hrefl h
    · exact hsize h _
  · split
    · exact hrefl h
    · split
      · exact hrefl h
      · split
        · split
          · exact hsize h _
          · exact hsize h _
        · exact hsize h _

theorem updateAppSize_rel (env : Native) (inst : Option FlatpakInstallation)
    (R : Heap → Heap → Prop) (A : ResourceRef → Prop)
    (hslot : ∀ key, A (ResourceRef.slot key))
    (hrefl : ∀ h, R h h) (htrans : ∀ a b c, R a b → R b c → R a c)
    (hmeta : ∀ h r, A r → R h (h.modify r (fun x => (updateAppMetadata env inst x).2)))
    (hstate : ∀ h key, R h (h.modify (ResourceRef.slot key) (updateAppState env inst)))
    (hsize : ∀ h r v, A r → R h (h.modify r (fun x => { x with m_size := v }))) :
    ∀ (fuel : Nat) (h : Heap) (r : ResourceRef) (b : Bool) (h1 : Heap), A r →
      updateAppSize env fuel inst h r = some (b, h1) → R h h1 := by
  intro fuel
  induction fuel with
  | zero =>
    intro h r b h1 _ hres
    simp [updateAppSize] at hres
  | succ fuel ih =>
    intro h r b h1 hA hres
    have htail : ∀ (h0 : Heap) (rt : Option ResourceRef) (p : Bool × Heap),
        updateAppSizeTail env inst h0 r rt = p → R h0 p.2 := by
      intro h0 rt p hp
      rw [← hp]
      exact updateAppSizeTail_rel env inst R hrefl (fun h v => hsize h r v hA) h0 rt
    have hh1 : R h (if (h.get r).m_runtime = "" then
        h.modify r (fun x => (updateAppMetadata env inst x).2) else h) := by
      split
      · exact hmeta h r hA
      · exact hrefl h
    simp only [updateAppSize] at hres
    generalize (if (h.get r).m_runtime = "" then
        h.modify r (fun x => (updateAppMetadata env inst x).2) else h) = hx at hres hh1
    split at hres
    · simp only [Option.some.injEq, Prod.mk.injEq] at hres
      rw [← hres.2]; exact hrefl h
    · split at hres
      · simp only [Option.some.injEq, Prod.mk.injEq] at hres
        rw [← hres.2]; exact hrefl h
      · split at hres
        · split at hres
          · simp only [Option.some.injEq] at hres
            exact htrans _ _ _ hh1 (htail _ _ _ hres)
          · split at hres
            · split at hres
              · exact absurd hres (by simp)
              · simp only [Option.some.injEq, Prod.mk.injEq] at hres
                rename_i h3 heq
                rw [← hres.2]
                exact htrans _ _ _ hh1 (htrans _ _ _ (hstate _ _) (ih _ _ _ _ (hslot _) heq))
              · simp only [Option.some.injEq] at hres
                rename_i h3 heq
                exact htrans _ _ _ hh1 (htrans _ _ _ (hstate _ _)
                  (htrans _ _ _ (ih _ _ _ _ (hslot _) heq) (htail _ _ _ hres)))
            · simp only [Option.some.injEq] at hres
              exact htrans _ _ _ hh1 (htrans _ _ _ (hstate _ _) (htail _ _ _ hres))
        · simp only [Option.some.injEq] at hres
          exact htrans _ _ _ hh1 (htail _ _ _ hres)

theorem updateAppSize_keys (env : Native) (inst : Option FlatpakInstallation) (fuel : Nat)
    (h : Heap) (r : ResourceRef) (b : Bool) (h1 : Heap)
    (hres : updateAppSize env fuel inst h r = some (b, h1)) :
    h1.m_resources.keys = h.m_resources.keys := by
  refine updateAppSize_rel env inst (fun a c => c.m_resources.keys = a.m_resources.keys)
    (fun _ => True) (fun _ => trivial) (fun _ => rfl) (fun a b c h1 h2 => h2.trans h1)
    (fun h r _ => Heap.modify_keeps_keys h r _) (fun h key => Heap.modify_keeps_keys h _ _)
    (fun h r v _ => Heap.modify_keeps_keys h r _) fuel h r b h1 trivial hres

theorem updateAppSize_slot_fresh (env : Native) (inst : Option FlatpakInstallation) (fuel : Nat)
    (h : Heap) (key : String) (b : Bool) (h1 : Heap)
    (hres : updateAppSize env fuel inst h (ResourceRef.slot key) = some (b, h1)) :
    h1.fresh = h.fresh := by
  refine updateAppSize_rel env inst (fun a c => c.fresh = a.fresh)
    (fun r => r ≠ ResourceRef.fresh) (fun _ => by simp) (fun _ => rfl)
    (fun a b c h1 h2 => h2.trans h1) ?_ (fun h key => rfl) ?_ fuel h _ b h1 (by simp) hres
  · intro h r hr
    cases r with
    | fresh => exact absurd rfl hr
    | slot k => rfl
  · intro h r v hr
    cases r with
    | fresh => exact absurd rfl hr
    | slot k => rfl

theorem updateAppMetadata_fields (env : Native) (inst : Option FlatpakInstallation)
    (x : FlatpakResource) :
    (updateAppMetadata env inst x).2 =
      { x with m_runtime := (updateAppMetadata env inst x).2.m_runtime } := by
  unfold updateAppMetadata
  split
  · rfl
  · split
    · rfl
    · split
      · rfl
      · split
        · rfl
        · rfl

/-- The fields of the fresh resource that `updateAppSize` leaves alone: all but
runtime and size. -/
theorem updateAppSize_fresh_fields (env : Native) (inst : Option FlatpakInstallation) (fuel : Nat)
    (h : Heap) (r : ResourceRef) (b : Bool) (h1 : Heap)
    (hres : updateAppSize env fuel inst h r = some (b, h1)) :
    h1.fresh = { h.fresh with m_runtime := h1.fresh.m_runtime, m_size := h1.fresh.m_size } := by
  refine updateAppSize_rel env inst
    (fun a c => c.fresh = { a.fresh with m_runtime := c.fresh.m_runtime, m_size := c.fresh.m_size })
    (fun _ => True) (fun _ => trivial) (fun _ => rfl) ?_ ?_ (fun h key => rfl) ?_
    fuel h r b h1 trivial hres
  · intro a b c h1 h2
    rw [h1] at h2
    exact h2
  · intro h r _
    cases r with
    | fresh =>
      have hf := updateAppMetadata_fields env inst h.fresh
      have hs : (updateAppMetadata env inst h.fresh).2.m_size = h.fresh.m_size := by rw [hf]
      show (updateAppMetadata env inst h.fresh).2 =
        { h.fresh with m_runtime := (updateAppMetadata env inst h.fresh).2.m_runtime,
                       m_size := (updateAppMetadata env inst h.fresh).2.m_size }
      rw [hs]
      exact hf
    | slot k => rfl
  · intro h r v _
    cases r with
    | fresh => rfl
    | slot k => rfl

/-! ## What `addResource` does to the table -/

theorem addResource_eq (env : Native) (fuel : Nat) (sys user : Option FlatpakInstallation)
    (t : Table) (r : FlatpakResource) (t1 : Table)
    (h : addResource env fuel sys user t r = some t1) :
    ∃ (b : Bool) (hp : Heap),
      updateAppSize env fuel
        (flatpakInstallationForAppScope sys user (addResourcePrepare env sys user r).m_scope)
        { m_resources := t, fresh := addResourcePrepare env sys user r } ResourceRef.fresh =
          some (b, hp) ∧
      t1 = hp.m_resources.insert (uniqueId hp.fresh) hp.fresh := by
  simp only [addResource] at h
  split at h
  · exact absurd h (by simp)
  · rename_i b hp heq
    simp only [Option.some.injEq] at h
    exact ⟨b, hp, heq, h.symm⟩

theorem addResource_keys (env : Native) (fuel : Nat) (sys user : Option FlatpakInstallation)
    (t : Table) (r : FlatpakResource) (t1 : Table)
    (h : addResource env fuel sys user t r = some t1) :
    ∀ k ∈ t.keys, k ∈ t1.keys := by
  obtain ⟨b, hp, hu, rfl⟩ := addResource_eq env fuel sys user t r t1 h
  intro k hk
  apply Table.mem_keys_insert
  rw [updateAppSize_keys env _ fuel _ _ b hp hu]
  exact hk

theorem mergeInstalled_keys (resource : FlatpakResource) (t t1 : Table)
    (h : mergeInstalled resource t = some t1) : t1.keys = t.keys := by
  induction t generalizing t1 with
  | nil => simp [mergeInstalled] at h
  | cons p t ih =>
    obtain ⟨k, res⟩ := p
    simp only [mergeInstalled] at h
    split at h
    · simp only [Option.some.injEq] at h
      subst h
      rfl
    · simp only [Option.map_eq_some'] at h
      obtain ⟨t2, h2, rfl⟩ := h
      simp only [Table.keys, List.map_cons, List.cons.injEq, true_and]
      exact ih t2 h2

theorem loadInstalledFile_keys (env : Native) (fuel : Nat) (sys user : Option FlatpakInstallation)
    (fi : FlatpakInstallation) (t : Table) (file : String) (t1 : Table)
    (h : loadInstalledFile env fuel sys user fi t file = some t1) :
    ∀ k ∈ t.keys, k ∈ t1.keys := by
  simp only [loadInstalledFile] at h
  split at h
  · simp only [Option.some.injEq] at h
    subst h
    exact fun k hk => hk
  · split at h
    · simp only [Option.some.injEq] at h
      subst h
      exact fun k hk => hk
    · split at h
      · rename_i t2 hm
        simp only [Option.some.injEq] at h
        subst h
        intro k hk
        rw [mergeInstalled_keys _ _ _ hm]
        exact hk
      · exact addResource_keys env fuel sys user t _ t1 h

theorem loadInstalledApps_keys (env : Native) (fuel : Nat) (sys user : Option FlatpakInstallation)
    (inst : Option FlatpakInstallation) (t : Table) (ok : Bool) (t1 : Table)
    (h : loadInstalledApps env fuel sys user inst t = some (ok, t1)) :
    ∀ k ∈ t.keys, k ∈ t1.keys := by
  simp only [loadInstalledApps] at h
  split at h
  · simp only [Option.some.injEq, Prod.mk.injEq] at h
    rw [← h.2]
    exact fun k hk => hk
  · split at h
    · simp only [Option.some.injEq, Prod.mk.injEq] at h
      rw [← h.2]
      exact fun k hk => hk
    · simp only [Option.map_eq_some', Prod.mk.injEq] at h
      obtain ⟨t2, h2, -, rfl⟩ := h
      exact foldlM_rel (fun a c : Table => ∀ k ∈ a.keys, k ∈ c.keys) (fun _ _ hk => hk)
        (fun a b c h1 h2 k hk => h2 k (h1 k hk)) _
        (fun b a b1 hb => loadInstalledFile_keys env fuel sys user _ b a b1 hb) _ _ _ h2

theorem loadRemote_keys (env : Native) (fuel : Nat) (sys user : Option FlatpakInstallation)
    (fi : FlatpakInstallation) (t : Table) (remote : FlatpakRemote) (t1 : Table)
    (h : loadRemote env fuel sys user fi t remote = some t1) :
    ∀ k ∈ t.keys, k ∈ t1.keys := by
  simp only [loadRemote] at h
  split at h
  · simp only [Option.some.injEq] at h
    subst h
    exact fun k hk => hk
  · exact foldlM_rel (fun a c : Table => ∀ k ∈ a.keys, k ∈ c.keys) (fun _ _ hk => hk)
      (fun a b c h1 h2 k hk => h2 k (h1 k hk)) _
      (fun b a b1 hb => addResource_keys env fuel sys user b _ b1 hb) _ _ _ h

theorem loadAppsFromAppstreamData_keys (env : Native) (fuel : Nat)
    (sys user : Option FlatpakInstallation) (inst : Option FlatpakInstallation) (t : Table)
    (ok : Bool) (t1 : Table)
    (h : loadAppsFromAppstreamData env fuel sys user inst t = some (ok, t1)) :
    ∀ k ∈ t.keys, k ∈ t1.keys := by
  simp only [loadAppsFromAppstreamData] at h
  split at h
  · simp only [Option.some.injEq, Prod.mk.injEq] at h
    rw [← h.2]
    exact fun k hk => hk
  · split at h
    · simp only [Option.some.injEq, Prod.mk.injEq] at h
      rw [← h.2]
      exact fun k hk => hk
    · simp only [Option.map_eq_some', Prod.mk.injEq] at h
      obtain ⟨t2, h2, -, rfl⟩ := h
      exact foldlM_rel (fun a c : Table => ∀ k ∈ a.keys, k ∈ c.keys) (fun _ _ hk => hk)
        (fun a b c h1 h2 k hk => h2 k (h1 k hk)) _
        (fun b a b1 hb => loadRemote_keys env fuel sys user _ b a b1 hb) _ _ _ h2

theorem reloadPackageListSteps_keys (env : Native) (fuel : Nat) (b b1 : Backend)
    (h : reloadPackageListSteps env fuel b = some b1) :
    ∀ k ∈ b.m_resources.keys, k ∈ b1.m_resources.keys := by
  unfold reloadPackageListSteps at h
  split at h
  · exact absurd h (by simp)
  · rename_i ok1 t1 h1
    split at h
    · exact absurd h (by simp)
    · rename_i ok2 t2 h2
      split at h
      · exact absurd h (by simp)
      · rename_i ok3 t3 h3
        split at h
        · exact absurd h (by simp)
        · rename_i ok4 t4 h4
          simp only [Option.some.injEq] at h
          subst h
          intro k hk
          exact loadInstalledApps_keys _ _ _ _ _ _ _ _ h4 k
            (loadInstalledApps_keys _ _ _ _ _ _ _ _ h3 k
              (loadAppsFromAppstreamData_keys _ _ _ _ _ _ _ _ h2 k
                (loadAppsFromAppstreamData_keys _ _ _ _ _ _ _ _ h1 k hk)))

theorem setFetching_resources (b : Backend) (v : Bool) :
    (setFetching b v).m_resources = b.m_resources := by
  unfold setFetching
  split <;> rfl

/-- C6, as the code has it: `reloadPackageList` never removes an entry; every
key of the table before the reload is a key of the table after it. -/
theorem reloadPackageList_keeps_keys (env : Native) (fuel : Nat) (b b2 : Backend)
    (h : reloadPackageList env fuel b = some b2) :
    ∀ k ∈ b.m_resources.keys, k ∈ b2.m_resources.keys := by
  unfold reloadPackageList at h
  simp only [Option.map_eq_some'] at h
  obtain ⟨b1, h1, rfl⟩ := h
  intro k hk
  rw [setFetching_resources]
  apply reloadPackageListSteps_keys env fuel _ b1 h1
  rw [setFetching_resources]
  exact hk

/-- C6 as stated fails: over native state in which a reload discovers nothing
(from the empty table it leaves the table empty), a reload of a backend that
holds `firefox` leaves `firefox` in the table. -/
theorem reloadPackageList_keeps_stale_entry :
    (reloadPackageList Examples.bareNative 1 Examples.emptyBackend).map (fun b => b.m_resources) =
        some [] ∧
      (reloadPackageList Examples.bareNative 1 Examples.staleBackend).map
        (fun b => b.m_resources) = some [(uniqueId Examples.firefox, Examples.firefox)] := by
  decide

/-- Witness of C6: the key of `firefox` is still there after the reload. -/
theorem reloadPackageList_keeps_keys_witness :
    reloadPackageList Examples.bareNative 1 Examples.staleBackend =
        some Examples.staleBackendReloaded ∧
      uniqueId Examples.firefox ∈ Examples.staleBackendReloaded.m_resources.keys :=
  ⟨rfl, reloadPackageList_keeps_keys Examples.bareNative 1 Examples.staleBackend
    Examples.staleBackendReloaded rfl (uniqueId Examples.firefox) (by decide)⟩

/-! ## Uniqueness of keys -/

theorem Table.keys_insert (t : Table) (key : String) (r : FlatpakResource) :
    (t.insert key r).keys = if key ∈ t.keys then t.keys else t.keys ++ [key] := by
  induction t with
  | nil => simp [Table.insert, Table.keys]
  | cons p t ih =>
    obtain ⟨k, r0⟩ := p
    simp only [Table.insert]
    by_cases hk : k = key
    · simp [hk, Table.keys]
    · rw [if_neg hk]
      simp only [Table.keys, List.map_cons, List.mem_cons] at ih ⊢
      rw [ih]
      have hk2 : ¬ key = k := fun h => hk h.symm
      by_cases hm : key ∈ List.map Prod.fst t
      · simp [hm]
      · simp [hm, hk2]

theorem Table.nodup_keys_insert (t : Table) (key : String) (r : FlatpakResource)
    (h : t.keys.Nodup) : (t.insert key r).keys.Nodup := by
  rw [Table.keys_insert]
  split
  · exact h
  · rename_i hm
    rw [List.nodup_append]
    refine ⟨h, List.nodup_singleton _, ?_⟩
    intro a ha hb
    simp only [List.mem_singleton] at hb
    exact hm (hb ▸ ha)

theorem Table.value_insert_self (t : Table) (key : String) (r : FlatpakResource) :
    (t.insert key r).value key = some r := by
  induction t with
  | nil => simp [Table.insert, Table.value]
  | cons p t ih =>
    obtain ⟨k, r0⟩ := p
    simp only [Table.insert]
    by_cases hk : k = key
    · simp [hk, Table.value]
    · simp [hk, Table.value, ih]

theorem Table.eq_of_mem_of_nodup_keys (t : Table) (h : t.keys.Nodup) (k : String)
    (r1 r2 : FlatpakResource) (h1 : (k, r1) ∈ t) (h2 : (k, r2) ∈ t) : r1 = r2 := by
  have := List.inj_on_of_nodup_map h h1 h2 rfl
  exact (Prod.mk.inj this).2

theorem parseMetadataFromAppBundle_fields (env : Native) (r : FlatpakResource) :
    (parseMetadataFromAppBundle env r).2.m_appdata = r.m_appdata ∧
      (parseMetadataFromAppBundle env r).2.m_scope = r.m_scope ∧
      (parseMetadataFromAppBundle env r).2.m_state = r.m_state ∧
      (parseMetadataFromAppBundle env r).2.m_size = r.m_size := by
  unfold parseMetadataFromAppBundle
  split
  · exact ⟨rfl, rfl, rfl, rfl⟩
  · split
    · exact ⟨rfl, rfl, rfl, rfl⟩
    · exact ⟨rfl, rfl, rfl, rfl⟩

theorem updateAppState_fields (env : Native) (inst : Option FlatpakInstallation)
    (r : FlatpakResource) :
    (updateAppState env inst r).m_appdata = r.m_appdata ∧
      (updateAppState env inst r).m_scope = r.m_scope ∧
      (updateAppState env inst r).m_type = r.m_type := by
  unfold updateAppState
  split
  · exact ⟨rfl, rfl, rfl⟩
  · exact ⟨rfl, rfl, rfl⟩

theorem addResourcePrepare_fields (env : Native) (sys user : Option FlatpakInstallation)
    (r : FlatpakResource) :
    (addResourcePrepare env sys user r).m_appdata = r.m_appdata ∧
      (addResourcePrepare env sys user r).m_scope = r.m_scope ∧
      (addResourcePrepare env sys user r).m_state =
        (updateAppState env (flatpakInstallationForAppScope sys user r.m_scope)
          (parseMetadataFromAppBundle env r).2).m_state ∧
      (addResourcePrepare env sys user r).m_size =
        (updateAppState env (flatpakInstallationForAppScope sys user r.m_scope)
          (parseMetadataFromAppBundle env r).2).m_size := by
  obtain ⟨hp1, hp2, -, -⟩ := parseMetadataFromAppBundle_fields env r
  simp only [addResourcePrepare]
  rw [hp2]
  obtain ⟨hu1, hu2, -⟩ := updateAppState_fields env
    (flatpakInstallationForAppScope sys user r.m_scope) (parseMetadataFromAppBundle env r).2
  split
  · rw [updateAppMetadata_fields]
    exact ⟨hu1.trans hp1, hu2.trans hp2, rfl, rfl⟩
  · exact ⟨hu1.trans hp1, hu2.trans hp2, rfl, rfl⟩

/-- What `addResource` leaves behind: the keys it found, and the resource it was
given, enriched, under its `uniqueId`. -/
theorem addResource_stores (env : Native) (fuel : Nat) (sys user : Option FlatpakInstallation)
    (t : Table) (r : FlatpakResource) (t1 : Table)
    (h : addResource env fuel sys user t r = some t1) :
    ∃ r1, r1 = { addResourcePrepare env sys user r with
                  m_runtime := r1.m_runtime, m_size := r1.m_size } ∧
      t1.value (uniqueId r1) = some r1 ∧ (t.keys.Nodup → t1.keys.Nodup) := by
  obtain ⟨b, hp, hu, rfl⟩ := addResource_eq env fuel sys user t r t1 h
  refine ⟨hp.fresh, updateAppSize_fresh_fields env _ fuel _ _ b hp hu,
    Table.value_insert_self _ _ _, fun hnd => ?_⟩
  apply Table.nodup_keys_insert
  have hk := updateAppSize_keys env _ fuel _ _ b hp hu
  rw [hk]
  exact hnd

/-- C7, as the code has it: after any sequence of `addResource` calls on a table
with pairwise distinct keys, the keys are pairwise distinct, two entries under
one key are the same record, and the resource added last is stored under the
key equal to its own `uniqueId`. -/
theorem addResource_unique_keys (env : Native) (fuel : Nat)
    (sys user : Option FlatpakInstallation) (t : Table) (rs : List FlatpakResource)
    (r : FlatpakResource) (t2 : Table) (hnd : t.keys.Nodup)
    (h : (rs ++ [r]).foldlM (addResource env fuel sys user) t = some t2) :
    t2.keys.Nodup ∧
      (∀ k r1 r2, (k, r1) ∈ t2 → (k, r2) ∈ t2 → r1 = r2) ∧
      ∃ r1, r1.m_appdata = r.m_appdata ∧ r1.m_scope = r.m_scope ∧
        t2.value (uniqueId r1) = some r1 := by
  rw [List.foldlM_append] at h
  simp only [bind, Option.bind_eq_some, List.foldlM_cons, List.foldlM_nil, pure] at h
  obtain ⟨t1, h1, t3, h3, h4⟩ := h
  simp only [Option.some.injEq] at h4
  subst h4
  have hnd1 : t1.keys.Nodup :=
    foldlM_rel (fun a c : Table => a.keys.Nodup → c.keys.Nodup) (fun _ hk => hk)
      (fun a b c h1 h2 hk => h2 (h1 hk)) _
      (fun b a b1 hb => by
        obtain ⟨_, _, _, hn⟩ := addResource_stores env fuel sys user b a b1 hb
        exact hn) _ _ _ h1 hnd
  obtain ⟨r1, hr1, hv, hn⟩ := addResource_stores env fuel sys user t1 r t3 h3
  obtain ⟨ha, hs, -, -⟩ := addResourcePrepare_fields env sys user r
  refine ⟨hn hnd1, fun k x y hx hy => Table.eq_of_mem_of_nodup_keys _ (hn hnd1) k x y hx hy,
    r1, ?_, ?_, hv⟩
  · rw [hr1]; exact ha
  · rw [hr1]; exact hs

/-- Witness of C7: three calls of `addResource` from the empty table. -/
theorem addResource_unique_keys_witness :
    Examples.threeAdds.keys.Nodup ∧
      ∃ r1, r1.m_appdata = Examples.platformFromB.m_appdata ∧
        r1.m_scope = Examples.platformFromB.m_scope ∧
        Examples.threeAdds.value (uniqueId r1) = some r1 :=
  have h := addResource_unique_keys Examples.bareNative 2 (some Examples.bareSystem)
    (some Examples.platformUser) [] [Examples.platformFromA, Examples.editorApp]
    Examples.platformFromB Examples.threeAdds (by decide) (by decide)
  ⟨h.1, h.2.2⟩

/-- C7 as stated fails: after `addResource` of the runtime from remote `A`, of an
app that needs it, and of the runtime from remote `B`, the first entry sits
under the key with origin `A` while its own `uniqueId` has origin `B` (the
runtime re-check of `updateAppSize` rewrote its origin), and the first and the
third entry have the same `uniqueId` but are different records. -/
theorem addResource_breaks_uniqueId_key :
    (∃ e ∈ Examples.threeAdds, uniqueId e.2 ≠ e.1) ∧
      (∃ e1 ∈ Examples.threeAdds, ∃ e2 ∈ Examples.threeAdds,
        uniqueId e1.2 = uniqueId e2.2 ∧ e1.2 ≠ e2.2) ∧
      Examples.threeAdds.map (fun e => (e.1, uniqueId e.2, e.2.m_state)) =
        [("system/flatpak/A/runtime/org.example.Platform/1.0",
            "system/flatpak/B/runtime/org.example.Platform/1.0", State.Installed),
          ("user/flatpak/B/app/org.example.Editor.desktop/stable",
            "user/flatpak/B/app/org.example.Editor.desktop/stable", State.None),
          ("system/flatpak/B/runtime/org.example.Platform/1.0",
            "system/flatpak/B/runtime/org.example.Platform/1.0", State.None)] := by
  decide

/-! ## Installed desktop entries -/

theorem mergeInstalled_eq_none (resource : FlatpakResource) (t : Table) :
    mergeInstalled resource t = none ↔
      ∀ res ∈ t.values, matchesInstalled resource res = false := by
  induction t with
  | nil => simp [mergeInstalled, Table.values]
  | cons p t ih =>
    obtain ⟨k, res⟩ := p
    simp only [mergeInstalled, Table.values, List.map_cons, List.mem_cons, forall_eq_or_imp]
    by_cases hm : matchesInstalled resource res = true
    · simp [hm]
    · simp only [hm]
      simp only [Bool.not_eq_true] at hm
      simp only [Bool.false_eq_true, ↓reduceIte, Option.map_eq_none', hm, true_and]
      exact ih

theorem mergeInstalled_of_match (resource : FlatpakResource) (t : Table)
    (h : ∃ res ∈ t.values, matchesInstalled resource res = true) :
    ∃ pre k res post, t = pre ++ (k, res) :: post ∧
      (∀ p ∈ pre, matchesInstalled resource p.2 = false) ∧
      matchesInstalled resource res = true ∧
      mergeInstalled resource t =
        some (pre ++ (k, { res with m_scope := resource.m_scope,
                                    m_state := resource.m_state }) :: post) := by
  induction t with
  | nil => simp [Table.values] at h
  | cons p t ih =>
    obtain ⟨k, res⟩ := p
    by_cases hm : matchesInstalled resource res = true
    · refine ⟨[], k, res, t, rfl, by simp, hm, ?_⟩
      simp [mergeInstalled, hm]
    · have h1 : ∃ res ∈ Table.values t, matchesInstalled resource res = true := by
        obtain ⟨x, hx, hxm⟩ := h
        simp only [Table.values, List.map_cons, List.mem_cons] at hx
        rcases hx with rfl | hx
        · exact absurd hxm hm
        · exact ⟨x, hx, hxm⟩
      obtain ⟨pre, k1, res1, post, rfl, hpre, hres, hmerge⟩ := ih h1
      refine ⟨(k, res) :: pre, k1, res1, post, rfl, ?_, hres, ?_⟩
      · intro p hp
        simp only [List.mem_cons] at hp
        rcases hp with rfl | hp
        · simpa using hm
        · exact hpre p hp
      · simp only [mergeInstalled, hm, Bool.false_eq_true, ↓reduceIte, hmerge, Option.map_some',
          List.cons_append]

/-- C9: when `loadInstalledApps` meets an installed desktop entry that matches a
resource of the table, the table keeps its entries and keys: the first
matching resource takes the scope of the scanned installation and the state
`Installed` and keeps every other field, its origin among them; nothing is
inserted. -/
theorem loadInstalledFile_merges (env : Native) (fuel : Nat)
    (sys user : Option FlatpakInstallation) (fi : FlatpakInstallation) (t : Table)
    (file : String) (component : Component) (hfile : file ≠ "mimeinfo.cache")
    (hparse : env.parseDesktopEntry (fi.path ++ "/exports/" ++ "share/applications/" ++ file) =
      some component)
    (hmatch : ∃ res ∈ t.values,
      matchesInstalled (installedResource fi (fi.path ++ "/exports/") component) res = true) :
    ∃ pre k res post, t = pre ++ (k, res) :: post ∧
      (∀ p ∈ pre,
        matchesInstalled (installedResource fi (fi.path ++ "/exports/") component) p.2 = false) ∧
      matchesInstalled (installedResource fi (fi.path ++ "/exports/") component) res = true ∧
      loadInstalledFile env fuel sys user fi t file =
        some (pre ++ (k, { res with
          m_scope := if fi.isUser then Scope.User else Scope.System,
          m_state := State.Installed }) :: post) := by
  obtain ⟨pre, k, res, post, ht, hpre, hres, hmerge⟩ := mergeInstalled_of_match _ t hmatch
  refine ⟨pre, k, res, post, ht, hpre, hres, ?_⟩
  simp only [loadInstalledFile, hfile, ↓reduceIte, hparse, hmerge]
  rfl

/-- Witness of C9: the installed desktop file of Foo meets `firefox`, known from
the remote `myremote`; the table keeps its single entry, now with scope System,
state Installed and origin `myremote`. -/
theorem loadInstalledFile_merges_witness :
    loadInstalledFile Examples.fooNative 0 (some Examples.fooSystem) (some Examples.bareUser)
        Examples.fooSystem Examples.firefoxTable "org.example.Foo.desktop" =
          some [(uniqueId Examples.firefox, Examples.firefoxMerged)] ∧
      Examples.firefoxMerged.m_origin = "myremote" ∧
      ∃ pre k res post, Examples.firefoxTable = pre ++ (k, res) :: post ∧
        (∀ p ∈ pre, matchesInstalled (installedResource Examples.fooSystem
          (Examples.fooSystem.path ++ "/exports/") Examples.fooDesktopComponent) p.2 = false) ∧
        matchesInstalled (installedResource Examples.fooSystem
          (Examples.fooSystem.path ++ "/exports/") Examples.fooDesktopComponent) res = true ∧
        loadInstalledFile Examples.fooNative 0 (some Examples.fooSystem)
          (some Examples.bareUser) Examples.fooSystem Examples.firefoxTable
          "org.example.Foo.desktop" =
            some (pre ++ (k, { res with
              m_scope := if Examples.fooSystem.isUser then Scope.User else Scope.System,
              m_state := State.Installed }) :: post) :=
  ⟨by decide, by decide,
    loadInstalledFile_merges Examples.fooNative 0 (some Examples.fooSystem)
      (some Examples.bareUser) Examples.fooSystem Examples.firefoxTable
      "org.example.Foo.desktop" Examples.fooDesktopComponent (by decide) (by decide)
      ⟨Examples.firefox, by decide, by decide⟩⟩



theorem updateAppSize_fresh_returns (env : Native) (inst : Option FlatpakInstallation)
    (fuel : Nat) (h : Heap) (hs : h.fresh.m_state ≠ State.None) :
    ∃ b h1, updateAppSize env (fuel + 1) inst h ResourceRef.fresh = some (b, h1) := by
  have hx : ((if (h.get ResourceRef.fresh).m_runtime = "" then
      h.modify ResourceRef.fresh (fun x => (updateAppMetadata env inst x).2)
      else h).get ResourceRef.fresh).m_state ≠ State.None := by
    split
    · show (updateAppMetadata env inst h.fresh).2.m_state ≠ State.None
      rw [updateAppMetadata_fields]
      exact hs
    · exact hs
  simp only [updateAppSize]
  split
  · exact ⟨_, _, rfl⟩
  · split
    · exact ⟨_, _, rfl⟩
    · rw [if_neg (fun hc => hx hc.1)]
      exact ⟨_, _, rfl⟩

theorem updateAppState_state (env : Native) (inst : Option FlatpakInstallation)
    (r : FlatpakResource) :
    (∀ ref, getInstalledRefForApp env inst r = some ref →
        (updateAppState env inst r).m_state = State.Installed) ∧
      (getInstalledRefForApp env inst r = none →
        (updateAppState env inst r).m_state = State.None) := by
  constructor
  · intro ref href
    simp [updateAppState, href, updateAppInstalledMetadata]
  · intro href
    simp [updateAppState, href]

/-- C10, as the code has it: when `loadInstalledApps` meets an installed desktop
entry that matches no resource of the table, it inserts a resource for it under
the resource's `uniqueId`.  The state of that resource is the one
`updateAppState` derives: `Installed` when `getInstalledRefForApp` finds an
installed ref for it (and then the insertion returns), `None` when it finds
no ref. -/
theorem loadInstalledFile_inserts (env : Native) (fuel : Nat)
    (sys user : Option FlatpakInstallation) (fi : FlatpakInstallation) (t : Table)
    (file : String) (component : Component) (hfile : file ≠ "mimeinfo.cache")
    (hparse : env.parseDesktopEntry (fi.path ++ "/exports/" ++ "share/applications/" ++ file) =
      some component)
    (hno : ∀ res ∈ t.values,
      matchesInstalled (installedResource fi (fi.path ++ "/exports/") component) res = false) :
    (∀ ref,
      getInstalledRefForApp env
          (flatpakInstallationForAppScope sys user
            (installedResource fi (fi.path ++ "/exports/") component).m_scope)
          (parseMetadataFromAppBundle env
            (installedResource fi (fi.path ++ "/exports/") component)).2 = some ref →
        ∃ t1 r1, loadInstalledFile env (fuel + 1) sys user fi t file = some t1 ∧
          r1.m_appdata = component ∧ t1.value (uniqueId r1) = some r1 ∧
          r1.m_state = State.Installed) ∧
      (getInstalledRefForApp env
          (flatpakInstallationForAppScope sys user
            (installedResource fi (fi.path ++ "/exports/") component).m_scope)
          (parseMetadataFromAppBundle env
            (installedResource fi (fi.path ++ "/exports/") component)).2 = none →
        ∀ t1, loadInstalledFile env fuel sys user fi t file = some t1 →
          ∃ r1, r1.m_appdata = component ∧ t1.value (uniqueId r1) = some r1 ∧
            r1.m_state = State.None) := by
  have hload : ∀ n, loadInstalledFile env n sys user fi t file =
      addResource env n sys user t (installedResource fi (fi.path ++ "/exports/") component) := by
    intro n
    simp only [loadInstalledFile, hfile, ↓reduceIte, hparse,
      (mergeInstalled_eq_none _ t).2 hno]
  obtain ⟨ha, hsc, hst, -⟩ := addResourcePrepare_fields env sys user
    (installedResource fi (fi.path ++ "/exports/") component)
  obtain ⟨hyes, hnone⟩ := updateAppState_state env
    (flatpakInstallationForAppScope sys user
      (installedResource fi (fi.path ++ "/exports/") component).m_scope)
    (parseMetadataFromAppBundle env (installedResource fi (fi.path ++ "/exports/") component)).2
  constructor
  · intro ref href
    have hP : (addResourcePrepare env sys user
        (installedResource fi (fi.path ++ "/exports/") component)).m_state = State.Installed := by
      rw [hst]; exact hyes ref href
    obtain ⟨b, hp, hu⟩ := updateAppSize_fresh_returns env
      (flatpakInstallationForAppScope sys user (addResourcePrepare env sys user
        (installedResource fi (fi.path ++ "/exports/") component)).m_scope) fuel
      { m_resources := t, fresh := addResourcePrepare env sys user
          (installedResource fi (fi.path ++ "/exports/") component) }
      (by show (addResourcePrepare env sys user _).m_state ≠ State.None; rw [hP]; simp)
    have hadd : addResource env (fuel + 1) sys user t
        (installedResource fi (fi.path ++ "/exports/") component) =
        some (hp.m_resources.insert (uniqueId hp.fresh) hp.fresh) := by
      simp only [addResource, hu]
    obtain ⟨r1, hr1, hv, -⟩ := addResource_stores env (fuel + 1) sys user t _ _ hadd
    refine ⟨_, r1, (hload (fuel + 1)).trans hadd, ?_, hv, ?_⟩
    · rw [hr1]; exact ha
    · rw [hr1]; exact hP
  · intro href t1 h1
    rw [hload] at h1
    obtain ⟨r1, hr1, hv, -⟩ := addResource_stores env fuel sys user t _ _ h1
    refine ⟨r1, ?_, hv, ?_⟩
    · rw [hr1]; exact ha
    · rw [hr1]
      show (addResourcePrepare env sys user _).m_state = State.None
      rw [hst]; exact hnone href

/-- Witness of C10: with Foo installed, the desktop file of Foo is inserted into
the empty table as an installed resource. -/
theorem loadInstalledFile_inserts_witness :
    ∃ t1 r1, loadInstalledFile Examples.fooNative 1 (some Examples.fooSystem)
        (some Examples.bareUser) Examples.fooSystem [] "org.example.Foo.desktop" = some t1 ∧
      r1.m_appdata = Examples.fooDesktopComponent ∧ t1.value (uniqueId r1) = some r1 ∧
      r1.m_state = State.Installed :=
  (loadInstalledFile_inserts Examples.fooNative 0 (some Examples.fooSystem)
    (some Examples.bareUser) Examples.fooSystem [] "org.example.Foo.desktop"
    Examples.fooDesktopComponent (by decide) (by decide) (by decide)).1
    Examples.fooInstalledRef (by decide)

/-- C10 as stated fails: the desktop file of Foo is exported but no installed ref
of Foo is found; the scan inserts the resource and `updateAppState`, inside
`addResource`, leaves it in state `None`, not `Installed`. -/
theorem loadInstalledApps_inserts_not_installed :
    (loadInstalledApps Examples.fooNative 1 (some Examples.bareSystem) (some Examples.bareUser)
        (some Examples.bareSystem) []).map
          (fun p => p.2.map (fun e => (e.1, e.2.m_appdata, e.2.m_state))) =
      some [("system/flatpak//app/org.example.Foo/", Examples.fooDesktopComponent,
        State.None)] := by
  decide

/-! ## Running the scan of the installed desktop entries twice -/

theorem Table.insert_eq_self (t : Table) (key : String) (r : FlatpakResource)
    (h : t.value key = some r) : t.insert key r = t := by
  induction t with
  | nil => simp [Table.value] at h
  | cons p t ih =>
    obtain ⟨k, r0⟩ := p
    simp only [Table.value] at h
    simp only [Table.insert]
    by_cases hk : k = key
    · rw [if_pos hk] at h ⊢
      simp only [Option.some.injEq] at h
      rw [h]
    · rw [if_neg hk] at h ⊢
      rw [ih h]

theorem Table.value_insert (t : Table) (key : String) (r : FlatpakResource) (key1 : String) :
    (t.insert key r).value key1 = if key = key1 then some r else t.value key1 := by
  induction t with
  | nil =>
    simp [Table.insert, Table.value]
  | cons p t ih =>
    obtain ⟨k, r0⟩ := p
    simp only [Table.insert]
    by_cases hk : k = key
    · subst hk
      simp only [↓reduceIte, Table.value]
      by_cases h1 : k = key1
      · simp [h1]
      · simp [h1]
    · rw [if_neg hk]
      simp only [Table.value, ih]
      by_cases h1 : key = key1
      · subst h1
        simp [hk]
      · simp [h1]

theorem Table.mem_insert (t : Table) (key : String) (r : FlatpakResource)
    (e : String × FlatpakResource) (h : e ∈ t.insert key r) : e ∈ t ∨ e = (key, r) := by
  induction t with
  | nil =>
    simp only [Table.insert, List.mem_singleton] at h
    exact Or.inr h
  | cons p t ih =>
    obtain ⟨k, r0⟩ := p
    simp only [Table.insert] at h
    by_cases hk : k = key
    · rw [if_pos hk] at h
      simp only [List.mem_cons] at h ⊢
      rcases h with h | h
      · right; rw [h, hk]
      · left; right; exact h
    · rw [if_neg hk] at h
      simp only [List.mem_cons] at h ⊢
      rcases h with h | h
      · left; left; exact h
      · rcases ih h with h | h
        · left; right; exact h
        · right; exact h

theorem Table.find_insert_of_none (q : String × FlatpakResource → Bool) (t : Table)
    (key : String) (r : FlatpakResource) (h : t.find? q = none) :
    (t.insert key r).find? q = if q (key, r) then some (key, r) else none := by
  induction t with
  | nil =>
    simp only [Table.insert, List.find?_cons, List.find?_nil]
    cases q (key, r) <;> rfl
  | cons p t ih =>
    obtain ⟨k, r0⟩ := p
    simp only [List.find?_cons] at h
    cases hq : q (k, r0) with
    | true => rw [hq] at h; exact absurd h (by simp)
    | false =>
      rw [hq] at h
      simp only at h
      simp only [Table.insert]
      by_cases hk : k = key
      · rw [if_pos hk]
        subst hk
        simp only [List.find?_cons]
        cases hq1 : q (k, r) with
        | true => rfl
        | false => simpa using h
      · rw [if_neg hk]
        simp only [List.find?_cons, hq]
        exact ih h

theorem Table.find_insert_of_some (q : String × FlatpakResource → Bool)
    (G : FlatpakResource → Prop) (t : Table) (key : String) (r : FlatpakResource)
    (e : String × FlatpakResource) (h : t.find? q = some e) (hG : G e.2) (hr : G r)
    (hkey : ∀ r0, (key, r0) ∈ t → q (key, r0) = true → r0 = r) :
    ∃ e1, (t.insert key r).find? q = some e1 ∧ G e1.2 := by
  induction t with
  | nil => simp at h
  | cons p t ih =>
    obtain ⟨k, r0⟩ := p
    simp only [List.find?_cons] at h
    simp only [Table.insert]
    by_cases hk : k = key
    · rw [if_pos hk]
      subst hk
      cases hq : q (k, r0) with
      | true =>
        have : r0 = r := hkey r0 (List.mem_cons_self _ _) hq
        subst this
        rw [hq] at h
        simp only [Option.some.injEq] at h
        subst h
        exact ⟨(k, r0), by simp [List.find?_cons, hq], hG⟩
      | false =>
        rw [hq] at h
        simp only at h
        cases hq1 : q (k, r) with
        | true => exact ⟨(k, r), by simp [List.find?_cons, hq1], hr⟩
        | false => exact ⟨e, by simp [List.find?_cons, hq1, h], hG⟩
    · rw [if_neg hk]
      cases hq : q (k, r0) with
      | true =>
        rw [hq] at h
        simp only [Option.some.injEq] at h
        subst h
        exact ⟨(k, r0), by simp [List.find?_cons, hq], hG⟩
      | false =>
        rw [hq] at h
        simp only at h
        obtain ⟨e1, h1, h2⟩ := ih h (fun r0 hm hq0 => hkey r0 (List.mem_cons_of_mem _ hm) hq0)
        exact ⟨e1, by simp [List.find?_cons, hq, h1], h2⟩

theorem mergeInstalled_fixed (resource : FlatpakResource) (t : Table)
    (e : String × FlatpakResource)
    (h : t.find? (fun e => matchesInstalled resource e.2) = some e)
    (hscope : e.2.m_scope = resource.m_scope) (hstate : e.2.m_state = resource.m_state) :
    mergeInstalled resource t = some t := by
  induction t with
  | nil => simp at h
  | cons p t ih =>
    obtain ⟨k, res⟩ := p
    simp only [List.find?_cons] at h
    simp only [mergeInstalled]
    cases hm : matchesInstalled resource res with
    | true =>
      rw [hm] at h
      simp only [Option.some.injEq] at h
      subst h
      simp only at hscope hstate
      simp only [↓reduceIte, ← hscope, ← hstate]
    | false =>
      rw [hm] at h
      simp only at h
      simp only [Bool.false_eq_true, ↓reduceIte, ih h, Option.map_some']

theorem mergeInstalled_none_of_find (resource : FlatpakResource) (t : Table)
    (h : t.find? (fun e => matchesInstalled resource e.2) = none) :
    mergeInstalled resource t = none := by
  rw [mergeInstalled_eq_none]
  intro res hres
  simp only [Table.values, List.mem_map] at hres
  obtain ⟨e, he, rfl⟩ := hres
  have := List.find?_eq_none.1 h e he
  simpa using this

theorem find_of_mergeInstalled_none (resource : FlatpakResource) (t : Table)
    (h : mergeInstalled resource t = none) :
    t.find? (fun e => matchesInstalled resource e.2) = none := by
  rw [List.find?_eq_none]
  intro e he
  have := (mergeInstalled_eq_none resource t).1 h e.2
    (by simp only [Table.values, List.mem_map]; exact ⟨e, he, rfl⟩)
  simp [this]

theorem matchesInstalled_merged (resource res : FlatpakResource) (sc : Scope) (st : State) :
    matchesInstalled resource { res with m_scope := sc, m_state := st } =
      matchesInstalled resource res := rfl

theorem mergeInstalled_find_self (resource : FlatpakResource) (t t1 : Table)
    (h : mergeInstalled resource t = some t1) :
    ∃ e, t1.find? (fun e => matchesInstalled resource e.2) = some e ∧
      e.2.m_scope = resource.m_scope ∧ e.2.m_state = resource.m_state := by
  induction t generalizing t1 with
  | nil => simp [mergeInstalled] at h
  | cons p t ih =>
    obtain ⟨k, res⟩ := p
    simp only [mergeInstalled] at h
    cases hm : matchesInstalled resource res with
    | true =>
      rw [hm] at h
      simp only [↓reduceIte, Option.some.injEq] at h
      subst h
      refine ⟨(k, { res with m_scope := resource.m_scope, m_state := resource.m_state }),
        ?_, rfl, rfl⟩
      simp only [List.find?_cons, matchesInstalled_merged, hm]
    | false =>
      rw [hm] at h
      simp only [Bool.false_eq_true, ↓reduceIte, Option.map_eq_some'] at h
      obtain ⟨t2, h2, rfl⟩ := h
      obtain ⟨e, he, hg⟩ := ih t2 h2
      exact ⟨e, by simp only [List.find?_cons, hm, he], hg⟩

theorem mergeInstalled_find_other (resource : FlatpakResource)
    (q : String × FlatpakResource → Bool) (G : FlatpakResource → Prop)
    (hq : ∀ k res, q (k, { res with m_scope := resource.m_scope,
                                     m_state := resource.m_state }) = q (k, res))
    (hG : ∀ res : FlatpakResource,
      G ({ res with m_scope := resource.m_scope, m_state := resource.m_state } : FlatpakResource))
    (t t1 : Table) (h : mergeInstalled resource t = some t1)
    (e : String × FlatpakResource) (hfind : t.find? q = some e) (he : G e.2) :
    ∃ e1, t1.find? q = some e1 ∧ G e1.2 := by
  induction t generalizing t1 with
  | nil => simp at hfind
  | cons p t ih =>
    obtain ⟨k, res⟩ := p
    simp only [mergeInstalled] at h
    simp only [List.find?_cons] at hfind
    cases hm : matchesInstalled resource res with
    | true =>
      rw [hm] at h
      simp only [↓reduceIte, Option.some.injEq] at h
      subst h
      cases hqr : q (k, res) with
      | true =>
        exact ⟨(k, { res with m_scope := resource.m_scope, m_state := resource.m_state }),
          by simp only [List.find?_cons, hq, hqr], hG res⟩
      | false =>
        rw [hqr] at hfind
        simp only at hfind
        exact ⟨e, by simp only [List.find?_cons, hq, hqr, hfind], he⟩
    | false =>
      rw [hm] at h
      simp only [Bool.false_eq_true, ↓reduceIte, Option.map_eq_some'] at h
      obtain ⟨t2, h2, rfl⟩ := h
      cases hqr : q (k, res) with
      | true =>
        rw [hqr] at hfind
        simp only [Option.some.injEq] at hfind
        subst hfind
        exact ⟨(k, res), by simp only [List.find?_cons, hqr], he⟩
      | false =>
        rw [hqr] at hfind
        simp only at hfind
        obtain ⟨e1, h1, hg⟩ := ih t2 h2 hfind
        exact ⟨e1, by simp only [List.find?_cons, hqr, h1], hg⟩

theorem mergeInstalled_find_none (resource : FlatpakResource)
    (q : String × FlatpakResource → Bool)
    (hq : ∀ k res, q (k, { res with m_scope := resource.m_scope,
                                     m_state := resource.m_state }) = q (k, res))
    (t t1 : Table) (h : mergeInstalled resource t = some t1) (hfind : t.find? q = none) :
    t1.find? q = none := by
  induction t generalizing t1 with
  | nil => simp [mergeInstalled] at h
  | cons p t ih =>
    obtain ⟨k, res⟩ := p
    simp only [mergeInstalled] at h
    simp only [List.find?_cons] at hfind
    cases hqr : q (k, res) with
    | true => rw [hqr] at hfind; exact absurd hfind (by simp)
    | false =>
      rw [hqr] at hfind
      simp only at hfind
      cases hm : matchesInstalled resource res with
      | true =>
        rw [hm] at h
        simp only [↓reduceIte, Option.some.injEq] at h
        subst h
        simp only [List.find?_cons, hq, hqr, hfind]
      | false =>
        rw [hm] at h
        simp only [Bool.false_eq_true, ↓reduceIte, Option.map_eq_some'] at h
        obtain ⟨t2, h2, rfl⟩ := h
        simp only [List.find?_cons, hqr, ih t2 h2 hfind]

theorem mergeInstalled_value (resource : FlatpakResource) (t t1 : Table)
    (h : mergeInstalled resource t = some t1) (key : String) (r : FlatpakResource)
    (hv : t.value key = some r)
    (hr : { r with m_scope := resource.m_scope, m_state := resource.m_state } = r) :
    t1.value key = some r := by
  induction t generalizing t1 with
  | nil => simp [mergeInstalled] at h
  | cons p t ih =>
    obtain ⟨k, res⟩ := p
    simp only [mergeInstalled] at h
    simp only [Table.value] at hv
    cases hm : matchesInstalled resource res with
    | true =>
      rw [hm] at h
      simp only [↓reduceIte, Option.some.injEq] at h
      subst h
      simp only [Table.value]
      by_cases hk : k = key
      · rw [if_pos hk] at hv ⊢
        simp only [Option.some.injEq] at hv
        subst hv
        rw [hr]
      · rw [if_neg hk] at hv ⊢
        exact hv
    | false =>
      rw [hm] at h
      simp only [Bool.false_eq_true, ↓reduceIte, Option.map_eq_some'] at h
      obtain ⟨t2, h2, rfl⟩ := h
      simp only [Table.value]
      by_cases hk : k = key
      · rw [if_pos hk] at hv ⊢
        exact hv
      · rw [if_neg hk] at hv ⊢
        exact ih t2 h2 hv

theorem mergeInstalled_mem (resource : FlatpakResource) (t t1 : Table)
    (h : mergeInstalled resource t = some t1) (e1 : String × FlatpakResource) (he : e1 ∈ t1) :
    e1 ∈ t ∨ ∃ e ∈ t, e1 = (e.1, { e.2 with m_scope := resource.m_scope,
                                              m_state := resource.m_state }) := by
  induction t generalizing t1 with
  | nil => simp [mergeInstalled] at h
  | cons p t ih =>
    obtain ⟨k, res⟩ := p
    simp only [mergeInstalled] at h
    cases hm : matchesInstalled resource res with
    | true =>
      rw [hm] at h
      simp only [↓reduceIte, Option.some.injEq] at h
      subst h
      simp only [List.mem_cons] at he
      rcases he with he | he
      · exact Or.inr ⟨(k, res), List.mem_cons_self _ _, he⟩
      · exact Or.inl (List.mem_cons_of_mem _ he)
    | false =>
      rw [hm] at h
      simp only [Bool.false_eq_true, ↓reduceIte, Option.map_eq_some'] at h
      obtain ⟨t2, h2, rfl⟩ := h
      simp only [List.mem_cons] at he
      rcases he with he | he
      · exact Or.inl (he ▸ List.mem_cons_self _ _)
      · rcases ih t2 h2 he with h3 | ⟨e, h3, h4⟩
        · exact Or.inl (List.mem_cons_of_mem _ h3)
        · exact Or.inr ⟨e, List.mem_cons_of_mem _ h3, h4⟩

theorem String.ne_append_desktop (s : String) : s ≠ s ++ ".desktop" := by
  intro h
  have := congrArg String.length h
  simp only [String.length_append] at this
  have h8 : (".desktop" : String).length = 8 := by decide
  omega

theorem installedRecord_fields (env : Native) (sys user : Option FlatpakInstallation)
    (fi : FlatpakInstallation) (c : Component) :
    (installedRecord env sys user fi c).m_appdata = c ∧
      (installedRecord env sys user fi c).m_scope =
        (installedResource fi (fi.path ++ "/exports/") c).m_scope ∧
      (0 < (installedRecord env sys user fi c).m_size →
        (installedRecord env sys user fi c).m_state = State.Installed) := by
  obtain ⟨ha, hs, hst, hsz⟩ := addResourcePrepare_fields env sys user
    (installedResource fi (fi.path ++ "/exports/") c)
  refine ⟨ha, hs, fun hpos => ?_⟩
  unfold installedRecord at hpos ⊢
  rw [hsz] at hpos
  rw [hst]
  obtain ⟨-, -, -, hp⟩ := parseMetadataFromAppBundle_fields env
    (installedResource fi (fi.path ++ "/exports/") c)
  unfold updateAppState at hpos ⊢
  split
  · rfl
  · rename_i hnone
    rw [hnone] at hpos
    simp only at hpos
    rw [hp] at hpos
    exact absurd hpos (by simp [installedResource, FlatpakResource.new])

theorem installedRecord_merged (env : Native) (sys user : Option FlatpakInstallation)
    (fi : FlatpakInstallation) (c d : Component)
    (hpos : 0 < (installedRecord env sys user fi c).m_size) :
    ({ installedRecord env sys user fi c with
        m_scope := (installedResource fi (fi.path ++ "/exports/") d).m_scope,
        m_state := (installedResource fi (fi.path ++ "/exports/") d).m_state } :
      FlatpakResource) = installedRecord env sys user fi c := by
  obtain ⟨-, hs, hst⟩ := installedRecord_fields env sys user fi c
  have h1 : (installedResource fi (fi.path ++ "/exports/") d).m_scope =
      (installedRecord env sys user fi c).m_scope := by rw [hs]; rfl
  have h2 : (installedResource fi (fi.path ++ "/exports/") d).m_state =
      (installedRecord env sys user fi c).m_state := by rw [hst hpos]; rfl
  rw [h1, h2]

theorem installedRecord_not_self_match (env : Native) (sys user : Option FlatpakInstallation)
    (fi : FlatpakInstallation) (c : Component) :
    matchesInstalled (installedResource fi (fi.path ++ "/exports/") c)
      (installedRecord env sys user fi c) = false := by
  obtain ⟨ha, -, -⟩ := installedRecord_fields env sys user fi c
  have hne : c.id ≠ c.id ++ ".desktop" := String.ne_append_desktop c.id
  simp only [matchesInstalled, FlatpakResource.appstreamId, ha, installedResource,
    FlatpakResource.new, Bool.and_eq_false_imp, decide_eq_true_eq]
  intro h
  exact absurd h hne

theorem installedStep_of_settled (env : Native) (sys user : Option FlatpakInstallation)
    (fi : FlatpakInstallation) (c : Component) (t : Table)
    (h : Settled env sys user fi c t) : installedStep env sys user fi t c = t := by
  unfold installedStep
  rcases h with ⟨e, he, hs, hst⟩ | ⟨hnone, hv⟩
  · rw [mergeInstalled_fixed _ t e he hs hst]
  · rw [mergeInstalled_none_of_find _ t hnone]
    exact Table.insert_eq_self _ _ _ hv

theorem settled_installedStep_self (env : Native) (sys user : Option FlatpakInstallation)
    (fi : FlatpakInstallation) (c : Component) (t : Table) :
    Settled env sys user fi c (installedStep env sys user fi t c) := by
  unfold installedStep
  cases hm : mergeInstalled (installedResource fi (fi.path ++ "/exports/") c) t with
  | some t1 =>
    exact Or.inl (mergeInstalled_find_self _ t t1 hm)
  | none =>
    right
    have hnone := find_of_mergeInstalled_none _ t hm
    refine ⟨?_, Table.value_insert_self _ _ _⟩
    rw [Table.find_insert_of_none _ t _ _ hnone]
    simp only [installedRecord_not_self_match, Bool.false_eq_true, ↓reduceIte]

theorem settled_installedStep_other (env : Native) (sys user : Option FlatpakInstallation)
    (fi : FlatpakInstallation) (c d : Component) (t : Table)
    (hK : KeyedByRecord env sys user fi t) (hc : Scanned env fi c) (hd : Scanned env fi d)
    (hposc : 0 < (installedRecord env sys user fi c).m_size)
    (hposd : 0 < (installedRecord env sys user fi d).m_size)
    (hkey : uniqueId (installedRecord env sys user fi d) =
        uniqueId (installedRecord env sys user fi c) →
      installedRecord env sys user fi d = installedRecord env sys user fi c)
    (h : Settled env sys user fi c t) :
    Settled env sys user fi c (installedStep env sys user fi t d) := by
  have hGd : (installedRecord env sys user fi d).m_scope =
        (installedResource fi (fi.path ++ "/exports/") c).m_scope ∧
      (installedRecord env sys user fi d).m_state =
        (installedResource fi (fi.path ++ "/exports/") c).m_state := by
    obtain ⟨-, hs, hst⟩ := installedRecord_fields env sys user fi d
    exact ⟨by rw [hs]; rfl, by rw [hst hposd]; rfl⟩
  unfold installedStep
  cases hm : mergeInstalled (installedResource fi (fi.path ++ "/exports/") d) t with
  | some t1 =>
    rcases h with ⟨e, he, hg⟩ | ⟨hnone, hv⟩
    · exact Or.inl (mergeInstalled_find_other _
        (fun e => matchesInstalled (installedResource fi (fi.path ++ "/exports/") c) e.2)
        (fun res => res.m_scope = (installedResource fi (fi.path ++ "/exports/") c).m_scope ∧
          res.m_state = (installedResource fi (fi.path ++ "/exports/") c).m_state)
        (fun _ _ => rfl) (fun _ => ⟨rfl, rfl⟩) t t1 hm e he hg)
    · exact Or.inr ⟨mergeInstalled_find_none _ _ (fun _ _ => rfl) t t1 hm hnone,
        mergeInstalled_value _ t t1 hm _ _ hv (installedRecord_merged env sys user fi c d hposc)⟩
  | none =>
    rcases h with ⟨e, he, hg⟩ | ⟨hnone, hv⟩
    · exact Or.inl (Table.find_insert_of_some
        (fun e => matchesInstalled (installedResource fi (fi.path ++ "/exports/") c) e.2)
        (fun res => res.m_scope = (installedResource fi (fi.path ++ "/exports/") c).m_scope ∧
          res.m_state = (installedResource fi (fi.path ++ "/exports/") c).m_state)
        t _ _ e he hg hGd (fun r0 hmem hq => hK c d hc hd (_, r0) hmem hq rfl))
    · simp only
      cases hq : matchesInstalled (installedResource fi (fi.path ++ "/exports/") c)
          (installedRecord env sys user fi d) with
      | true =>
        refine Or.inl ⟨(uniqueId (installedRecord env sys user fi d),
          installedRecord env sys user fi d), ?_, hGd⟩
        rw [Table.find_insert_of_none _ t _ _ hnone]
        simp only [hq, ↓reduceIte]
      | false =>
        refine Or.inr ⟨?_, ?_⟩
        · rw [Table.find_insert_of_none _ t _ _ hnone]
          simp only [hq, Bool.false_eq_true, ↓reduceIte]
        · rw [Table.value_insert]
          split
          · rename_i hk
            rw [hkey hk]
          · exact hv

theorem keyedByRecord_installedStep (env : Native) (sys user : Option FlatpakInstallation)
    (fi : FlatpakInstallation) (d : Component) (t : Table)
    (hK : KeyedByRecord env sys user fi t) (hd : Scanned env fi d)
    (hsize : ∀ c, Scanned env fi c → 0 < (installedRecord env sys user fi c).m_size)
    (hkey : ∀ c d, Scanned env fi c → Scanned env fi d →
      uniqueId (installedRecord env sys user fi c) = uniqueId (installedRecord env sys user fi d) →
      installedRecord env sys user fi c = installedRecord env sys user fi d) :
    KeyedByRecord env sys user fi (installedStep env sys user fi t d) := by
  intro c1 d1 hc1 hd1 e1 he1 hmatch hk
  unfold installedStep at he1
  cases hm : mergeInstalled (installedResource fi (fi.path ++ "/exports/") d) t with
  | some t1 =>
    rw [hm] at he1
    rcases mergeInstalled_mem _ t t1 hm e1 he1 with hmem | ⟨e, hmem, rfl⟩
    · exact hK c1 d1 hc1 hd1 e1 hmem hmatch hk
    · have := hK c1 d1 hc1 hd1 e hmem hmatch hk
      simp only
      rw [this]
      exact installedRecord_merged env sys user fi d1 d (hsize d1 hd1)
  | none =>
    rw [hm] at he1
    rcases Table.mem_insert _ _ _ e1 he1 with hmem | rfl
    · exact hK c1 d1 hc1 hd1 e1 hmem hmatch hk
    · exact hkey d d1 hd hd1 hk

theorem loadInstalledFile_eq_step (env : Native) (fuel : Nat)
    (sys user : Option FlatpakInstallation) (fi : FlatpakInstallation) (t : Table)
    (file : String) (c : Component) (hfile : file ≠ "mimeinfo.cache")
    (hparse : env.parseDesktopEntry (fi.path ++ "/exports/" ++ "share/applications/" ++ file) =
      some c)
    (hpos : 0 < (installedRecord env sys user fi c).m_size) :
    loadInstalledFile env (fuel + 1) sys user fi t file =
      some (installedStep env sys user fi t c) := by
  simp only [loadInstalledFile, hfile, ↓reduceIte, hparse, installedStep]
  cases hm : mergeInstalled (installedResource fi (fi.path ++ "/exports/") c) t with
  | some t1 => rfl
  | none =>
    have hpos1 : 0 < (addResourcePrepare env sys user
        (installedResource fi (fi.path ++ "/exports/") c)).m_size := hpos
    simp only [addResource, updateAppSize, Heap.get]
    rw [if_pos hpos1]
    rfl

theorem loadInstalledFile_skip (env : Native) (fuel : Nat)
    (sys user : Option FlatpakInstallation) (fi : FlatpakInstallation) (t : Table)
    (file : String)
    (h : file = "mimeinfo.cache" ∨
      env.parseDesktopEntry (fi.path ++ "/exports/" ++ "share/applications/" ++ file) = none) :
    loadInstalledFile env fuel sys user fi t file = some t := by
  simp only [loadInstalledFile]
  split
  · rfl
  · rename_i hne
    rcases h with h | h
    · exact absurd h hne
    · rw [h]

theorem scan_settles (env : Native) (fuel : Nat) (sys user : Option FlatpakInstallation)
    (fi : FlatpakInstallation) (files : List String)
    (hdir : env.dirEntries (fi.path ++ "/exports/" ++ "share/applications/") = some files)
    (hsize : ∀ c, Scanned env fi c → 0 < (installedRecord env sys user fi c).m_size)
    (hkey : ∀ c d, Scanned env fi c → Scanned env fi d →
      uniqueId (installedRecord env sys user fi c) = uniqueId (installedRecord env sys user fi d) →
      installedRecord env sys user fi c = installedRecord env sys user fi d) :
    ∀ (l done : List String), (∀ f ∈ l, f ∈ files) → (∀ f ∈ done, f ∈ files) →
      ∀ t, KeyedByRecord env sys user fi t →
        (∀ c, ScannedIn env fi done c → Settled env sys user fi c t) →
        ∃ t1, l.foldlM (loadInstalledFile env (fuel + 1) sys user fi) t = some t1 ∧
          KeyedByRecord env sys user fi t1 ∧
          ∀ c, ScannedIn env fi (done ++ l) c → Settled env sys user fi c t1 := by
  have hscanned : ∀ (fs : List String), (∀ f ∈ fs, f ∈ files) → ∀ c,
      ScannedIn env fi fs c → Scanned env fi c := by
    intro fs hfs c hc
    obtain ⟨file, hmem, hne, hp⟩ := hc
    exact ⟨files, hdir, file, hfs file hmem, hne, hp⟩
  intro l
  induction l with
  | nil =>
    intro done _ _ t hK hS
    exact ⟨t, rfl, hK, by simpa using hS⟩
  | cons f l ih =>
    intro done hl hdone t hK hS
    have hf : f ∈ files := hl f (List.mem_cons_self _ _)
    have hl1 : ∀ g ∈ l, g ∈ files := fun g hg => hl g (List.mem_cons_of_mem _ hg)
    have hdone1 : ∀ g ∈ done ++ [f], g ∈ files := by
      intro g hg
      simp only [List.mem_append, List.mem_singleton] at hg
      rcases hg with hg | hg
      · exact hdone g hg
      · exact hg ▸ hf
    have hassoc : done ++ f :: l = (done ++ [f]) ++ l := by simp
    by_cases hskip : f = "mimeinfo.cache" ∨
        env.parseDesktopEntry (fi.path ++ "/exports/" ++ "share/applications/" ++ f) = none
    · have hstep := loadInstalledFile_skip env (fuel + 1) sys user fi t f hskip
      have hS1 : ∀ c, ScannedIn env fi (done ++ [f]) c → Settled env sys user fi c t := by
        intro c hc
        obtain ⟨file, hmem, hne, hp⟩ := hc
        simp only [List.mem_append, List.mem_singleton] at hmem
        rcases hmem with hmem | hmem
        · exact hS c ⟨file, hmem, hne, hp⟩
        · subst hmem
          rcases hskip with h | h
          · exact absurd h hne
          · rw [h] at hp
            exact absurd hp (by simp)
      obtain ⟨t1, h1, hK1, hS2⟩ := ih (done ++ [f]) hl1 hdone1 t hK hS1
      refine ⟨t1, ?_, hK1, ?_⟩
      · simp only [List.foldlM_cons, hstep, bind, Option.bind]
        exact h1
      · rw [hassoc]
        exact hS2
    · simp only [not_or] at hskip
      obtain ⟨hne, hsome⟩ := hskip
      cases hp : env.parseDesktopEntry
          (fi.path ++ "/exports/" ++ "share/applications/" ++ f) with
      | none => exact absurd hp hsome
      | some c0 =>
        have hc0 : Scanned env fi c0 := ⟨files, hdir, f, hf, hne, hp⟩
        have hstep := loadInstalledFile_eq_step env fuel sys user fi t f c0 hne hp (hsize c0 hc0)
        have hK0 := keyedByRecord_installedStep env sys user fi c0 t hK hc0 hsize hkey
        have hS1 : ∀ c, ScannedIn env fi (done ++ [f]) c →
            Settled env sys user fi c (installedStep env sys user fi t c0) := by
          intro c hc
          have hcs : Scanned env fi c := hscanned _ hdone1 c hc
          obtain ⟨file, hmem, hne1, hp1⟩ := hc
          simp only [List.mem_append, List.mem_singleton] at hmem
          rcases hmem with hmem | hmem
          · exact settled_installedStep_other env sys user fi c c0 t hK hcs hc0
              (hsize c hcs) (hsize c0 hc0) (hkey c0 c hc0 hcs) (hS c ⟨file, hmem, hne1, hp1⟩)
          · subst hmem
            rw [hp] at hp1
            simp only [Option.some.injEq] at hp1
            subst hp1
            exact settled_installedStep_self env sys user fi c0 t
        obtain ⟨t1, h1, hK1, hS2⟩ := ih (done ++ [f]) hl1 hdone1 _ hK0 hS1
        refine ⟨t1, ?_, hK1, ?_⟩
        · simp only [List.foldlM_cons, hstep, bind, Option.bind]
          exact h1
        · rw [hassoc]
          exact hS2

theorem scan_of_settled (env : Native) (fuel : Nat) (sys user : Option FlatpakInstallation)
    (fi : FlatpakInstallation) (files : List String)
    (hdir : env.dirEntries (fi.path ++ "/exports/" ++ "share/applications/") = some files)
    (hsize : ∀ c, Scanned env fi c → 0 < (installedRecord env sys user fi c).m_size)
    (t : Table) (hS : ∀ c, ScannedIn env fi files c → Settled env sys user fi c t) :
    ∀ l : List String, (∀ f ∈ l, f ∈ files) →
      l.foldlM (loadInstalledFile env (fuel + 1) sys user fi) t = some t := by
  intro l
  induction l with
  | nil => intro _; rfl
  | cons f l ih =>
    intro hl
    have hf : f ∈ files := hl f (List.mem_cons_self _ _)
    have hstep : loadInstalledFile env (fuel + 1) sys user fi t f = some t := by
      by_cases hskip : f = "mimeinfo.cache" ∨
          env.parseDesktopEntry (fi.path ++ "/exports/" ++ "share/applications/" ++ f) = none
      · exact loadInstalledFile_skip env (fuel + 1) sys user fi t f hskip
      · simp only [not_or] at hskip
        obtain ⟨hne, hsome⟩ := hskip
        cases hp : env.parseDesktopEntry
            (fi.path ++ "/exports/" ++ "share/applications/" ++ f) with
        | none => exact absurd hp hsome
        | some c0 =>
          rw [loadInstalledFile_eq_step env fuel sys user fi t f c0 hne hp
            (hsize c0 ⟨files, hdir, f, hf, hne, hp⟩)]
          rw [installedStep_of_settled env sys user fi c0 t (hS c0 ⟨f, hf, hne, hp⟩)]
    simp only [List.foldlM_cons, hstep, bind, Option.bind]
    exact ih (fun g hg => hl g (List.mem_cons_of_mem _ hg))

/-- C8, as the code has it: running `loadInstalledApps` twice gives the same
table as running it once, and the second run inserts nothing, for a table and
native state in which (1) every installed desktop entry resolves, through
`updateAppState`, to an installed ref of positive size, (2) two installed
desktop entries whose records have the same `uniqueId` have the same record,
and (3) a table resource that matches an installed desktop entry and sits
under the `uniqueId` of such a record is that record. -/
theorem loadInstalledApps_idempotent (env : Native) (fuel : Nat)
    (sys user : Option FlatpakInstallation) (fi : FlatpakInstallation) (t : Table)
    (hsize : ∀ c, Scanned env fi c → 0 < (installedRecord env sys user fi c).m_size)
    (hkey : ∀ c d, Scanned env fi c → Scanned env fi d →
      uniqueId (installedRecord env sys user fi c) = uniqueId (installedRecord env sys user fi d) →
      installedRecord env sys user fi c = installedRecord env sys user fi d)
    (hfree : KeyedByRecord env sys user fi t) :
    ∃ t1, loadInstalledApps env (fuel + 1) sys user (some fi) t = some (true, t1) ∧
      loadInstalledApps env (fuel + 1) sys user (some fi) t1 = some (true, t1) := by
  cases hdir : env.dirEntries (fi.path ++ "/exports/" ++ "share/applications/") with
  | none =>
    exact ⟨t, by simp only [loadInstalledApps, hdir], by simp only [loadInstalledApps, hdir]⟩
  | some files =>
    obtain ⟨t1, h1, -, hS⟩ := scan_settles env fuel sys user fi files hdir hsize hkey files []
      (fun f hf => hf) (by simp) t hfree
      (by intro c hc; obtain ⟨file, hmem, -, -⟩ := hc; simp at hmem)
    have h2 := scan_of_settled env fuel sys user fi files hdir hsize t1
      (by simpa using hS) files (fun f hf => hf)
    exact ⟨t1, by simp only [loadInstalledApps, hdir, h1, Option.map_some'],
      by simp only [loadInstalledApps, hdir, h2, Option.map_some']⟩

theorem Examples.scanned_foo (c : Component)
    (h : Scanned Examples.fooNative Examples.fooSystem c) : c = Examples.fooDesktopComponent := by
  obtain ⟨files, hdir, file, hmem, hne, hp⟩ := h
  have hd : Examples.fooNative.dirEntries
      (Examples.fooSystem.path ++ "/exports/" ++ "share/applications/") =
        some ["mimeinfo.cache", "org.example.Foo.desktop"] := by decide
  rw [hd] at hdir
  simp only [Option.some.injEq] at hdir
  subst hdir
  simp only [List.mem_cons, List.mem_singleton, List.not_mem_nil, or_false] at hmem
  rcases hmem with hmem | hmem
  · exact absurd hmem hne
  · subst hmem
    have hq : Examples.fooNative.parseDesktopEntry
        (Examples.fooSystem.path ++ "/exports/" ++ "share/applications/" ++
          "org.example.Foo.desktop") = some Examples.fooDesktopComponent := by decide
    rw [hq] at hp
    simp only [Option.some.injEq] at hp
    exact hp.symm

/-- Witness of C8: with Foo installed, the scan of the system installation
inserts Foo into the empty table, and a second scan leaves that table as it
is. -/
theorem loadInstalledApps_idempotent_witness :
    ∃ t1, loadInstalledApps Examples.fooNative 1 (some Examples.fooSystem)
        (some Examples.bareUser) (some Examples.fooSystem) [] = some (true, t1) ∧
      loadInstalledApps Examples.fooNative 1 (some Examples.fooSystem)
        (some Examples.bareUser) (some Examples.fooSystem) t1 = some (true, t1) :=
  loadInstalledApps_idempotent Examples.fooNative 0 (some Examples.fooSystem)
    (some Examples.bareUser) Examples.fooSystem []
    (fun c hc => by rw [Examples.scanned_foo c hc]; decide)
    (fun c d hc hd _ => by rw [Examples.scanned_foo c hc, Examples.scanned_foo d hd])
    (fun _ _ _ _ e he => absurd he (List.not_mem_nil e))

/-- C8 as stated fails: the system installation exports three desktop files with
the ids `org.example.Foo`, `org.example.Foo.desktop` and
`org.example.Foo.desktop.desktop`, and no installed ref is found for them.  The
first scan inserts three resources in state `None`; the second scan takes the
second resource for the installed form of the first entry and leaves it in
state `Installed`: two scans do not give the table of one scan. -/
theorem loadInstalledApps_second_scan_differs :
    (Examples.chainScans 1).map (fun t => t.map (fun e => (e.1, e.2.m_state))) =
        some [("system/flatpak//app/org.example.Foo/", State.None),
          ("system/flatpak//app/org.example.Foo.desktop/", State.None),
          ("system/flatpak//app/org.example.Foo.desktop.desktop/", State.None)] ∧
      (Examples.chainScans 2).map (fun t => t.map (fun e => (e.1, e.2.m_state))) =
        some [("system/flatpak//app/org.example.Foo/", State.None),
          ("system/flatpak//app/org.example.Foo.desktop/", State.Installed),
          ("system/flatpak//app/org.example.Foo.desktop.desktop/", State.None)] ∧
      Examples.chainScans 2 ≠ Examples.chainScans 1 := by
  decide

/-! ## Matching a resource with an installed ref -/

/-- C11: when the `uniqueId` of the resource equals the composite identity that
`compareAppFlatpakRef` builds from the installed ref, the comparison is true,
whatever architecture, branch and flatpak name the resource has. -/
theorem compareAppFlatpakRef_identity (env : Native) (fi : FlatpakInstallation)
    (resource : FlatpakResource) (ref : FlatpakInstalledRef)
    (h : uniqueId resource = refUniqueId env fi ref) :
    compareAppFlatpakRef env fi resource ref = true := by
  simp [compareAppFlatpakRef, h]

/-- Witness of C11: `firefox` has the identity of the installed ref of Foo. -/
theorem compareAppFlatpakRef_identity_witness :
    uniqueId Examples.firefox = refUniqueId Examples.bareNative Examples.fooSystem Examples.fooInstalledRef ∧
      compareAppFlatpakRef Examples.bareNative Examples.fooSystem Examples.firefox
        Examples.fooInstalledRef = true :=
  ⟨by decide, compareAppFlatpakRef_identity Examples.bareNative Examples.fooSystem
    Examples.firefox Examples.fooInstalledRef (by decide)⟩

/-! ## The runtime of an app -/

theorem Table.value_isSome_of_mem_keys (t : Table) (key : String) (h : key ∈ t.keys) :
    ∃ res, t.value key = some res := by
  induction t with
  | nil => simp [Table.keys] at h
  | cons p t ih =>
    obtain ⟨k, r⟩ := p
    simp only [Table.value]
    by_cases hk : k = key
    · exact ⟨r, by rw [if_pos hk]⟩
    · rw [if_neg hk]
      simp only [Table.keys, List.map_cons, List.mem_cons] at h
      rcases h with h | h
      · exact absurd h.symm hk
      · exact ih h

/-- C13 as stated fails: Editor needs the runtime
`org.example.Platform/x86_64/1.0`, and `getRuntimeForApp` returns the table
entry `armPlatform`, whose architecture is `arm`. -/
theorem getRuntimeForApp_ignores_arch :
    split Examples.editorWithRuntime.m_runtime '/' =
        ["org.example.Platform", "x86_64", "1.0"] ∧
      (getRuntimeForApp Examples.bareNative Examples.armTable Examples.editorWithRuntime).bind
        Examples.armTable.value = some Examples.armPlatform ∧
      Examples.armPlatform.m_arch = "arm" ∧ Examples.armPlatform.m_arch ≠ "x86_64" := by
  decide

/-! ## The size that is there already -/

theorem updateAppSize_of_pos (env : Native) (inst : Option FlatpakInstallation) (fuel : Nat)
    (h : Heap) (ref : ResourceRef) (hpos : 0 < (h.get ref).m_size) :
    updateAppSize env (fuel + 1) inst h ref = some (true, h) := by
  simp only [updateAppSize]
  rw [if_pos hpos]

/-- C14: for a resource whose size is positive, `updateAppSize` returns true and
leaves the heap as it is: no field of the resource changes and no resource of
the table, a runtime among them, is touched.  So a second call after a call
that left a positive size returns true and changes nothing. -/
theorem updateAppSize_idempotent (env : Native) (inst : Option FlatpakInstallation)
    (fuel : Nat) (h : Heap) (ref : ResourceRef) :
    (0 < (h.get ref).m_size → updateAppSize env (fuel + 1) inst h ref = some (true, h)) ∧
      (∀ n b h1, updateAppSize env n inst h ref = some (b, h1) → 0 < (h1.get ref).m_size →
        updateAppSize env (fuel + 1) inst h1 ref = some (true, h1)) :=
  ⟨updateAppSize_of_pos env inst fuel h ref,
    fun _ _ h1 _ hpos => updateAppSize_of_pos env inst fuel h1 ref hpos⟩

/-- Witness of C14: the first call gives Editor the size 12, the second call
returns true and leaves the heap as it is. -/
theorem updateAppSize_idempotent_witness :
    updateAppSize Examples.bareNative 2 (some Examples.sizeUser) Examples.editorHeap
        ResourceRef.fresh = some (true, Examples.editorSizedHeap) ∧
      Examples.editorSizedHeap.fresh.m_size = 12 ∧
      updateAppSize Examples.bareNative 2 (some Examples.sizeUser) Examples.editorSizedHeap
        ResourceRef.fresh = some (true, Examples.editorSizedHeap) :=
  ⟨by decide, by decide,
    (updateAppSize_idempotent Examples.bareNative (some Examples.sizeUser) 1
      Examples.editorHeap ResourceRef.fresh).2 2 true Examples.editorSizedHeap
      (by decide) (by decide)⟩

/-! ## The size of an app and of its runtime -/

theorem getRuntimeForApp_runtime_ne (env : Native) (t : Table) (resource : FlatpakResource) (key : String)
    (h : getRuntimeForApp env t resource = some key) : resource.m_runtime ≠ "" := by
  intro he
  unfold getRuntimeForApp at h
  rw [he] at h
  have : split "" '/' = [""] := by decide
  rw [this] at h
  simp at h

theorem isInstalled_of_state_none (r : FlatpakResource) (h : r.m_state = State.None) :
    r.isInstalled = false := by
  simp [FlatpakResource.isInstalled, h]

/-- The size computation of an app that is not installed, up to the point where
the runtime has been looked up: what `updateAppSize` answers is decided by the
size computation of the runtime. -/
theorem updateAppSize_app_with_runtime (env : Native) (inst : Option FlatpakInstallation)
    (fuel : Nat) (h : Heap) (key : String)
    (hsize : h.fresh.m_size = 0) (hstate : h.fresh.m_state = State.None)
    (htype : h.fresh.m_type = ResourceType.DesktopApp)
    (hkey : getRuntimeForApp env h.m_resources h.fresh = some key)
    (hni : ((h.modify (ResourceRef.slot key) (updateAppState env inst)).get
      (ResourceRef.slot key)).isInstalled = false) :
    updateAppSize env (fuel + 1) inst h ResourceRef.fresh =
      match updateAppSize env fuel inst
          (h.modify (ResourceRef.slot key) (updateAppState env inst)) (ResourceRef.slot key) with
      | none => none
      | some (false, h3) => some (false, h3)
      | some (true, h3) =>
        some (updateAppSizeTail env inst h3 ResourceRef.fresh (some (ResourceRef.slot key))) := by
  have e1 : ¬ 0 < (h.get ResourceRef.fresh).m_size := by
    show ¬ 0 < h.fresh.m_size
    omega
  have e2 : ¬ (h.get ResourceRef.fresh).m_runtime = "" :=
    getRuntimeForApp_runtime_ne _ _ _ _ hkey
  have e3 : (h.get ResourceRef.fresh).m_state = State.None ∧
      (h.get ResourceRef.fresh).m_type = ResourceType.DesktopApp := ⟨hstate, htype⟩
  have e4 : getRuntimeForApp env h.m_resources (h.get ResourceRef.fresh) = some key := hkey
  cases hrec : updateAppSize env fuel inst
      (h.modify (ResourceRef.slot key) (updateAppState env inst)) (ResourceRef.slot key) with
  | none =>
    simp only [updateAppSize, e1, e2, false_and, ↓reduceIte, e3, and_self, e4, hni,
      Bool.not_false, hrec]
  | some p =>
    obtain ⟨b, h3⟩ := p
    cases b <;>
      simp only [updateAppSize, e1, e2, false_and, ↓reduceIte, e3, and_self, e4, hni,
        Bool.not_false, hrec]

/-- C15, as the code has it: for an app that is not installed, whose runtime is
found in the table and is not installed, and whose remote size fetch succeeds
after the size computation of the runtime has succeeded, `updateAppSize`
returns true and sets the size of the app to its remote installed size plus
the size of the runtime, in 64 bit unsigned arithmetic; the download size is
not used. -/
theorem updateAppSize_adds_runtime_size (env : Native) (inst : Option FlatpakInstallation)
    (fuel : Nat) (h h3 : Heap) (key : String) (ref : FlatpakRef)
    (downloadSize installedSize : Nat)
    (hsize : h.fresh.m_size = 0) (hstate : h.fresh.m_state = State.None)
    (htype : h.fresh.m_type = ResourceType.DesktopApp)
    (hkey : getRuntimeForApp env h.m_resources h.fresh = some key)
    (hni : ((h.modify (ResourceRef.slot key) (updateAppState env inst)).get
      (ResourceRef.slot key)).isInstalled = false)
    (hrec : updateAppSize env fuel inst
      (h.modify (ResourceRef.slot key) (updateAppState env inst)) (ResourceRef.slot key) =
        some (true, h3))
    (hni3 : (h3.get (ResourceRef.slot key)).isInstalled = false)
    (hfake : createFakeRef env h.fresh = some ref)
    (hfetch : inst.bind (fun fi => fi.fetchRemoteSize h.fresh.m_origin ref) =
      some (downloadSize, installedSize)) :
    updateAppSize env (fuel + 1) inst h ResourceRef.fresh =
      some (true, { h3 with fresh := { h.fresh with
        m_size := ((h3.get (ResourceRef.slot key)).m_size + installedSize) % 2 ^ 64 } }) := by
  have hf3 : h3.fresh = h.fresh :=
    updateAppSize_slot_fresh env inst fuel
      (h.modify (ResourceRef.slot key) (updateAppState env inst)) key true h3 hrec
  rw [updateAppSize_app_with_runtime env inst fuel h key hsize hstate htype hkey hni, hrec]
  have g1 : (h3.get ResourceRef.fresh) = h.fresh := hf3
  have g2 : h.fresh.isInstalled = false := isInstalled_of_state_none _ hstate
  simp only [updateAppSizeTail, g1, g2, Bool.false_eq_true, ↓reduceIte, hfake, hfetch, hni3,
    Bool.not_false, Heap.modify, hf3]

/-- Witness of C15: Editor, download size 3 and installed size 7, next to the
runtime of size 5, gets the size 12. -/
theorem updateAppSize_adds_runtime_size_witness :
    updateAppSize Examples.bareNative 2 (some Examples.sizeUser) Examples.editorHeap
        ResourceRef.fresh =
      some (true, { Examples.editorRuntimeHeap with fresh := { Examples.editorHeap.fresh with
        m_size := ((Examples.editorRuntimeHeap.get
          (ResourceRef.slot (uniqueId Examples.platformParsed))).m_size + 7) % 2 ^ 64 } }) :=
  updateAppSize_adds_runtime_size Examples.bareNative (some Examples.sizeUser) 1
    Examples.editorHeap Examples.editorRuntimeHeap (uniqueId Examples.platformParsed)
    { kind := FlatpakRefKind.FLATPAK_REF_KIND_APP, name := "org.example.Editor",
      arch := "x86_64", branch := "stable", commit := "" } 3 7
    (by decide) (by decide) (by decide) (by decide) (by decide) (by decide) (by decide)
    (by decide) (by decide)

/-- C15 as stated fails: the download size of Editor is 3, its installed size 7,
the size of its runtime, which is not installed, 5; `updateAppSize` sets the
size of Editor to 12, not to 3 + 5. -/
theorem updateAppSize_uses_installed_size :
    Examples.sizeUser.fetchRemoteSize "B"
        { kind := FlatpakRefKind.FLATPAK_REF_KIND_APP, name := "org.example.Editor",
          arch := "x86_64", branch := "stable", commit := "" } = some (3, 7) ∧
      (updateAppSize Examples.bareNative 2 (some Examples.sizeUser) Examples.editorHeap
        ResourceRef.fresh).map (fun p => (p.1, p.2.fresh.m_size,
          p.2.m_resources.map (fun e => (e.2.m_size, e.2.isInstalled)))) =
        some (true, 12, [(5, false)]) := by
  decide

/-- C16: for an app that is not installed, whose size is unresolved and whose
runtime is found in the table and is not installed, when the size computation
of the runtime returns false, `updateAppSize` for the app returns false and
leaves the app as it was, its size unresolved; `addResource` returns all the
same, with the app stored under its `uniqueId`. -/
theorem addResource_runtime_size_fails (env : Native) (fuel : Nat)
    (sys user : Option FlatpakInstallation) (t : Table) (r : FlatpakResource) (key : String)
    (h3 : Heap)
    (hsize : (addResourcePrepare env sys user r).m_size = 0)
    (hstate : (addResourcePrepare env sys user r).m_state = State.None)
    (htype : (addResourcePrepare env sys user r).m_type = ResourceType.DesktopApp)
    (hkey : getRuntimeForApp env t (addResourcePrepare env sys user r) = some key)
    (hni : ((Heap.modify { m_resources := t, fresh := addResourcePrepare env sys user r }
      (ResourceRef.slot key)
      (updateAppState env (flatpakInstallationForAppScope sys user
        (addResourcePrepare env sys user r).m_scope))).get (ResourceRef.slot key)).isInstalled =
          false)
    (hrec : updateAppSize env fuel
      (flatpakInstallationForAppScope sys user (addResourcePrepare env sys user r).m_scope)
      (Heap.modify { m_resources := t, fresh := addResourcePrepare env sys user r }
        (ResourceRef.slot key)
        (updateAppState env (flatpakInstallationForAppScope sys user
          (addResourcePrepare env sys user r).m_scope)))
      (ResourceRef.slot key) = some (false, h3)) :
    updateAppSize env (fuel + 1)
        (flatpakInstallationForAppScope sys user (addResourcePrepare env sys user r).m_scope)
        { m_resources := t, fresh := addResourcePrepare env sys user r } ResourceRef.fresh =
          some (false, h3) ∧
      h3.fresh = addResourcePrepare env sys user r ∧ h3.fresh.m_size = 0 ∧
      addResource env (fuel + 1) sys user t r =
        some (h3.m_resources.insert (uniqueId (addResourcePrepare env sys user r))
          (addResourcePrepare env sys user r)) ∧
      (h3.m_resources.insert (uniqueId (addResourcePrepare env sys user r))
          (addResourcePrepare env sys user r)).value
        (uniqueId (addResourcePrepare env sys user r)) =
          some (addResourcePrepare env sys user r) := by
  have hf3 : h3.fresh = addResourcePrepare env sys user r :=
    updateAppSize_slot_fresh env _ fuel _ key false h3 hrec
  have hu := updateAppSize_app_with_runtime env
    (flatpakInstallationForAppScope sys user (addResourcePrepare env sys user r).m_scope) fuel
    { m_resources := t, fresh := addResourcePrepare env sys user r } key hsize hstate htype
    hkey hni
  rw [hrec] at hu
  simp only at hu
  refine ⟨hu, hf3, by rw [hf3]; exact hsize, ?_, Table.value_insert_self _ _ _⟩
  simp only [addResource, hu, hf3]

/-- Witness of C16: over `failUser` the size of the runtime cannot be fetched;
Editor is inserted with its size unresolved. -/
theorem addResource_runtime_size_fails_witness :
    Examples.editorFailedHeap.fresh.m_size = 0 ∧
      addResource Examples.bareNative 2 (some Examples.bareSystem) (some Examples.failUser)
        Examples.platformTable Examples.editorApp =
          some (Examples.editorFailedHeap.m_resources.insert
            (uniqueId (addResourcePrepare Examples.bareNative (some Examples.bareSystem)
              (some Examples.failUser) Examples.editorApp))
            (addResourcePrepare Examples.bareNative (some Examples.bareSystem)
              (some Examples.failUser) Examples.editorApp)) :=
  have h := addResource_runtime_size_fails Examples.bareNative 1 (some Examples.bareSystem)
    (some Examples.failUser) Examples.platformTable Examples.editorApp
    (uniqueId Examples.platformParsed) Examples.editorFailedHeap
    (by decide) (by decide) (by decide) (by decide) (by decide) (by decide)
  ⟨h.2.2.1, h.2.2.2.1⟩

/-- C17, as the code has it: for an app that is not installed, whose size is
unresolved and whose declared runtime is not found in the table,
`updateAppSize` goes on without a runtime: when the remote size fetch succeeds
it returns true and sets the size of the app to its remote installed size;
it returns false and leaves the size unresolved only when the fake ref cannot
be made or the remote size cannot be fetched. -/
theorem updateAppSize_without_runtime (env : Native) (inst : Option FlatpakInstallation)
    (fuel : Nat) (h : Heap)
    (hsize : h.fresh.m_size = 0) (hrt : h.fresh.m_runtime ≠ "")
    (hstate : h.fresh.m_state = State.None)
    (htype : h.fresh.m_type = ResourceType.DesktopApp)
    (hnone : getRuntimeForApp env h.m_resources h.fresh = none) :
    (∀ ref downloadSize installedSize, createFakeRef env h.fresh = some ref →
      inst.bind (fun fi => fi.fetchRemoteSize h.fresh.m_origin ref) =
        some (downloadSize, installedSize) →
      updateAppSize env (fuel + 1) inst h ResourceRef.fresh =
        some (true, { h with fresh := { h.fresh with m_size := installedSize } })) ∧
      (createFakeRef env h.fresh = none →
        updateAppSize env (fuel + 1) inst h ResourceRef.fresh = some (false, h)) ∧
      (∀ ref, createFakeRef env h.fresh = some ref →
        inst.bind (fun fi => fi.fetchRemoteSize h.fresh.m_origin ref) = none →
        updateAppSize env (fuel + 1) inst h ResourceRef.fresh = some (false, h)) := by
  have e1 : ¬ 0 < (h.get ResourceRef.fresh).m_size := by
    show ¬ 0 < h.fresh.m_size
    omega
  have e2 : ¬ (h.get ResourceRef.fresh).m_runtime = "" := hrt
  have e3 : (h.get ResourceRef.fresh).m_state = State.None ∧
      (h.get ResourceRef.fresh).m_type = ResourceType.DesktopApp := ⟨hstate, htype⟩
  have e4 : getRuntimeForApp env h.m_resources (h.get ResourceRef.fresh) = none := hnone
  have e5 : h.fresh.isInstalled = false := isInstalled_of_state_none _ hstate
  have hu : updateAppSize env (fuel + 1) inst h ResourceRef.fresh =
      some (updateAppSizeTail env inst h ResourceRef.fresh none) := by
    simp only [updateAppSize, e1, e2, false_and, ↓reduceIte, e3, and_self, e4]
  have g : h.get ResourceRef.fresh = h.fresh := rfl
  refine ⟨fun ref d i hfake hfetch => ?_, fun hfake => ?_, fun ref hfake hfetch => ?_⟩
  · rw [hu]
    simp only [updateAppSizeTail, e5, Bool.false_eq_true, ↓reduceIte, g, hfake, hfetch,
      Heap.modify]
  · rw [hu]
    simp only [updateAppSizeTail, e5, Bool.false_eq_true, ↓reduceIte, g, hfake]
  · rw [hu]
    simp only [updateAppSizeTail, e5, Bool.false_eq_true, ↓reduceIte, g, hfake, hfetch]

/-- Witness of C17: no runtime is known, the remote size of Editor is fetched,
and its size is set to 7. -/
theorem updateAppSize_without_runtime_witness :
    updateAppSize Examples.bareNative 1 (some Examples.sizeUser)
        { m_resources := [], fresh := Examples.editorWithRuntime } ResourceRef.fresh =
      some (true, { m_resources := [],
                    fresh := { Examples.editorWithRuntime with m_size := 7 } }) :=
  (updateAppSize_without_runtime Examples.bareNative (some Examples.sizeUser) 0
    { m_resources := [], fresh := Examples.editorWithRuntime }
    (by decide) (by decide) (by decide) (by decide) (by decide)).1
    { kind := FlatpakRefKind.FLATPAK_REF_KIND_APP, name := "org.example.Editor",
      arch := "x86_64", branch := "stable", commit := "" } 3 7 (by decide) (by decide)

/-- C17 as stated fails: Editor declares the runtime
`org.example.Platform/x86_64/1.0`, which no resource of the empty table
resolves; `updateAppSize` returns true all the same and sets the size of
Editor to 7. -/
theorem updateAppSize_sets_size_without_runtime :
    Examples.editorWithRuntime.m_size = 0 ∧
      Examples.editorWithRuntime.m_runtime = "org.example.Platform/x86_64/1.0" ∧
      getRuntimeForApp Examples.bareNative [] Examples.editorWithRuntime = none ∧
      (updateAppSize Examples.bareNative 1 (some Examples.sizeUser)
        { m_resources := [], fresh := Examples.editorWithRuntime } ResourceRef.fresh).map
          (fun p => (p.1, p.2.fresh.m_size)) = some (true, 7) := by
  decide

/-! ## The size through the refresh steps -/

theorem Table.value_modify (t : Table) (key : String) (f : FlatpakResource → FlatpakResource)
    (key1 : String) :
    (t.modify key f).value key1 =
      if key = key1 then (t.value key1).map f else t.value key1 := by
  induction t with
  | nil => simp [Table.modify, Table.value]
  | cons p t ih =>
    obtain ⟨k, r⟩ := p
    simp only [Table.modify]
    by_cases hk : k = key
    · subst hk
      simp only [↓reduceIte, Table.value]
      by_cases h1 : k = key1
      · simp [h1]
      · simp [h1]
    · rw [if_neg hk]
      simp only [Table.value, ih]
      by_cases h1 : key = key1
      · subst h1
        simp [hk]
      · simp [h1]

theorem updateAppState_size (env : Native) (inst : Option FlatpakInstallation)
    (r : FlatpakResource) :
    (getInstalledRefForApp env inst r = none →
        updateAppState env inst r = { r with m_state := State.None }) ∧
      (∀ iref, getInstalledRefForApp env inst r = some iref →
        updateAppState env inst r = updateAppInstalledMetadata iref r) := by
  constructor
  · intro h
    simp only [updateAppState, h]
  · intro iref h
    simp only [updateAppState, h]

/-- C18, as the code has it: for a resource whose size is positive,
`updateAppSize` returns at once and leaves the heap as it is, and `addResource`
stores the resource with the size it has after `updateAppState`;
`updateAppState`, also as the runtime re-check inside `updateAppSize`, leaves
the size as it is when it finds no installed ref, and otherwise overwrites it,
through `updateAppInstalledMetadata`, with the installed size that the ref
reports, whether the commit changes or not.  So a positive size stays
positive through these steps when the installed ref that is found reports a
positive installed size. -/
theorem size_through_refresh_steps (env : Native) (inst : Option FlatpakInstallation)
    (fuel : Nat) :
    (∀ (h : Heap) (ref : ResourceRef), 0 < (h.get ref).m_size →
      updateAppSize env (fuel + 1) inst h ref = some (true, h)) ∧
    (∀ (sys user : Option FlatpakInstallation) (t : Table) (r : FlatpakResource),
      0 < (addResourcePrepare env sys user r).m_size →
      addResource env (fuel + 1) sys user t r =
        some (t.insert (uniqueId (addResourcePrepare env sys user r))
          (addResourcePrepare env sys user r))) ∧
    (∀ r : FlatpakResource, getInstalledRefForApp env inst r = none →
      (updateAppState env inst r).m_size = r.m_size) ∧
    (∀ (r : FlatpakResource) (iref : FlatpakInstalledRef),
      getInstalledRefForApp env inst r = some iref →
      (updateAppState env inst r).m_size = iref.installedSize ∧
        (updateAppInstalledMetadata iref r).m_size = iref.installedSize) ∧
    (∀ r : FlatpakResource, 0 < r.m_size →
      (∀ iref, getInstalledRefForApp env inst r = some iref → 0 < iref.installedSize) →
      0 < (updateAppState env inst r).m_size) ∧
    (∀ (h : Heap) (key : String) (r : FlatpakResource),
      h.m_resources.value key = some r → 0 < r.m_size →
      (∀ iref, getInstalledRefForApp env inst r = some iref → 0 < iref.installedSize) →
      ∃ r1, (h.modify (ResourceRef.slot key) (updateAppState env inst)).m_resources.value key =
          some r1 ∧ 0 < r1.m_size) := by
  have hstep : ∀ r : FlatpakResource, 0 < r.m_size →
      (∀ iref, getInstalledRefForApp env inst r = some iref → 0 < iref.installedSize) →
      0 < (updateAppState env inst r).m_size := by
    intro r hpos hrefs
    cases hg : getInstalledRefForApp env inst r with
    | none =>
      rw [(updateAppState_size env inst r).1 hg]
      exact hpos
    | some iref =>
      rw [(updateAppState_size env inst r).2 iref hg]
      exact hrefs iref hg
  refine ⟨fun h ref hpos => updateAppSize_of_pos env inst fuel h ref hpos, ?_, ?_, ?_, hstep, ?_⟩
  · intro sys user t r hpos
    have hu := updateAppSize_of_pos env
      (flatpakInstallationForAppScope sys user (addResourcePrepare env sys user r).m_scope) fuel
      { m_resources := t, fresh := addResourcePrepare env sys user r } ResourceRef.fresh hpos
    simp only [addResource, hu]
  · intro r hg
    rw [(updateAppState_size env inst r).1 hg]
  · intro r iref hg
    rw [(updateAppState_size env inst r).2 iref hg]
    exact ⟨rfl, rfl⟩
  · intro h key r hv hpos hrefs
    refine ⟨updateAppState env inst r, ?_, hstep r hpos hrefs⟩
    show (h.m_resources.modify key (updateAppState env inst)).value key = _
    rw [Table.value_modify, if_pos rfl, hv]
    rfl

/-- Witness of C18: the runtime, size 5, keeps a positive size through
`updateAppState` over an installation that reports its installed size as 5. -/
theorem size_through_refresh_steps_witness :
    0 < Examples.platformSized.m_size ∧
      0 < (updateAppState Examples.bareNative (some Examples.platformUser)
        Examples.platformSized).m_size :=
  ⟨by decide,
    (size_through_refresh_steps Examples.bareNative (some Examples.platformUser) 0).2.2.2.2.1
      Examples.platformSized (by decide)
      (fun iref h => by
        have hr : getInstalledRefForApp Examples.bareNative (some Examples.platformUser)
            Examples.platformSized = some Examples.platformInstalledRef := by decide
        rw [hr] at h
        simp only [Option.some.injEq] at h
        subst h
        decide)⟩

/-- C18 as stated fails: the runtime has the size 5 and the commit `abc`; the
installed ref that `updateAppState` finds has the same commit and reports the
installed size 0, and the size of the runtime is overwritten with 0. -/
theorem updateAppState_overwrites_size :
    Examples.platformSized.m_size = 5 ∧ Examples.platformSized.m_commit = "abc" ∧
      (updateAppState Examples.bareNative (some Examples.zeroSizeUser)
        Examples.platformSized).m_commit = "abc" ∧
      (updateAppState Examples.bareNative (some Examples.zeroSizeUser)
        Examples.platformSized).m_size = 0 := by
  decide

/-! ## Remotes that fail and remotes that load -/

/-- C20: the handler that `installApplication` connects calls `updateAppState`
on the target resource, with the installation that matches the scope of the
resource, when the status becomes `DoneStatus`; for every other status,
`FailedStatus` and `CancelledStatus` among them, it leaves the heap, and so
state and size of the resource, as it is. -/
theorem installStatusChanged_effect (env : Native) (b : Backend) (h : Heap)
    (app : ResourceRef) (status : TransactionStatus) :
    (status = TransactionStatus.DoneStatus →
      installStatusChanged env (installApplication b h app) h status =
        h.modify app (updateAppState env
          (flatpakInstallationForAppScope b.m_flatpakInstallationSystem
            b.m_flatpakInstallationUser (h.get app).m_scope))) ∧
    (status = TransactionStatus.DoneStatus → ∀ key r, app = ResourceRef.slot key →
      h.m_resources.value key = some r →
      (installStatusChanged env (installApplication b h app) h status).m_resources.value key =
        some (updateAppState env
          (flatpakInstallationForAppScope b.m_flatpakInstallationSystem
            b.m_flatpakInstallationUser r.m_scope) r)) ∧
    (status ≠ TransactionStatus.DoneStatus →
      installStatusChanged env (installApplication b h app) h status = h ∧
      ((installStatusChanged env (installApplication b h app) h status).get app).m_state =
        (h.get app).m_state ∧
      ((installStatusChanged env (installApplication b h app) h status).get app).m_size =
        (h.get app).m_size) := by
  refine ⟨fun hs => ?_, fun hs key r happ hv => ?_, fun hs => ?_⟩
  · simp only [installStatusChanged, hs, ↓reduceIte, installApplication]
  · subst happ
    have hget : (h.get (ResourceRef.slot key)) = r := by
      simp only [Heap.get, hv, Option.getD_some]
    simp only [installStatusChanged, hs, ↓reduceIte, installApplication, hget, Heap.modify,
      Table.value_modify, hv, Option.map_some']
  · have he : installStatusChanged env (installApplication b h app) h status = h := by
      simp only [installStatusChanged, hs, ↓reduceIte]
    rw [he]
    exact ⟨rfl, rfl, rfl⟩

/-- Witness of C20: when the installation of Foo is done, `firefox` becomes
installed with the size 42; when it has failed, `firefox` is as before. -/
theorem installStatusChanged_effect_witness :
    (installStatusChanged Examples.bareNative
        (installApplication Examples.fooBackend Examples.firefoxHeap
          (ResourceRef.slot (uniqueId Examples.firefox)))
        Examples.firefoxHeap TransactionStatus.DoneStatus).m_resources.value
          (uniqueId Examples.firefox) =
      some (updateAppState Examples.bareNative
        (flatpakInstallationForAppScope Examples.fooBackend.m_flatpakInstallationSystem
          Examples.fooBackend.m_flatpakInstallationUser Examples.firefox.m_scope)
        Examples.firefox) ∧
      (updateAppState Examples.bareNative (some Examples.fooSystem) Examples.firefox).m_state =
        State.Installed ∧
      installStatusChanged Examples.bareNative
        (installApplication Examples.fooBackend Examples.firefoxHeap
          (ResourceRef.slot (uniqueId Examples.firefox)))
        Examples.firefoxHeap TransactionStatus.FailedStatus = Examples.firefoxHeap :=
  ⟨(installStatusChanged_effect Examples.bareNative Examples.fooBackend Examples.firefoxHeap
      (ResourceRef.slot (uniqueId Examples.firefox)) TransactionStatus.DoneStatus).2.1 rfl
      (uniqueId Examples.firefox) Examples.firefox rfl (by decide),
    by decide,
    ((installStatusChanged_effect Examples.bareNative Examples.fooBackend Examples.firefoxHeap
      (ResourceRef.slot (uniqueId Examples.firefox)) TransactionStatus.FailedStatus).2.2
      (by decide)).1⟩

/-! ## The end of a removal -/

/-- C21 fails on the code: `removeApplication` connects nothing to the
transaction it creates, so no status of the transaction, `DoneStatus` among
them, makes the backend touch the heap.  Foo is in the table as installed and
the native state has nothing installed any more: when the removal is done Foo
is still in state Installed, while `updateAppState`, which the handler of
`installApplication` calls on `DoneStatus`, would set the state None. -/
theorem removeApplication_done_keeps_state :
    (∀ (env : Native) (b : Backend) (h : Heap) (app : ResourceRef) (status : TransactionStatus),
      statusChanged env (removeApplication b h app) h status = h) ∧
    (removeApplication Examples.staleBackend Examples.installedHeap
      (ResourceRef.slot (uniqueId Examples.firefoxMerged))).connected.isNone = true ∧
    ((statusChanged Examples.bareNative
        (removeApplication Examples.staleBackend Examples.installedHeap
          (ResourceRef.slot (uniqueId Examples.firefoxMerged)))
        Examples.installedHeap TransactionStatus.DoneStatus).get
      (ResourceRef.slot (uniqueId Examples.firefoxMerged))).m_state = State.Installed ∧
    (updateAppState Examples.bareNative (some Examples.bareSystem)
      Examples.firefoxMerged).m_state = State.None ∧
    ((statusChanged Examples.bareNative
        (installTransaction Examples.staleBackend Examples.installedHeap
          (ResourceRef.slot (uniqueId Examples.firefoxMerged)))
        Examples.installedHeap TransactionStatus.DoneStatus).get
      (ResourceRef.slot (uniqueId Examples.firefoxMerged))).m_state = State.None :=
  ⟨fun _ _ _ _ _ => rfl, by decide, by decide, by decide, by decide⟩

/-! ## Two transactions on one resource -/

theorem activeTransactions_append (ts us : List FlatpakTransaction) (app : ResourceRef) :
    activeTransactions (ts ++ us) app = activeTransactions ts app ++ activeTransactions us app := by
  simp [activeTransactions]

/-- C22 as stated fails: an installation of Foo is downloading, and a call of
`installApplication` on Foo, like a call of `removeApplication` on Foo, creates
a further transaction on Foo, so that two transactions that have not reached a
terminal state target Foo. -/
theorem installApplicationCall_second_transaction :
    Examples.downloadingFoo.status = TransactionStatus.DownloadingStatus ∧
    (activeTransactions [Examples.downloadingFoo]
      (ResourceRef.slot (uniqueId Examples.firefox))).length = 1 ∧
    (installApplicationCall Examples.fooBackend Examples.firefoxHeap [Examples.downloadingFoo]
      (ResourceRef.slot (uniqueId Examples.firefox))).length = 2 ∧
    (activeTransactions
      (installApplicationCall Examples.fooBackend Examples.firefoxHeap [Examples.downloadingFoo]
        (ResourceRef.slot (uniqueId Examples.firefox)))
      (ResourceRef.slot (uniqueId Examples.firefox))).length = 2 ∧
    (activeTransactions
      (removeApplicationCall Examples.fooBackend Examples.firefoxHeap [Examples.downloadingFoo]
        (ResourceRef.slot (uniqueId Examples.firefox)))
      (ResourceRef.slot (uniqueId Examples.firefox))).length = 2 := by
  decide

/-- C22, as the code has it: a call of `installApplication` or of
`removeApplication` on a resource is never rejected; whatever transactions
exist, it leaves them as they are and creates one more transaction, which
targets the resource, so the number of transactions on the resource that have
not reached a terminal state grows by one. -/
theorem installApplicationCall_adds (b : Backend) (h : Heap)
    (transactions : List FlatpakTransaction) (app : ResourceRef) :
    (∃ t, installApplicationCall b h transactions app = transactions ++ [t] ∧
      t.resource = app ∧ t.role = TransactionRole.InstallRole) ∧
    (activeTransactions (installApplicationCall b h transactions app) app).length =
      (activeTransactions transactions app).length + 1 ∧
    (∃ t, removeApplicationCall b h transactions app = transactions ++ [t] ∧
      t.resource = app ∧ t.role = TransactionRole.RemoveRole) ∧
    (activeTransactions (removeApplicationCall b h transactions app) app).length =
      (activeTransactions transactions app).length + 1 := by
  refine ⟨⟨_, rfl, rfl, rfl⟩, ?_, ⟨_, rfl, rfl, rfl⟩, ?_⟩
  · rw [installApplicationCall, activeTransactions_append]
    simp [activeTransactions, installTransaction, TransactionStatus.isTerminal]
  · rw [removeApplicationCall, activeTransactions_append]
    simp [activeTransactions, removeApplication, TransactionStatus.isTerminal]

/-! ## Checking for updates -/

/-- C23 as stated fails: Foo is installed and in the table; whatever the
native state holds as pending updates, Foo among them, after `checkForUpdates`
Foo is in state Installed, not UpgradeAvailable, and `fetchingChanged`, the one
signal that the backend counts, has not been emitted. -/
theorem checkForUpdates_leaves_installed :
    (checkForUpdates Examples.installedBackend).m_resources.value
        (uniqueId Examples.firefoxMerged) = some Examples.firefoxMerged ∧
      Examples.firefoxMerged.m_state = State.Installed ∧
      Examples.firefoxMerged.m_state ≠ State.UpgradeAvailable ∧
      (checkForUpdates Examples.installedBackend).fetchingChanged =
        Examples.installedBackend.fetchingChanged ∧
      (∀ pending : FlatpakResource → Bool, pending Examples.firefoxMerged = true →
        ¬ ∀ r ∈ (checkForUpdates Examples.installedBackend).m_resources.values,
          pending r = true → r.m_state = State.UpgradeAvailable) := by
  refine ⟨by decide, by decide, by decide, rfl, fun pending hp hall => ?_⟩
  have h := hall Examples.firefoxMerged (by decide) hp
  exact absurd h (by decide)

/-- C23, as the code has it: `checkForUpdates` returns at once and leaves the
backend as it is: every resource keeps its state, a resource with a pending
update too, no signal is emitted, and `updatesCount` answers after the call
what it answered before. -/
theorem checkForUpdates_changes_nothing (b : Backend) (m_updater : Backend → Nat) :
    checkForUpdates b = b ∧
      (∀ key, (checkForUpdates b).m_resources.value key = b.m_resources.value key) ∧
      (checkForUpdates b).fetchingChanged = b.fetchingChanged ∧
      updatesCount m_updater (checkForUpdates b) = updatesCount m_updater b :=
  ⟨rfl, fun _ => rfl, rfl, rfl⟩

/-! ## A setup that fails -/

/-- C24 as stated fails: `PackageKitBackend::isValid` answers true in every
state of the adapter, so also in the state of an adapter for which nothing
could be set up; it is false in no state. -/
theorem isValid_true_without_setup :
    PackageKitBackend.isValid Examples.packageKitNothing = true ∧
      (∀ s : PackageKitBackend, PackageKitBackend.isValid s ≠ false) :=
  ⟨rfl, fun _ => by simp [PackageKitBackend.isValid]⟩

/-- C24, as the code has it: `PackageKitBackend::isValid` is true in every
state; in the flatpak adapter a setup that fails, because the system or the
user installation cannot be created, does not leave the constructor: the
constructor completes, for any bound on the nested calls, without calling
`reloadPackageList`, so with an empty table, the fetching flag false, no
`fetchingChanged` emitted and at least one installation null. -/
theorem new_absorbs_setup_failure (env : Native) (fuel : Nat)
    (newSystem newUser : Option FlatpakInstallation)
    (hfail : newSystem = none ∨ newUser = none) :
    (∀ s : PackageKitBackend, PackageKitBackend.isValid s = true) ∧
    (setupFlatpakInstallations newSystem newUser
      { m_resources := [], m_fetching := false, m_flatpakInstallationSystem := none,
        m_flatpakInstallationUser := none, fetchingChanged := 0 }).1 = false ∧
    ∃ b, Backend.new env fuel newSystem newUser = some b ∧
      b.m_resources = [] ∧ b.m_fetching = false ∧ b.fetchingChanged = 0 ∧
      (b.m_flatpakInstallationSystem.isNone = true ∨ b.m_flatpakInstallationUser.isNone = true) := by
  refine ⟨fun _ => rfl, ?_, ?_⟩
  · cases newSystem with
    | none => rfl
    | some s =>
      cases newUser with
      | none => rfl
      | some u => simp at hfail
  · cases newSystem with
    | none => exact ⟨_, rfl, rfl, rfl, rfl, Or.inl rfl⟩
    | some s =>
      cases newUser with
      | none => exact ⟨_, rfl, rfl, rfl, rfl, Or.inr rfl⟩
      | some u => simp at hfail

/-- Witness of C24: the system installation is there and the user installation
cannot be created. -/
theorem new_absorbs_setup_failure_witness :
    ∃ b, Backend.new Examples.bareNative 0 (some Examples.bareSystem) none = some b ∧
      b.m_resources = [] ∧ b.m_fetching = false :=
  match (new_absorbs_setup_failure Examples.bareNative 0 (some Examples.bareSystem) none
      (Or.inr rfl)).2.2 with
  | ⟨b, h1, h2, h3, _⟩ => ⟨b, h1, h2, h3⟩

/-! ## Matching by name alone -/

/-- C25: for a resource without architecture or without branch whose
`uniqueId` differs from the identity of the installed ref,
`compareAppFlatpakRef` is true exactly when the flatpak name of the resource is
the name of the ref or the application id of the ref, the name with `.desktop`
appended for an app; so two refs of one name and one kind, whatever their
architectures and branches, get the same answer. -/
theorem compareAppFlatpakRef_name_only (env : Native) (fi : FlatpakInstallation)
    (resource : FlatpakResource) (ref : FlatpakInstalledRef)
    (hid : uniqueId resource ≠ refUniqueId env fi ref)
    (hempty : resource.m_arch = "" ∨ resource.m_branch = "") :
    (compareAppFlatpakRef env fi resource ref = true ↔
      (env.flatpakName resource = ref.ref.name ∨ env.flatpakName resource = refAppId ref)) ∧
    (refAppId ref =
      if ref.ref.kind = FlatpakRefKind.FLATPAK_REF_KIND_APP then ref.ref.name ++ ".desktop"
      else ref.ref.name) ∧
    (∀ other : FlatpakInstalledRef, uniqueId resource ≠ refUniqueId env fi other →
      other.ref.name = ref.ref.name → other.ref.kind = ref.ref.kind →
      compareAppFlatpakRef env fi resource other = compareAppFlatpakRef env fi resource ref) := by
  have hne : ¬ (resource.m_arch ≠ "" ∧ resource.m_branch ≠ "") := by
    rintro ⟨h1, h2⟩
    rcases hempty with h | h
    · exact h1 h
    · exact h2 h
  have key : ∀ r2 : FlatpakInstalledRef, uniqueId resource ≠ refUniqueId env fi r2 →
      compareAppFlatpakRef env fi resource r2 =
        (decide (env.flatpakName resource = refAppId r2) ||
          decide (env.flatpakName resource = r2.ref.name)) := by
    intro r2 h2
    simp only [compareAppFlatpakRef, if_neg h2, if_neg hne]
  refine ⟨?_, rfl, ?_⟩
  · rw [key ref hid]
    simp only [Bool.or_eq_true, decide_eq_true_eq]
    exact Or.comm
  · intro other ho hname hkind
    rw [key other ho, key ref hid]
    simp only [refAppId, hname, hkind]

/-- Witness of C25: `fooBare` has neither architecture nor branch and matches
the installed ref of Foo by its flatpak name. -/
theorem compareAppFlatpakRef_name_only_witness :
    uniqueId Examples.fooBare ≠ refUniqueId Examples.bareNative Examples.fooSystem Examples.fooInstalledRef ∧
      Examples.fooBare.m_arch = "" ∧
      Examples.bareNative.flatpakName Examples.fooBare = Examples.fooInstalledRef.ref.name ∧
      compareAppFlatpakRef Examples.bareNative Examples.fooSystem Examples.fooBare
        Examples.fooInstalledRef = true :=
  ⟨by decide, by decide, by decide,
    ((compareAppFlatpakRef_name_only Examples.bareNative Examples.fooSystem Examples.fooBare
      Examples.fooInstalledRef (by decide) (Or.inl (by decide))).1).2 (Or.inl (by decide))⟩

/-! ## The lookup of a runtime -/

theorem getRuntimeForApp_mem_keys (env : Native) (t : Table) (x : FlatpakResource) (key : String)
    (h : getRuntimeForApp env t x = some key) : key ∈ t.keys := by
  unfold getRuntimeForApp at h
  split at h
  · exact List.mem_of_find?_eq_some h
  · exact absurd h (by simp)

theorem getRuntimeForApp_of_length_ne (env : Native) (t : Table) (x : FlatpakResource)
    (h : (split x.m_runtime '/').length ≠ 3) : getRuntimeForApp env t x = none := by
  unfold getRuntimeForApp
  split
  · rename_i heq
    rw [heq] at h
    exact absurd rfl h
  · rfl

theorem find_eq_some_split {α : Type} (p : α → Bool) (l : List α) (a : α)
    (h : l.find? p = some a) :
    ∃ before after, l = before ++ a :: after ∧ ∀ x ∈ before, p x = false := by
  induction l with
  | nil => simp at h
  | cons y ys ih =>
    by_cases hy : p y = true
    · rw [List.find?_cons_of_pos _ hy] at h
      simp only [Option.some.injEq] at h
      subst h
      exact ⟨[], ys, rfl, fun x hx => by simp at hx⟩
    · rw [List.find?_cons_of_neg _ hy] at h
      obtain ⟨before, after, hl, hb⟩ := ih h
      refine ⟨y :: before, after, by rw [hl]; rfl, fun x hx => ?_⟩
      simp only [List.mem_cons] at hx
      rcases hx with hx | hx
      · rw [hx]; simpa using hy
      · exact hb x hx

/-! ## What `addResource` keeps -/

theorem Heap.get_modify_metadata (env : Native) (inst : Option FlatpakInstallation) (h : Heap)
    (ref : ResourceRef) :
    ((h.modify ref (fun x => (updateAppMetadata env inst x).2)).get ref).m_type =
        (h.get ref).m_type ∧
      ((h.modify ref (fun x => (updateAppMetadata env inst x).2)).get ref).m_state =
        (h.get ref).m_state := by
  cases ref with
  | fresh =>
    show (updateAppMetadata env inst h.fresh).2.m_type = h.fresh.m_type ∧
      (updateAppMetadata env inst h.fresh).2.m_state = h.fresh.m_state
    rw [updateAppMetadata_fields]
    exact ⟨rfl, rfl⟩
  | slot key =>
    simp only [Heap.modify, Heap.get, Table.value_modify, ↓reduceIte]
    cases h.m_resources.value key with
    | none => exact ⟨rfl, rfl⟩
    | some r =>
      simp only [Option.map_some', Option.getD_some]
      rw [updateAppMetadata_fields]
      exact ⟨rfl, rfl⟩

/-- A resource that is installed or is no desktop app has its size computed
without a look at its runtime: the call returns. -/
theorem updateAppSize_returns_of_no_lookup (env : Native) (inst : Option FlatpakInstallation)
    (fuel : Nat) (h : Heap) (ref : ResourceRef)
    (hs : (h.get ref).m_state ≠ State.None ∨ (h.get ref).m_type ≠ ResourceType.DesktopApp) :
    ∃ h0 rt, (updateAppSize env (fuel + 1) inst h ref = some (true, h) ∨
      updateAppSize env (fuel + 1) inst h ref = some (false, h) ∨
      updateAppSize env (fuel + 1) inst h ref = some (updateAppSizeTail env inst h0 ref rt)) ∧
      (h0 = h ∨ h0 = h.modify ref (fun x => (updateAppMetadata env inst x).2)) := by
  have hx : ¬ (((if (h.get ref).m_runtime = "" then
      h.modify ref (fun x => (updateAppMetadata env inst x).2)
      else h).get ref).m_state = State.None ∧
      ((if (h.get ref).m_runtime = "" then
      h.modify ref (fun x => (updateAppMetadata env inst x).2)
      else h).get ref).m_type = ResourceType.DesktopApp) := by
    split
    · rw [(Heap.get_modify_metadata env inst h ref).1, (Heap.get_modify_metadata env inst h ref).2]
      rintro ⟨h1, h2⟩
      rcases hs with hs | hs
      · exact hs h1
      · exact hs h2
    · rintro ⟨h1, h2⟩
      rcases hs with hs | hs
      · exact hs h1
      · exact hs h2
  simp only [updateAppSize]
  split
  · exact ⟨h, none, Or.inl rfl, Or.inl rfl⟩
  · split
    · exact ⟨h, none, Or.inr (Or.inl rfl), Or.inl rfl⟩
    · refine ⟨_, none, Or.inr (Or.inr rfl), ?_⟩
      split
      · exact Or.inr rfl
      · exact Or.inl rfl


theorem updateAppSizeTail_fresh_table (env : Native) (inst : Option FlatpakInstallation)
    (h : Heap) (rt : Option ResourceRef) :
    (updateAppSizeTail env inst h ResourceRef.fresh rt).2.m_resources = h.m_resources :=
  @updateAppSizeTail_rel ResourceRef.fresh env inst (fun a c => c.m_resources = a.m_resources)
    (fun _ => rfl) (fun _ _ => rfl) h rt

theorem updateAppSize_fresh_no_lookup (env : Native) (inst : Option FlatpakInstallation)
    (fuel : Nat) (h : Heap)
    (hs : h.fresh.m_state ≠ State.None ∨ h.fresh.m_type ≠ ResourceType.DesktopApp) :
    ∃ b h1, updateAppSize env (fuel + 1) inst h ResourceRef.fresh = some (b, h1) ∧
      h1.m_resources = h.m_resources := by
  obtain ⟨h0, rt, hres, h0eq⟩ :=
    updateAppSize_returns_of_no_lookup env inst fuel h ResourceRef.fresh hs
  rcases hres with hres | hres | hres
  · exact ⟨true, h, hres, rfl⟩
  · exact ⟨false, h, hres, rfl⟩
  · refine ⟨_, _, hres, (updateAppSizeTail_fresh_table env inst h0 rt).trans ?_⟩
    rcases h0eq with e | e
    · rw [e]
    · rw [e]; rfl

theorem addResource_no_lookup (env : Native) (fuel : Nat) (sys user : Option FlatpakInstallation)
    (t : Table) (resource : FlatpakResource)
    (hs : (addResourcePrepare env sys user resource).m_state ≠ State.None ∨
      (addResourcePrepare env sys user resource).m_type ≠ ResourceType.DesktopApp) :
    ∃ r1, addResource env (fuel + 1) sys user t resource = some (t.insert (uniqueId r1) r1) := by
  obtain ⟨b, h1, hres, htab⟩ := updateAppSize_fresh_no_lookup env
    (flatpakInstallationForAppScope sys user (addResourcePrepare env sys user resource).m_scope)
    fuel { m_resources := t, fresh := addResourcePrepare env sys user resource } hs
  refine ⟨h1.fresh, ?_⟩
  simp only [addResource, hres, htab]

theorem updateAppSize_fresh_returns_of_inner (env : Native) (inst : Option FlatpakInstallation)
    (n : Nat) (h : Heap)
    (hinner : ∀ (hx : Heap) (key : String), hx.m_resources = h.m_resources →
      getRuntimeForApp env h.m_resources hx.fresh = some key →
      ∃ b h3, updateAppSize env n inst (hx.modify (ResourceRef.slot key)
        (updateAppState env inst)) (ResourceRef.slot key) = some (b, h3)) :
    ∃ b h1, updateAppSize env (n + 1) inst h ResourceRef.fresh = some (b, h1) := by
  have hhx : (if (h.get ResourceRef.fresh).m_runtime = "" then
      h.modify ResourceRef.fresh (fun x => (updateAppMetadata env inst x).2)
      else h).m_resources = h.m_resources := by
    split
    · rfl
    · rfl
  simp only [updateAppSize]
  generalize (if (h.get ResourceRef.fresh).m_runtime = "" then
      h.modify ResourceRef.fresh (fun x => (updateAppMetadata env inst x).2)
      else h) = hx at hhx
  by_cases c1 : 0 < (h.get ResourceRef.fresh).m_size
  · rw [if_pos c1]
    exact ⟨_, _, rfl⟩
  · rw [if_neg c1]
    by_cases c2 : (h.get ResourceRef.fresh).m_runtime = "" ∧
        (updateAppMetadata env inst (h.get ResourceRef.fresh)).1 = false
    · rw [if_pos c2]
      exact ⟨_, _, rfl⟩
    · rw [if_neg c2]
      by_cases c3 : (hx.get ResourceRef.fresh).m_state = State.None ∧
          (hx.get ResourceRef.fresh).m_type = ResourceType.DesktopApp
      · rw [if_pos c3]
        cases hk : getRuntimeForApp env hx.m_resources (hx.get ResourceRef.fresh) with
        | none => exact ⟨_, _, rfl⟩
        | some key =>
          have hk1 : getRuntimeForApp env h.m_resources hx.fresh = some key := by
            rw [← hhx]; exact hk
          obtain ⟨b, h3, hrec⟩ := hinner hx key hhx hk1
          simp only
          by_cases c4 : (!((hx.modify (ResourceRef.slot key) (updateAppState env inst)).get
              (ResourceRef.slot key)).isInstalled) = true
          · rw [if_pos c4, hrec]
            cases b
            · exact ⟨_, _, rfl⟩
            · exact ⟨_, _, rfl⟩
          · rw [if_neg c4]
            exact ⟨_, _, rfl⟩
      · rw [if_neg c3]
        exact ⟨_, _, rfl⟩

/-- The size computation of a new resource returns within two nested calls
when no table entry that `getRuntimeForApp` can answer is a desktop app. -/
theorem updateAppSize_fresh_returns_of_runtimes (env : Native)
    (inst : Option FlatpakInstallation) (fuel : Nat) (h : Heap)
    (hrt : ∀ x key r, getRuntimeForApp env h.m_resources x = some key →
      h.m_resources.value key = some r → r.m_type ≠ ResourceType.DesktopApp) :
    ∃ b h1, updateAppSize env (fuel + 2) inst h ResourceRef.fresh = some (b, h1) := by
  apply updateAppSize_fresh_returns_of_inner env inst (fuel + 1) h
  intro hx key hhx hk
  obtain ⟨r, hr⟩ := Table.value_isSome_of_mem_keys _ _ (getRuntimeForApp_mem_keys _ _ _ _ hk)
  have htype : ((hx.modify (ResourceRef.slot key) (updateAppState env inst)).get
      (ResourceRef.slot key)).m_type ≠ ResourceType.DesktopApp := by
    simp only [Heap.modify, Heap.get, Table.value_modify, ↓reduceIte, hhx, hr, Option.map_some',
      Option.getD_some]
    rw [(updateAppState_fields env inst r).2.2]
    exact hrt hx.fresh key r hk hr
  obtain ⟨h0, rt, hres, -⟩ := updateAppSize_returns_of_no_lookup env inst fuel
    (hx.modify (ResourceRef.slot key) (updateAppState env inst)) (ResourceRef.slot key)
    (Or.inr htype)
  rcases hres with hres | hres | hres
  · exact ⟨_, _, hres⟩
  · exact ⟨_, _, hres⟩
  · exact ⟨_, _, hres⟩

theorem addResource_returns_of_runtimes (env : Native) (fuel : Nat)
    (sys user : Option FlatpakInstallation) (t : Table) (resource : FlatpakResource)
    (hrt : ∀ x key r, getRuntimeForApp env t x = some key → t.value key = some r →
      r.m_type ≠ ResourceType.DesktopApp) :
    ∃ t1, addResource env (fuel + 2) sys user t resource = some t1 := by
  obtain ⟨b, h1, hres⟩ := updateAppSize_fresh_returns_of_runtimes env
    (flatpakInstallationForAppScope sys user (addResourcePrepare env sys user resource).m_scope)
    fuel { m_resources := t, fresh := addResourcePrepare env sys user resource } hrt
  exact ⟨h1.m_resources.insert (uniqueId h1.fresh) h1.fresh, by simp only [addResource, hres]⟩

theorem parseMetadataFromAppBundle_of_fail (env : Native) (resource : FlatpakResource)
    (h : (parseMetadataFromAppBundle env resource).1 = false) :
    (parseMetadataFromAppBundle env resource).2 = resource := by
  unfold parseMetadataFromAppBundle at h ⊢
  cases hb : resource.m_appdata.bundleId with
  | none => rfl
  | some id =>
    cases hp : env.flatpak_ref_parse id with
    | none => simp only [hp]
    | some ref => simp [hb, hp] at h

/-- A size computation that never returns: the table entry `loopApp` is a
desktop app that is not installed, has no size, and is found as its own
runtime, so `updateAppSize` calls itself on it again and again; no bound on the
nested calls is enough. -/
theorem updateAppSize_loops (fuel : Nat) :
    updateAppSize Examples.bareNative fuel (some Examples.bareUser) Examples.loopHeap
      (ResourceRef.slot (uniqueId Examples.loopApp)) = none := by
  induction fuel with
  | zero => rfl
  | succ n ih =>
    have e1 : ¬ 0 < (Examples.loopHeap.get
        (ResourceRef.slot (uniqueId Examples.loopApp))).m_size := by decide
    have e2 : ¬ (Examples.loopHeap.get
        (ResourceRef.slot (uniqueId Examples.loopApp))).m_runtime = "" := by decide
    have e3 : (Examples.loopHeap.get
        (ResourceRef.slot (uniqueId Examples.loopApp))).m_state = State.None ∧
        (Examples.loopHeap.get
          (ResourceRef.slot (uniqueId Examples.loopApp))).m_type = ResourceType.DesktopApp := by
      decide
    have e4 : getRuntimeForApp Examples.bareNative Examples.loopHeap.m_resources
        (Examples.loopHeap.get (ResourceRef.slot (uniqueId Examples.loopApp))) =
        some (uniqueId Examples.loopApp) := by decide
    have e5 : Examples.loopHeap.modify (ResourceRef.slot (uniqueId Examples.loopApp))
        (updateAppState Examples.bareNative (some Examples.bareUser)) = Examples.loopHeap := by
      decide
    have e6 : (Examples.loopHeap.get
        (ResourceRef.slot (uniqueId Examples.loopApp))).isInstalled = false := by decide
    simp only [updateAppSize, e1, e2, false_and, ↓reduceIte, e3, and_self, e4, e5, e6,
      Bool.not_false, ih]

/-- An `addResource` that never returns: the runtime of `loopUser` is found in
the table entry `loopApp`, whose size computation never returns. -/
theorem addResource_loops (fuel : Nat) :
    addResource Examples.bareNative fuel (some Examples.bareSystem) (some Examples.bareUser)
      Examples.loopTable Examples.loopUser = none := by
  have hinst : flatpakInstallationForAppScope (some Examples.bareSystem) (some Examples.bareUser)
      (addResourcePrepare Examples.bareNative (some Examples.bareSystem)
        (some Examples.bareUser) Examples.loopUser).m_scope = some Examples.bareUser := rfl
  have hheap : Heap.mk Examples.loopTable
      (addResourcePrepare Examples.bareNative (some Examples.bareSystem)
        (some Examples.bareUser) Examples.loopUser) = Examples.loopHeap := rfl
  have e5 : Examples.loopHeap.modify (ResourceRef.slot (uniqueId Examples.loopApp))
      (updateAppState Examples.bareNative (some Examples.bareUser)) = Examples.loopHeap := by
    decide
  have hu : updateAppSize Examples.bareNative fuel (some Examples.bareUser) Examples.loopHeap
      ResourceRef.fresh = none := by
    cases fuel with
    | zero => rfl
    | succ n =>
      rw [updateAppSize_app_with_runtime Examples.bareNative (some Examples.bareUser) n
        Examples.loopHeap (uniqueId Examples.loopApp) (by decide) (by decide) (by decide)
        (by decide) (by decide), e5, updateAppSize_loops n]
  simp only [addResource, hinst, hheap, hu]

/-- C26 as stated fails: `addResource` of Editor finds the runtime of Editor
in the table, re-checks it and computes its size, so the entry of the runtime,
which is not the entry of Editor, has the size 5 afterwards and had the size 0
before. -/
theorem addResource_changes_runtime_entry :
    addResource Examples.bareNative 2 (some Examples.bareSystem) (some Examples.sizeUser)
        Examples.platformTable Examples.editorApp = some Examples.editorAdded ∧
      Examples.platformTable.value (uniqueId Examples.platformParsed) =
        some Examples.platformParsed ∧
      Examples.platformParsed.m_size = 0 ∧
      Examples.editorAdded.value (uniqueId Examples.platformParsed) =
        some { Examples.platformParsed with m_size := 5 } ∧
      Examples.editorAdded.value (uniqueId Examples.platformParsed) ≠
        Examples.platformTable.value (uniqueId Examples.platformParsed) ∧
      (∃ editor, Examples.editorAdded.value (uniqueId editor) = some editor ∧
        editor.m_appdata = Examples.editorApp.m_appdata ∧
        uniqueId editor ≠ uniqueId Examples.platformParsed) := by
  refine ⟨by decide, by decide, by decide, by decide, by decide,
    ⟨{ Examples.editorWithRuntime with m_size := 12 }, by decide, by decide, by decide⟩⟩

/-- C26, as the code has it: whenever `addResource` returns, the resource, as
prepared and with runtime and size as the size computation left them, is
stored under its `uniqueId` and every key of the table is still there;
`addResource` returns, within two nested calls of the size computation, when no
table entry that `getRuntimeForApp` can answer is a desktop app; when the
prepared resource is installed or is no desktop app, `addResource` returns and
every entry under another key is as it was (otherwise the entry of its runtime
is re-checked and can change); and when `parseMetadataFromAppBundle` fails it
has left the resource, so its architecture, branch, flatpak name and type, as
it was. -/
theorem addResource_never_drops (env : Native) (fuel : Nat)
    (sys user : Option FlatpakInstallation) (t : Table) (resource : FlatpakResource) :
    (∀ t1, addResource env fuel sys user t resource = some t1 →
      (∃ r1, r1 = { addResourcePrepare env sys user resource with
                    m_runtime := r1.m_runtime, m_size := r1.m_size } ∧
        t1.value (uniqueId r1) = some r1) ∧
      ∀ k ∈ t.keys, k ∈ t1.keys) ∧
    ((∀ x key r, getRuntimeForApp env t x = some key → t.value key = some r →
        r.m_type ≠ ResourceType.DesktopApp) →
      ∃ t1, addResource env (fuel + 2) sys user t resource = some t1) ∧
    ((addResourcePrepare env sys user resource).m_state ≠ State.None ∨
        (addResourcePrepare env sys user resource).m_type ≠ ResourceType.DesktopApp →
      ∃ r1 t1, addResource env (fuel + 1) sys user t resource = some t1 ∧
        t1.value (uniqueId r1) = some r1 ∧
        ∀ k, k ≠ uniqueId r1 → t1.value k = t.value k) ∧
    ((parseMetadataFromAppBundle env resource).1 = false →
      (parseMetadataFromAppBundle env resource).2 = resource ∧
      (parseMetadataFromAppBundle env resource).2.m_arch = resource.m_arch ∧
      (parseMetadataFromAppBundle env resource).2.m_branch = resource.m_branch ∧
      (parseMetadataFromAppBundle env resource).2.m_flatpakName = resource.m_flatpakName ∧
      (parseMetadataFromAppBundle env resource).2.m_type = resource.m_type) := by
  refine ⟨fun t1 h1 => ?_, addResource_returns_of_runtimes env fuel sys user t resource,
    fun hs => ?_, fun hf => ?_⟩
  · obtain ⟨r1, hr1, hv, -⟩ := addResource_stores env fuel sys user t resource t1 h1
    exact ⟨⟨r1, hr1, hv⟩, addResource_keys env fuel sys user t resource t1 h1⟩
  · obtain ⟨r1, hr1⟩ := addResource_no_lookup env fuel sys user t resource hs
    refine ⟨r1, _, hr1, Table.value_insert_self _ _ _, fun k hk => ?_⟩
    rw [Table.value_insert]
    rw [if_neg (fun hc => hk hc.symm)]
  · have hp := parseMetadataFromAppBundle_of_fail env resource hf
    rw [hp]
    exact ⟨rfl, rfl, rfl, rfl, rfl⟩

/-- Witness of C26: `addResource` of Editor into `platformTable` returns, keeps
the key of the runtime and stores Editor; the one entry of `platformTable` is a
runtime, so the call returns within two nested calls; `addResource` of Foo,
which is installed, leaves the entry of the runtime as it was; and a resource whose
bundle id does not parse is left as it was by `parseMetadataFromAppBundle`. -/
theorem addResource_never_drops_witness :
    ((∃ r1, r1 = { addResourcePrepare Examples.bareNative (some Examples.bareSystem)
                    (some Examples.sizeUser) Examples.editorApp with
                    m_runtime := r1.m_runtime, m_size := r1.m_size } ∧
        Examples.editorAdded.value (uniqueId r1) = some r1) ∧
      ∀ k ∈ Examples.platformTable.keys, k ∈ Examples.editorAdded.keys) ∧
    (∃ t1, addResource Examples.bareNative (0 + 2) (some Examples.bareSystem)
      (some Examples.sizeUser) Examples.platformTable Examples.editorApp = some t1) ∧
    (∃ r1 t1, addResource Examples.bareNative (0 + 1) (some Examples.fooSystem)
        (some Examples.bareUser) Examples.platformTable Examples.firefox = some t1 ∧
      t1.value (uniqueId r1) = some r1 ∧
      ∀ k, k ≠ uniqueId r1 → t1.value k = Examples.platformTable.value k) ∧
    (parseMetadataFromAppBundle Examples.bareNative
      { Examples.firefox with
        m_appdata := { Examples.firefox.m_appdata with bundleId := some "nonsense" } }).2.m_arch =
      "x86_64" :=
  ⟨(addResource_never_drops Examples.bareNative 2 (some Examples.bareSystem)
      (some Examples.sizeUser) Examples.platformTable Examples.editorApp).1
      Examples.editorAdded (by decide),
    (addResource_never_drops Examples.bareNative 0 (some Examples.bareSystem)
      (some Examples.sizeUser) Examples.platformTable Examples.editorApp).2.1
      (fun x key r hk hv => by
        have hm := getRuntimeForApp_mem_keys _ _ _ _ hk
        have hkeys : Examples.platformTable.keys = [uniqueId Examples.platformParsed] := by
          decide
        rw [hkeys] at hm
        simp only [List.mem_singleton] at hm
        subst hm
        have hval : Examples.platformTable.value (uniqueId Examples.platformParsed) =
            some Examples.platformParsed := by decide
        rw [hval] at hv
        cases hv
        decide),
    (addResource_never_drops Examples.bareNative 0 (some Examples.fooSystem)
      (some Examples.bareUser) Examples.platformTable Examples.firefox).2.2.1
      (Or.inl (by decide)),
    ((addResource_never_drops Examples.bareNative 0 (some Examples.bareSystem)
      (some Examples.sizeUser) Examples.platformTable
      { Examples.firefox with
        m_appdata := { Examples.firefox.m_appdata with bundleId := some "nonsense" } }).2.2.2
      (by decide)).2.1⟩

/-! ## Place markers -/

theorem argMinEscape_append (digits : Char → Option (Fin 10)) (l r : List Char)
    (h : '%' ∉ l) : argMinEscape digits (l ++ r) = argMinEscape digits r := by
  induction l with
  | nil => rfl
  | cons c l ih =>
    have hc : c ≠ '%' := fun e => h (by rw [e]; exact List.mem_cons_self _ _)
    have hl : '%' ∉ l := fun e => h (List.mem_cons_of_mem _ e)
    simp only [List.cons_append, argMinEscape, if_neg hc]
    exact ih hl

theorem replaceArgEscapes_append (digits : Char → Option (Fin 10)) (m : Nat) (a l r : List Char)
    (h : '%' ∉ l) :
    replaceArgEscapes digits m a 0 (l ++ r) = l ++ replaceArgEscapes digits m a 0 r := by
  induction l with
  | nil => rfl
  | cons c l ih =>
    have hc : c ≠ '%' := fun e => h (by rw [e]; exact List.mem_cons_self _ _)
    have hl : '%' ∉ l := fun e => h (List.mem_cons_of_mem _ e)
    simp only [List.cons_append, replaceArgEscapes, if_neg hc]
    exact congrArg (List.cons c) (ih hl)

theorem arg_data (digits : Char → Option (Fin 10)) (s a : String) :
    (arg digits s a).data =
      match argMinEscape digits s.data with
      | none => s.data
      | some m => replaceArgEscapes digits m a.data 0 s.data := by
  unfold arg
  cases argMinEscape digits s.data with
  | none => rfl
  | some m => rfl

/-- The first call of the chain in `runtimeId`: the name is put in place of
`%1`, whatever it holds. -/
theorem arg_runtime_name (digits : Char → Option (Fin 10)) (name : String) :
    (arg digits "runtime/%1/%2" name).data = "runtime/".data ++ name.data ++ "/%2".data := by
  rw [arg_data]
  rfl

theorem runtimeId_data (env : Native) (name branch : String) :
    (runtimeId env name branch).data =
      match argMinEscape env.digitValue ("runtime/".data ++ name.data ++ "/%2".data) with
      | none => "runtime/".data ++ name.data ++ "/%2".data
      | some m => replaceArgEscapes env.digitValue m branch.data 0
          ("runtime/".data ++ name.data ++ "/%2".data) := by
  unfold runtimeId args
  simp only [List.foldl_cons, List.foldl_nil]
  rw [arg_data, arg_runtime_name]

/-- For a name without `%` the `runtimeId` is `runtime/<name>/<branch>`. -/
theorem runtimeId_of_no_percent (env : Native) (name branch : String)
    (h : '%' ∉ name.data) :
    runtimeId env name branch = "runtime/" ++ name ++ "/" ++ branch := by
  apply String.ext
  rw [runtimeId_data]
  have hmin : argMinEscape env.digitValue ("runtime/".data ++ name.data ++ "/%2".data) =
      some 2 := by
    rw [List.append_assoc, argMinEscape_append _ _ _ (by decide), argMinEscape_append _ _ _ h]
    rfl
  rw [hmin]
  simp only
  rw [List.append_assoc, replaceArgEscapes_append _ _ _ _ _ (by decide),
    replaceArgEscapes_append _ _ _ _ _ h]
  have hlast : replaceArgEscapes env.digitValue 2 branch.data 0 "/%2".data =
      "/".data ++ branch.data := by
    show '/' :: (branch.data ++ []) = _
    simp
  rw [hlast]
  simp [String.data_append]

/-! ## The key of the runtime that is found -/

/-- C13, as the code has it: a resource that `getRuntimeForApp` returns for a
runtime reference name/arch/branch is the table entry under a key that ends
with the `runtimeId` that the code builds from name and branch, which is
`runtime/<name>/<branch>` when the name holds no `%`; so when the entry sits
under its own `uniqueId`, that `uniqueId` ends so; the architecture of the
reference is not compared with anything. -/
theorem getRuntimeForApp_key (env : Native) (t : Table) (resource : FlatpakResource)
    (key : String) (h : getRuntimeForApp env t resource = some key) :
    ∃ name arch branch, split resource.m_runtime '/' = [name, arch, branch] ∧
      key ∈ t.keys ∧ endsWith key (runtimeId env name branch) = true ∧
      ('%' ∉ name.data → endsWith key ("runtime/" ++ name ++ "/" ++ branch) = true) ∧
      (∃ res, t.value key = some res) ∧
      (∀ res, t.value key = some res → uniqueId res = key → '%' ∉ name.data →
        endsWith (uniqueId res) ("runtime/" ++ name ++ "/" ++ branch) = true) := by
  unfold getRuntimeForApp at h
  split at h
  · rename_i name arch branch hsplit
    have hmem : key ∈ t.keys := List.mem_of_find?_eq_some h
    have hends : endsWith key (runtimeId env name branch) = true :=
      List.find?_some (p := fun id => endsWith id (runtimeId env name branch)) h
    have hplain : '%' ∉ name.data →
        endsWith key ("runtime/" ++ name ++ "/" ++ branch) = true := by
      intro hp
      rw [← runtimeId_of_no_percent env name branch hp]
      exact hends
    exact ⟨name, arch, branch, hsplit, hmem, hends, hplain,
      Table.value_isSome_of_mem_keys t key hmem,
      fun res _ hk hp => by rw [hk]; exact hplain hp⟩
  · exact absurd h (by simp)

/-- Witness of C13: the runtime found for Editor in `platformTable`. -/
theorem getRuntimeForApp_key_witness :
    getRuntimeForApp Examples.bareNative Examples.platformTable Examples.editorWithRuntime =
        some (uniqueId Examples.platformParsed) ∧
      ∃ name arch branch,
        split Examples.editorWithRuntime.m_runtime '/' = [name, arch, branch] ∧
        uniqueId Examples.platformParsed ∈ Examples.platformTable.keys ∧
        endsWith (uniqueId Examples.platformParsed)
          (runtimeId Examples.bareNative name branch) = true :=
  ⟨by decide,
    have h := getRuntimeForApp_key Examples.bareNative Examples.platformTable
      Examples.editorWithRuntime (uniqueId Examples.platformParsed) (by decide)
    match h with
    | ⟨name, arch, branch, h1, h2, h3, _⟩ => ⟨name, arch, branch, h1, h2, h3⟩⟩

/-! ## The lookup of a runtime, for every runtime string -/

/-- C27 as stated fails: the metadata of Editor names the runtime
`x%1y/x86_64/B`, the key of the one table entry ends with `runtime/x%1y/B`, and
`getRuntimeForApp` finds no runtime: by the time the second call of `arg` reads
the string, the marker with the lowest number is the `%1` inside the name, so
the code looks for keys that end with `runtime/xBy/%2`. -/
theorem getRuntimeForApp_misses_marked_name :
    split Examples.percentApp.m_runtime '/' = ["x%1y", "x86_64", "B"] ∧
      Examples.percentTable.keys = ["system/flatpak/A/runtime/x%1y/B"] ∧
      endsWith "system/flatpak/A/runtime/x%1y/B" ("runtime/" ++ "x%1y" ++ "/" ++ "B") = true ∧
      getRuntimeForApp Examples.bareNative Examples.percentTable Examples.percentApp = none ∧
      runtimeId Examples.bareNative "x%1y" "B" = "runtime/xBy/%2" := by
  decide

/-- C27, as the code has it: `getRuntimeForApp` answers for every table and
every resource.  When the runtime string of the resource does not split on `/`
into exactly three parts, as the empty string does not, the answer is no
runtime whatever the table holds.  For a string name/arch/branch the answer is
the first key, in the order of the keys, that ends with the `runtimeId` that
the code builds from name and branch, and the table has an entry under it; the
answer is no runtime exactly when no key ends so; the `runtimeId` is
`runtime/<name>/<branch>` when the name holds no `%`.  The table is an argument
that the function does not return, so it is as it was. -/
theorem getRuntimeForApp_total (env : Native) (t : Table) (resource : FlatpakResource) :
    (∃ answer, getRuntimeForApp env t resource = answer) ∧
    ((split resource.m_runtime '/').length ≠ 3 →
      ∀ other : Table, getRuntimeForApp env other resource = none) ∧
    (split "" '/').length ≠ 3 ∧
    (∀ name arch branch, split resource.m_runtime '/' = [name, arch, branch] →
      (∀ key, getRuntimeForApp env t resource = some key →
        (∃ res, t.value key = some res) ∧
        endsWith key (runtimeId env name branch) = true ∧
        ∃ before after, t.keys = before ++ key :: after ∧
          ∀ k ∈ before, endsWith k (runtimeId env name branch) = false) ∧
      (getRuntimeForApp env t resource = none ↔
        ∀ k ∈ t.keys, endsWith k (runtimeId env name branch) = false) ∧
      ('%' ∉ name.data →
        runtimeId env name branch = "runtime/" ++ name ++ "/" ++ branch)) := by
  refine ⟨⟨_, rfl⟩, fun h other => getRuntimeForApp_of_length_ne env other resource h,
    by decide, ?_⟩
  intro name arch branch hsplit
  have heq : getRuntimeForApp env t resource =
      t.keys.find? (fun id => endsWith id (runtimeId env name branch)) := by
    simp only [getRuntimeForApp, hsplit]
  refine ⟨fun key hkey => ?_, ?_, runtimeId_of_no_percent env name branch⟩
  · have hmem := getRuntimeForApp_mem_keys env t resource key hkey
    rw [heq] at hkey
    have hends : endsWith key (runtimeId env name branch) = true :=
      List.find?_some (p := fun id => endsWith id (runtimeId env name branch)) hkey
    exact ⟨Table.value_isSome_of_mem_keys t key hmem, hends,
      find_eq_some_split _ _ _ hkey⟩
  · rw [heq, List.find?_eq_none]
    simp only [Bool.not_eq_true]

/-- Witness of C27: in `twoPlatforms` two keys end with
`runtime/org.example.Platform/1.0`, the `runtimeId` of the runtime of Editor;
the answer for Editor is the first of them, the key of `armPlatform`; a
resource without a runtime string gets no runtime. -/
theorem getRuntimeForApp_total_witness :
    getRuntimeForApp Examples.bareNative Examples.twoPlatforms Examples.editorWithRuntime =
        some (uniqueId Examples.armPlatform) ∧
      Examples.twoPlatforms.keys =
        [uniqueId Examples.armPlatform, uniqueId Examples.platformSized] ∧
      endsWith (uniqueId Examples.platformSized) "runtime/org.example.Platform/1.0" = true ∧
      endsWith (uniqueId Examples.armPlatform)
        (runtimeId Examples.bareNative "org.example.Platform" "1.0") = true ∧
      runtimeId Examples.bareNative "org.example.Platform" "1.0" =
        "runtime/" ++ "org.example.Platform" ++ "/" ++ "1.0" ∧
      getRuntimeForApp Examples.bareNative Examples.twoPlatforms Examples.editorApp = none :=
  ⟨by decide, by decide, by decide,
    ((getRuntimeForApp_total Examples.bareNative Examples.twoPlatforms
      Examples.editorWithRuntime).2.2.2
      "org.example.Platform" "x86_64" "1.0" (by decide)).1
      (uniqueId Examples.armPlatform) (by decide) |>.2.1,
    ((getRuntimeForApp_total Examples.bareNative Examples.twoPlatforms
      Examples.editorWithRuntime).2.2.2
      "org.example.Platform" "x86_64" "1.0" (by decide)).2.2 (by decide),
    (getRuntimeForApp_total Examples.bareNative Examples.twoPlatforms Examples.editorApp).2.1
      (by decide) Examples.twoPlatforms⟩

/-! ## A match on architecture and branch with another name -/

/-- C12 fails on the code: `fooDesktop` is the app with the flatpak name
`org.example.Foo.desktop`; it has architecture and branch, and its `uniqueId`
differs from the identity of the installed ref of Foo, whose name is
`org.example.Foo`.  The direct lookup of `getInstalledRefForApp` finds no ref
of its name, so the installed refs are compared one by one, and
`compareAppFlatpakRef` answers true for the ref of Foo although the names
differ, because the flatpak name is compared with the application id
`org.example.Foo.desktop` of the ref and not with its name.  So
`getInstalledRefForApp` answers the ref of Foo and `addResource` takes
`fooDesktop` for installed. -/
theorem compareAppFlatpakRef_matches_other_name :
    Examples.fooDesktopParsed.m_arch ≠ "" ∧ Examples.fooDesktopParsed.m_branch ≠ "" ∧
      uniqueId Examples.fooDesktopParsed ≠
        refUniqueId Examples.bareNative Examples.fooSystem Examples.fooInstalledRef ∧
      Examples.fooDesktopParsed.m_arch = Examples.fooInstalledRef.ref.arch ∧
      Examples.fooDesktopParsed.m_branch = Examples.fooInstalledRef.ref.branch ∧
      Examples.bareNative.flatpakName Examples.fooDesktopParsed = "org.example.Foo.desktop" ∧
      Examples.fooInstalledRef.ref.name = "org.example.Foo" ∧
      Examples.bareNative.flatpakName Examples.fooDesktopParsed ≠
        Examples.fooInstalledRef.ref.name ∧
      Examples.fooSystem.getInstalledRef FlatpakRefKind.FLATPAK_REF_KIND_APP
        (Examples.bareNative.flatpakName Examples.fooDesktopParsed)
        Examples.fooDesktopParsed.m_arch Examples.fooDesktopParsed.m_branch = none ∧
      Examples.fooSystem.listInstalledRefsByKind FlatpakRefKind.FLATPAK_REF_KIND_APP =
        some [Examples.fooInstalledRef] ∧
      compareAppFlatpakRef Examples.bareNative Examples.fooSystem Examples.fooDesktopParsed
        Examples.fooInstalledRef = true ∧
      getInstalledRefForApp Examples.bareNative (some Examples.fooSystem)
        Examples.fooDesktopParsed = some Examples.fooInstalledRef ∧
      (addResourcePrepare Examples.bareNative (some Examples.fooSystem)
        (some Examples.bareUser) Examples.fooDesktop).m_state = State.Installed := by
  decide

/-! ## More nested calls change no result -/

theorem AppsApart.nil (env : Native) : AppsApart env [] := by
  intro key r hv
  simp [Table.value] at hv

end FlatpakBackend
